import Mathlib

/-!
# NNOS1: critical-section benchmark (bank withdrawals)

A shallow embedding of `src/8/bank_withdrawal_time.c` and `src/8/cs_methods.h`.

Machine integers: the program is built for an LP64 target (Linux, where the
POSIX and System V primitives it uses live), so `long` is a 64-bit and `int` a
32-bit two's-complement integer.  Values are carried as `Int` and every
arithmetic result that the C code stores into a `long` (resp. `int`) goes
through `wrapLong` (resp. `wrapInt`): this is the defined result for the
atomic read-modify-write on `balance_atomic` and for the conversion of a `long`
to `int`, and the result the target computes where signed overflow is left
undefined.  Every positive statement below is proved with the arithmetic shown
to stay in range, so it does not depend on what happens on overflow.

Threads: a shared array such as `withdrawn[MAX_THREADS]` is a function from the
slot to its value; an interleaving is a sequence of steps of a step relation,
each step taken by one thread.
-/

namespace NNOS1

/-! ## Machine integers -/

/-- The smallest `long`. -/
def LONG_MIN : Int := -(2 ^ 63)

/-- The largest `long`. -/
def LONG_MAX : Int := 2 ^ 63 - 1

/-- Two's-complement reduction of an integer into the range of `long`. -/
def wrapLong (x : Int) : Int := (x + 2 ^ 63) % 2 ^ 64 - 2 ^ 63

/-- Two's-complement reduction of an integer into the range of `int`
(the conversion performed when a `long` is stored into an `int`). -/
def wrapInt (x : Int) : Int := (x + 2 ^ 31) % 2 ^ 32 - 2 ^ 31

/-- The value is representable as a `long`. -/
def isLong (x : Int) : Prop := LONG_MIN ≤ x ∧ x ≤ LONG_MAX

instance (x : Int) : Decidable (isLong x) := by
  unfold isLong; exact inferInstance

/-! ## Constants of `cs_methods.h` and `bank_withdrawal_time.c` -/

def CS_METHOD_ATOMIC : Int := 0
def CS_METHOD_LOCKED : Int := 1
def CS_METHOD_XCHG : Int := 2
def CS_METHOD_TEST_XCHG : Int := 3
def CS_METHOD_MUTEX : Int := 4
def CS_METHOD_SEM_POSIX : Int := 5
def CS_METHOD_SEM_POSIX_NAMED : Int := 6
def CS_METHOD_SEM_SYSV : Int := 7
def CS_METHOD_MQ_POSIX : Int := 8
def CS_METHOD_MQ_SYSV : Int := 9

def CS_METHOD_MIN : Int := CS_METHOD_LOCKED
def CS_METHOD_MAX : Int := CS_METHOD_MQ_SYSV

def MAX_THREADS : Int := 1024
/-- Default transactions per thread, `1<<22`. -/
def PER_THREAD : Int := 2 ^ 22
/-- Default number of threads, `1<<3`. -/
def THREADS : Int := 2 ^ 3
def WITHDRAW_AMOUNT : Int := 1

/-- The value of `EXIT_SUCCESS` in `<stdlib.h>`. -/
def EXIT_SUCCESS : Int := 0
/-- The value of `EXIT_FAILURE` in `<stdlib.h>` (glibc and every POSIX libc). -/
def EXIT_FAILURE : Int := 1

/-! ## The shared ledger -/

/-- The ledger variables of `bank_withdrawal_time.c`: `balance`,
`balance_atomic` and the array `withdrawn[MAX_THREADS]` (indexed by slot). -/
structure Ledger where
  balance : Int
  balance_atomic : Int
  withdrawn : Nat → Int

/-- The function `withdraw` (lines 95-109), run without interruption:
the returned flag and the ledger afterwards. The subtraction is the one of the
target machine: the difference reduced into the range of `long`. -/
def withdraw (cs_method : Int) (amount : Int) (s : Ledger) : Bool × Ledger :=
  if cs_method = CS_METHOD_ATOMIC then
    if s.balance_atomic < amount then (false, s)
    else (true, { s with balance_atomic := wrapLong (s.balance_atomic - amount) })
  else
    if s.balance < amount then (false, s)
    else (true, { s with balance := wrapLong (s.balance - amount) })

/-- The balance variable the selected method works on: `balance_atomic` for
the Atomic method, `balance` otherwise (this is also what `main` reports,
lines 224-225). -/
def active_balance (cs_method : Int) (s : Ledger) : Int :=
  if cs_method = CS_METHOD_ATOMIC then s.balance_atomic else s.balance

/-- One iteration of the loop body of `do_withdrawals` (lines 123-134) for the
worker with slot `tid`, executed as one indivisible step: `withdraw(amount)`
and, on success, `withdrawn[tid] += amount`. -/
def withdrawal_round (cs_method : Int) (tid : Nat) (s : Ledger) : Ledger :=
  let amount := WITHDRAW_AMOUNT
  let r := withdraw cs_method amount s
  if r.1 then
    { r.2 with withdrawn :=
        Function.update r.2.withdrawn tid (wrapLong (r.2.withdrawn tid + amount)) }
  else r.2

/-- The ledger together with the loop variable `i` of every worker. -/
structure Workers where
  ledger : Ledger
  i : Nat → Int

/-- The ledger as `main` leaves it at line 155 (`withdrawn` is a zero-initialised
global array). -/
def initial_ledger (initial_amount : Int) : Ledger :=
  { balance := initial_amount, balance_atomic := initial_amount, withdrawn := fun _ => 0 }

/-- All workers at the start of their loop (`i = 0`). -/
def initial_workers (initial_amount : Int) : Workers :=
  { ledger := initial_ledger initial_amount, i := fun _ => 0 }

/-- The state after worker `tid` has run one loop iteration: the round, then `++i`. -/
def run_round (cs_method : Int) (tid : Nat) (s : Workers) : Workers :=
  { ledger := withdrawal_round cs_method tid s.ledger,
    i := Function.update s.i tid (wrapLong (s.i tid + 1)) }

/-- One step of the system of `thread_count` workers under exclusion: some
worker whose loop test `i < per_thread` holds runs one whole round. -/
inductive RoundStep (cs_method : Int) (thread_count : Nat) (per_thread : Int) :
    Workers → Workers → Prop
  | round (s : Workers) (tid : Nat) (htid : tid < thread_count)
      (hi : s.i tid < per_thread) :
      RoundStep cs_method thread_count per_thread s (run_round cs_method tid s)

/-- The states reachable from `s` by any interleaving of whole rounds. -/
def RoundReachable (cs_method : Int) (thread_count : Nat) (per_thread : Int) :
    Workers → Workers → Prop :=
  Relation.ReflTransGen (RoundStep cs_method thread_count per_thread)

/-- Every worker has left its loop (`i < per_thread` is false for all of them). -/
def all_done (thread_count : Nat) (per_thread : Int) (s : Workers) : Prop :=
  ∀ tid, tid < thread_count → ¬ s.i tid < per_thread

/-- An interleaving given as the list of the workers that run a round, in
order; an entry naming a worker that has finished (or no worker) is skipped. -/
def run_schedule (cs_method : Int) (thread_count : Nat) (per_thread : Int) :
    List Nat → Workers → Workers
  | [], s => s
  | tid :: rest, s =>
    if tid < thread_count ∧ s.i tid < per_thread then
      run_schedule cs_method thread_count per_thread rest (run_round cs_method tid s)
    else
      run_schedule cs_method thread_count per_thread rest s

/-- The mathematical sum `withdrawn[0] + ... + withdrawn[n-1]`. -/
def sum_withdrawn (withdrawn : Nat → Int) : Nat → Int
  | 0 => 0
  | n + 1 => sum_withdrawn withdrawn n + withdrawn n

/-- The loop of `main` at lines 217-222: `total_withdrawn += withdrawn[i]` for
`i = 0 .. thread_count-1`, in `long` arithmetic. -/
def total_withdrawn_loop (withdrawn : Nat → Int) : Nat → Int
  | 0 => 0
  | i + 1 => wrapLong (total_withdrawn_loop withdrawn i + withdrawn i)

/-- The end of `main` (lines 217-241) on the ledger left by the workers: the
exit status returned by the final check. -/
def main_check (cs_method : Int) (thread_count : Nat) (initial_amount : Int)
    (s : Ledger) : Int :=
  let total_withdrawn := total_withdrawn_loop s.withdrawn thread_count
  let balance := if cs_method = CS_METHOD_ATOMIC then s.balance_atomic else s.balance
  if balance ≠ wrapLong (initial_amount - total_withdrawn) then EXIT_FAILURE
  else EXIT_SUCCESS

/-- A sequence of uninterrupted `withdraw` calls with the given amounts: the
flags returned, in order, and the ledger after the last call. -/
def withdraw_seq (cs_method : Int) : List Int → Ledger → List Bool × Ledger
  | [], s => ([], s)
  | amount :: rest, s =>
    let r := withdraw cs_method amount s
    let q := withdraw_seq cs_method rest r.2
    (r.1 :: q.1, q.2)

/-- The balances observed after each call of a sequence of `withdraw` calls. -/
def balances_after (cs_method : Int) : List Int → Ledger → List Int
  | [], _ => []
  | amount :: rest, s =>
    let r := withdraw cs_method amount s
    active_balance cs_method r.2 :: balances_after cs_method rest r.2

/-- The sum of the amounts of the calls of a sequence that returned `true`. -/
def successful_total (cs_method : Int) : List Int → Ledger → Int
  | [], _ => 0
  | amount :: rest, s =>
    let r := withdraw cs_method amount s
    (if r.1 then amount else 0) + successful_total cs_method rest r.2

/-- The initial balance computed by `main` at line 155:
`thread_count * per_thread` in `long` arithmetic. -/
def initial_amount (thread_count per_thread : Int) : Int :=
  wrapLong (thread_count * per_thread)

/-- The ledger invariant for `n` workers and initial balance `B`, with the range
facts that keep the `long` arithmetic exact: the balance in use equals
`B - sum(withdrawn[0..n-1])`, no slot is negative, and either the balance is
non-negative or nothing was withdrawn. -/
def LedgerInv (cs_method : Int) (n : Nat) (B : Int) (s : Ledger) : Prop :=
  active_balance cs_method s = B - sum_withdrawn s.withdrawn n ∧
  (∀ j, 0 ≤ s.withdrawn j) ∧
  (0 ≤ active_balance cs_method s ∨ sum_withdrawn s.withdrawn n = 0)

/-- The number of rounds the workers `0..n-1` still have to run. -/
def rounds_left (per_thread : Int) (i : Nat → Int) : Nat → Nat
  | 0 => 0
  | n + 1 => rounds_left per_thread i n + (per_thread - i n).toNat

/-- No subtraction executed by a sequence of `withdraw` calls leaves the range
of `long`: before each call, `balance - amount` is at most `LONG_MAX`. -/
def fits_long (cs_method : Int) : List Int → Ledger → Prop
  | [], _ => True
  | amount :: rest, s =>
    active_balance cs_method s - amount ≤ LONG_MAX ∧
      fits_long cs_method rest (withdraw cs_method amount s).2

/-! ## The exchange spin lock (`CS_METHOD_XCHG`) as a transition system -/

/-- The operation `atomic_flag_test_and_set`: the value returned (the old flag)
and the new flag, which is always set. -/
def atomic_flag_test_and_set (flag : Bool) : Bool × Bool := (flag, true)

/-- The operation `atomic_flag_clear`: the new flag. -/
def atomic_flag_clear : Bool := false

/-- Where a thread stands with respect to the exchange lock:
`idle` outside `cs_enter` and not holding; `testing` inside `cs_enter`, about to
execute `atomic_flag_test_and_set` (the loop test, line 296); `yielding` in the
loop body after a failed test (lines 297-299); `holding` after `cs_enter` has
returned and before `cs_leave` has executed `atomic_flag_clear`. -/
inductive XPc
  | idle
  | testing
  | yielding
  | holding
  deriving DecidableEq, Repr

/-- The flag `xchg_locked` and the program counter of every thread. -/
structure XchgState where
  xchg_locked : Bool
  pc : Nat → XPc

/-- The state produced by `cs_init(CS_METHOD_XCHG)` (line 102): the flag is
clear and no thread holds the lock. -/
def xchg_init : XchgState :=
  { xchg_locked := atomic_flag_clear, pc := fun _ => XPc.idle }

/-- The next atomic step of thread `t`: calling `cs_enter`, one
`atomic_flag_test_and_set`, one pass through the loop body (with or without
`sched_yield`), or, for the holder only, the `atomic_flag_clear` of `cs_leave`. -/
def xchg_thread_step (t : Nat) (s : XchgState) : XchgState :=
  match s.pc t with
  | XPc.idle => { s with pc := Function.update s.pc t XPc.testing }
  | XPc.testing =>
    let r := atomic_flag_test_and_set s.xchg_locked
    { xchg_locked := r.2,
      pc := Function.update s.pc t (if r.1 then XPc.yielding else XPc.holding) }
  | XPc.yielding => { s with pc := Function.update s.pc t XPc.testing }
  | XPc.holding =>
    { xchg_locked := atomic_flag_clear, pc := Function.update s.pc t XPc.idle }

/-- One step of the system of `n` threads: any thread `t < n` takes its next
atomic step. -/
inductive XchgStep (n : Nat) : XchgState → XchgState → Prop
  | step (s : XchgState) (t : Nat) (ht : t < n) : XchgStep n s (xchg_thread_step t s)

/-- The states reachable from `s` under any schedule. -/
def XchgReachable (n : Nat) : XchgState → XchgState → Prop :=
  Relation.ReflTransGen (XchgStep n)

/-- The invariant of the exchange lock: holders are unique, and while there is
a holder the flag is set. -/
def XchgInv (s : XchgState) : Prop :=
  (∀ t u, s.pc t = XPc.holding → s.pc u = XPc.holding → t = u) ∧
  (∀ t, s.pc t = XPc.holding → s.xchg_locked = true)

/-! ## The naive spin flag (`CS_METHOD_LOCKED`) as a transition system -/

/-- Where a worker stands in `do_withdrawals` under the naive flag, with every
access to a shared variable a step of its own:
`loop_test` the test `i < per_thread` (line 121); `enter_test` the read of
`locked` in `while (locked)` (line 277); `enter_yield` the loop body
(lines 278-280); `enter_set` the write `locked = true` (line 282);
`check` the read of `balance` in `balance < amount` (line 104); `load` the read
of `balance` in `balance -= amount` (line 106); `store r` the write of
`r - amount` to `balance`, `r` being the value read; `credit` the statement
`withdrawn[tid] += amount` (line 128); `leave` the write `locked = false` of
`cs_leave` (line 342) followed by `++i`; `done` after the loop. -/
inductive NPc
  | loop_test
  | enter_test
  | enter_yield
  | enter_set
  | check
  | load
  | store (r : Int)
  | credit
  | leave
  | done
  deriving DecidableEq, Repr

/-- The flag `locked`, the ledger, and the loop variable and program counter of
every worker. -/
structure NaiveState where
  locked : Bool
  ledger : Ledger
  i : Nat → Int
  pc : Nat → NPc

/-- The state after `main` has set the balance and `cs_init(CS_METHOD_LOCKED)`
has cleared `locked` (line 99), every worker at the start of its loop. -/
def naive_init (initial_amount : Int) : NaiveState :=
  { locked := false, ledger := initial_ledger initial_amount, i := fun _ => 0,
    pc := fun _ => NPc.loop_test }

/-- The next step of worker `tid`. -/
def naive_thread_step (per_thread : Int) (tid : Nat) (s : NaiveState) : NaiveState :=
  match s.pc tid with
  | NPc.loop_test =>
    let next := if s.i tid < per_thread then NPc.enter_test else NPc.done
    { s with pc := Function.update s.pc tid next }
  | NPc.enter_test =>
    let next := if s.locked = true then NPc.enter_yield else NPc.enter_set
    { s with pc := Function.update s.pc tid next }
  | NPc.enter_yield => { s with pc := Function.update s.pc tid NPc.enter_test }
  | NPc.enter_set => { s with locked := true, pc := Function.update s.pc tid NPc.check }
  | NPc.check =>
    let next := if s.ledger.balance < WITHDRAW_AMOUNT then NPc.leave else NPc.load
    { s with pc := Function.update s.pc tid next }
  | NPc.load => { s with pc := Function.update s.pc tid (NPc.store s.ledger.balance) }
  | NPc.store r =>
    let balance := wrapLong (r - WITHDRAW_AMOUNT)
    { s with
      ledger := { s.ledger with balance := balance },
      pc := Function.update s.pc tid NPc.credit }
  | NPc.credit =>
    let slot := wrapLong (s.ledger.withdrawn tid + WITHDRAW_AMOUNT)
    { s with
      ledger := { s.ledger with withdrawn := Function.update s.ledger.withdrawn tid slot },
      pc := Function.update s.pc tid NPc.leave }
  | NPc.leave =>
    { s with
      locked := false,
      i := Function.update s.i tid (wrapLong (s.i tid + 1)),
      pc := Function.update s.pc tid NPc.loop_test }
  | NPc.done => s

/-- The worker is between `cs_enter` and `cs_leave`: `cs_enter` has returned
and the write of `cs_leave` has not been executed yet. -/
def in_critical : NPc → Bool
  | NPc.check => true
  | NPc.load => true
  | NPc.store _ => true
  | NPc.credit => true
  | NPc.leave => true
  | _ => false

/-- One step of the system of `n` workers: a worker that has not finished
takes its next step. -/
inductive NaiveStep (n : Nat) (per_thread : Int) : NaiveState → NaiveState → Prop
  | step (s : NaiveState) (tid : Nat) (htid : tid < n) (hpc : s.pc tid ≠ NPc.done) :
      NaiveStep n per_thread s (naive_thread_step per_thread tid s)

/-- The states reachable from `s` under any schedule. -/
def NaiveReachable (n : Nat) (per_thread : Int) : NaiveState → NaiveState → Prop :=
  Relation.ReflTransGen (NaiveStep n per_thread)

/-- A schedule given as the list of the workers that take a step, in order
(an entry that names no worker is skipped). -/
def naive_run (n : Nat) (per_thread : Int) : List Nat → NaiveState → NaiveState
  | [], s => s
  | tid :: rest, s =>
    if tid < n then naive_run n per_thread rest (naive_thread_step per_thread tid s)
    else naive_run n per_thread rest s

/-- At most one worker is between `cs_enter` and `cs_leave`. -/
def exclusive (s : NaiveState) : Prop :=
  ∀ a b, in_critical (s.pc a) = true → in_critical (s.pc b) = true → a = b

/-- A step of the naive system after which exclusion holds. -/
def ExclStep (n : Nat) (per_thread : Int) (s t : NaiveState) : Prop :=
  NaiveStep n per_thread s t ∧ exclusive t

/-- The states reachable from `s` along schedules on which at most one worker
is between `cs_enter` and `cs_leave` at any time. -/
def ExclReachable (n : Nat) (per_thread : Int) : NaiveState → NaiveState → Prop :=
  Relation.ReflTransGen (ExclStep n per_thread)

/-- Every worker has left its loop. -/
def naive_done (n : Nat) (s : NaiveState) : Prop :=
  ∀ tid, tid < n → s.pc tid = NPc.done

/-- The invariant of the naive system along exclusive schedules, for `n`
workers and initial balance `B`. -/
structure NaiveInv (n : Nat) (B : Int) (s : NaiveState) : Prop where
  excl : exclusive s
  range : ∀ t, in_critical (s.pc t) = true → t < n
  nonneg : ∀ j, 0 ≤ s.ledger.withdrawn j
  stored : ∀ t r, s.pc t = NPc.store r → r = s.ledger.balance ∧ 1 ≤ r
  loaded : ∀ t, s.pc t = NPc.load → 1 ≤ s.ledger.balance
  settled : (∀ t, s.pc t ≠ NPc.credit) →
    s.ledger.balance = B - sum_withdrawn s.ledger.withdrawn n ∧
      (0 ≤ s.ledger.balance ∨ sum_withdrawn s.ledger.withdrawn n = 0)
  pending : ∀ t, s.pc t = NPc.credit →
    s.ledger.balance + 1 = B - sum_withdrawn s.ledger.withdrawn n ∧ 0 ≤ s.ledger.balance

/-- Exclusion among the workers `0..n-1`, as a test. -/
def exclusive_upto (n : Nat) (s : NaiveState) : Bool :=
  decide (∀ a, a < n → ∀ b, b < n →
    in_critical (s.pc a) = true → in_critical (s.pc b) = true → a = b)

/-- The schedule is one of the naive system on which exclusion holds after
every step: each entry names a worker that has not finished. -/
def naive_run_exclusive (n : Nat) (per_thread : Int) : List Nat → NaiveState → Bool
  | [], _ => true
  | tid :: rest, s =>
    decide (tid < n) && decide (s.pc tid ≠ NPc.done) &&
      exclusive_upto n (naive_thread_step per_thread tid s) &&
      naive_run_exclusive n per_thread rest (naive_thread_step per_thread tid s)

/-- The threads beyond the `n` workers never run. -/
def idle_beyond (n : Nat) (s : NaiveState) : Prop :=
  ∀ a, n ≤ a → s.pc a = NPc.loop_test

/-! ## Argument evaluation, `cs_init` and `main` -/

/-- The global variables set from the command line (`bank_withdrawal_time.c`
lines 30-40 and `busy_wait_yields` of `cs_methods.h`). -/
structure Config where
  do_sync_start : Bool
  per_thread : Int
  thread_count : Int
  verbose : Int
  cs_method : Int
  busy_wait_yields : Bool
  deriving DecidableEq, Repr

/-- The initial values of the global variables. -/
def default_config : Config :=
  { do_sync_start := true, per_thread := PER_THREAD, thread_count := THREADS,
    verbose := 1, cs_method := -1, busy_wait_yields := false }

/-- One option as delivered by `getopt`; an option with an argument carries the
`long` returned by `strtol(optarg, NULL, 0)`. `unknown` stands for every return
value of `getopt` without a `case` of its own (`'?'`, `a`, `f`, `s`). -/
inductive Opt
  | c (value : Int)
  | t (value : Int)
  | q
  | v
  | w
  | m (value : Int)
  | y
  | h
  | unknown
  deriving DecidableEq, Repr

/-- The body of the `switch` of `eval_args` (lines 296-340) for one option:
the exit status if the process exits, the updated variables otherwise. The
assignments to the `int` variables `thread_count` and `cs_method` convert the
`long` result of `strtol` to `int`. -/
def eval_option (cfg : Config) : Opt → Except Int Config
  | Opt.c value =>
    let thread_count := wrapInt value
    if thread_count < 1 ∨ thread_count > MAX_THREADS then Except.error 2
    else Except.ok { cfg with thread_count := thread_count }
  | Opt.t value => Except.ok { cfg with per_thread := value }
  | Opt.q => Except.ok { cfg with verbose := 0 }
  | Opt.v => Except.ok { cfg with verbose := wrapInt (cfg.verbose + 1) }
  | Opt.w => Except.ok { cfg with do_sync_start := true }
  | Opt.m value => Except.ok { cfg with cs_method := wrapInt value }
  | Opt.y => Except.ok { cfg with busy_wait_yields := true }
  | Opt.h => Except.error EXIT_SUCCESS
  | Opt.unknown => Except.error 2

/-- The function `eval_args` (lines 289-342): the options are processed in
order until one makes the process exit. -/
def eval_args (cfg : Config) : List Opt → Except Int Config
  | [] => Except.ok cfg
  | o :: rest =>
    match eval_option cfg o with
    | Except.error status => Except.error status
    | Except.ok cfg' => eval_args cfg' rest

/-- The static variables of `cs_methods.h` that `cs_init` writes without a
system call. -/
structure Controller where
  cs_method_used : Int
  cs_var_allocated : Bool
  locked : Bool
  xchg_locked : Bool
  deriving DecidableEq, Repr

/-- The controller variables at program start (lines 41-42, 83-84). -/
def initial_controller : Controller :=
  { cs_method_used := -1, cs_var_allocated := false, locked := false, xchg_locked := false }

/-- The system calls issued by `cs_init`. -/
inductive Call
  | pthread_mutex_init
  | sem_init
  | sem_open
  | sem_unlink
  | semget
  | semctl_SETVAL
  | mq_open
  | mq_unlink
  | mq_send
  | msgget
  | msgsnd
  deriving DecidableEq, Repr

/-- The outcome of `cs_init`: the controller variables, the system calls
issued in order, and the exit status if `cs_init` called `exit`. -/
structure InitResult where
  ctl : Controller
  calls : List Call
  exit_status : Option Int
  deriving DecidableEq, Repr

/-- The case `CS_METHOD_MUTEX` of `cs_init` (lines 104-111); `c` holds the
controller variables on entry to the `switch`. -/
def cs_init_mutex (fails : Call → Bool) (c : Controller) : InitResult :=
  if fails Call.pthread_mutex_init then
    { ctl := c, calls := [Call.pthread_mutex_init], exit_status := some EXIT_FAILURE }
  else
    { ctl := { c with cs_var_allocated := true }, calls := [Call.pthread_mutex_init],
      exit_status := none }

/-- The case `CS_METHOD_SEM_POSIX` of `cs_init` (lines 112-119). -/
def cs_init_sem_posix (fails : Call → Bool) (c : Controller) : InitResult :=
  if fails Call.sem_init then
    { ctl := c, calls := [Call.sem_init], exit_status := some EXIT_FAILURE }
  else
    { ctl := { c with cs_var_allocated := true }, calls := [Call.sem_init],
      exit_status := none }

/-- The case `CS_METHOD_SEM_POSIX_NAMED` of `cs_init` (lines 120-137). -/
def cs_init_sem_posix_named (fails : Call → Bool) (c : Controller) : InitResult :=
  if fails Call.sem_open then
    { ctl := c, calls := [Call.sem_open], exit_status := some EXIT_FAILURE }
  else if fails Call.sem_unlink then
    { ctl := c, calls := [Call.sem_open, Call.sem_unlink], exit_status := some EXIT_FAILURE }
  else
    { ctl := { c with cs_var_allocated := true }, calls := [Call.sem_open, Call.sem_unlink],
      exit_status := none }

/-- The case `CS_METHOD_SEM_SYSV` of `cs_init` (lines 138-158). -/
def cs_init_sem_sysv (fails : Call → Bool) (c : Controller) : InitResult :=
  if fails Call.semget then
    { ctl := c, calls := [Call.semget], exit_status := some EXIT_FAILURE }
  else if fails Call.semctl_SETVAL then
    { ctl := c, calls := [Call.semget, Call.semctl_SETVAL], exit_status := some EXIT_FAILURE }
  else
    { ctl := { c with cs_var_allocated := true },
      calls := [Call.semget, Call.semctl_SETVAL], exit_status := none }

/-- The case `CS_METHOD_MQ_POSIX` of `cs_init` (lines 159-187). -/
def cs_init_mq_posix (fails : Call → Bool) (c : Controller) : InitResult :=
  if fails Call.mq_open then
    { ctl := c, calls := [Call.mq_open], exit_status := some EXIT_FAILURE }
  else if fails Call.mq_unlink then
    { ctl := c, calls := [Call.mq_open, Call.mq_unlink], exit_status := some EXIT_FAILURE }
  else if fails Call.mq_send then
    { ctl := c, calls := [Call.mq_open, Call.mq_unlink, Call.mq_send],
      exit_status := some EXIT_FAILURE }
  else
    { ctl := { c with cs_var_allocated := true },
      calls := [Call.mq_open, Call.mq_unlink, Call.mq_send], exit_status := none }

/-- The case `CS_METHOD_MQ_SYSV` of `cs_init` (lines 188-205). -/
def cs_init_mq_sysv (fails : Call → Bool) (c : Controller) : InitResult :=
  if fails Call.msgget then
    { ctl := c, calls := [Call.msgget], exit_status := some EXIT_FAILURE }
  else if fails Call.msgsnd then
    { ctl := c, calls := [Call.msgget, Call.msgsnd], exit_status := some EXIT_FAILURE }
  else
    { ctl := { c with cs_var_allocated := true }, calls := [Call.msgget, Call.msgsnd],
      exit_status := none }

/-- The function `cs_init` of `src/8/cs_methods.h` (lines 91-211); `fails` tells
which system calls report failure. The first three cases `return` before
`cs_var_allocated = true`; the `default` case calls `exit(EXIT_FAILURE)`. -/
def cs_init (fails : Call → Bool) (method : Int) (c0 : Controller) : InitResult :=
  let c := { c0 with cs_method_used := method }
  if method = CS_METHOD_ATOMIC then
    { ctl := c, calls := [], exit_status := none }
  else if method = CS_METHOD_LOCKED ∨ method = CS_METHOD_TEST_XCHG then
    { ctl := { c with locked := false }, calls := [], exit_status := none }
  else if method = CS_METHOD_XCHG then
    { ctl := { c with xchg_locked := atomic_flag_clear }, calls := [], exit_status := none }
  else if method = CS_METHOD_MUTEX then cs_init_mutex fails c
  else if method = CS_METHOD_SEM_POSIX then cs_init_sem_posix fails c
  else if method = CS_METHOD_SEM_POSIX_NAMED then cs_init_sem_posix_named fails c
  else if method = CS_METHOD_SEM_SYSV then cs_init_sem_sysv fails c
  else if method = CS_METHOD_MQ_POSIX then cs_init_mq_posix fails c
  else if method = CS_METHOD_MQ_SYSV then cs_init_mq_sysv fails c
  else
    { ctl := c, calls := [], exit_status := some EXIT_FAILURE }

/-- What `main` does that is visible outside the ledger, in order. -/
inductive Event
  | atexit_release_resources
  | cs_init (method : Int)
  | call (c : Call)
  | pthread_barrier_init (count : Int)
  | time_init
  | pthread_create (i : Nat)
  | pthread_join (i : Nat)
  deriving DecidableEq, Repr

/-- The environment of `main`: which system calls of `cs_init` fail, and the
error numbers returned by `pthread_barrier_init`, `pthread_create` (per index)
and `pthread_join` (per index). -/
structure OS where
  fails : Call → Bool
  barrier_init_errno : Int
  create_errno : Nat → Int
  join_errno : Nat → Int

/-- The events of a run of `main` and the exit status of the process. -/
structure MainResult where
  events : List Event
  status : Int

/-- The thread-creation loop of `main` (lines 184-190) from index `i` with
`todo` iterations left: the values `t[i] = i` handed to the workers that were
started, and whether a `pthread_create` failed. -/
def create_threads (create_errno : Nat → Int) : Nat → Nat → List Nat × Bool
  | 0, _ => ([], false)
  | todo + 1, i =>
    if create_errno i ≠ 0 then ([], true)
    else
      (i :: (create_threads create_errno todo (i + 1)).1,
        (create_threads create_errno todo (i + 1)).2)

/-- The join loop of `main` (lines 196-200) from index `i` with `todo`
iterations left: the indices joined, and whether a `pthread_join` failed. -/
def join_threads (join_errno : Nat → Int) : Nat → Nat → List Nat × Bool
  | 0, _ => ([], false)
  | todo + 1, i =>
    if join_errno i ≠ 0 then ([], true)
    else
      (i :: (join_threads join_errno todo (i + 1)).1,
        (join_threads join_errno todo (i + 1)).2)

/-- The function `main` (lines 144-242) after `eval_args` has returned `cfg`.
`workers` is the combined effect of the worker threads on the ledger set up at
line 155: the ledger they leave, or `none` when a worker terminated the process
from `sync_threads` with `exit(3)`. -/
def main (cfg : Config) (os : OS) (ctl : Controller) (workers : Ledger → Option Ledger) :
    MainResult :=
  let initial := initial_amount cfg.thread_count cfg.per_thread
  if cfg.cs_method ≠ CS_METHOD_ATOMIC ∧
      (cfg.cs_method < CS_METHOD_MIN ∨ cfg.cs_method > CS_METHOD_MAX) then
    { events := [], status := 2 }
  else
    let r := cs_init os.fails cfg.cs_method ctl
    let ev1 := [Event.atexit_release_resources, Event.cs_init cfg.cs_method] ++
      r.calls.map Event.call
    match r.exit_status with
    | some status => { events := ev1, status := status }
    | none =>
      if cfg.do_sync_start = true ∧ os.barrier_init_errno ≠ 0 then
        { events := ev1 ++ [Event.pthread_barrier_init cfg.thread_count], status := 3 }
      else
        let ev2 := ev1 ++
          [if cfg.do_sync_start = true then Event.pthread_barrier_init cfg.thread_count
            else Event.time_init]
        let cr := create_threads os.create_errno cfg.thread_count.toNat 0
        let ev3 := ev2 ++ cr.1.map Event.pthread_create
        if cr.2 = true then
          { events := ev3 ++ [Event.pthread_create cr.1.length], status := EXIT_FAILURE }
        else
          match workers (initial_ledger initial) with
          | none => { events := ev3, status := 3 }
          | some after =>
            let jn := join_threads os.join_errno cfg.thread_count.toNat 0
            let ev4 := ev3 ++ jn.1.map Event.pthread_join
            if jn.2 = true then
              { events := ev4 ++ [Event.pthread_join jn.1.length], status := EXIT_FAILURE }
            else
              { events := ev4,
                status := main_check cfg.cs_method cfg.thread_count.toNat initial after }

/-- The whole program: `eval_args` on the initial variables, then `main`; the
exit status of the process. -/
def run_program (opts : List Opt) (os : OS) (workers : Ledger → Option Ledger) : Int :=
  match eval_args default_config opts with
  | Except.error status => status
  | Except.ok cfg => (main cfg os initial_controller workers).status

/-- The method selector is one `main` accepts: Atomic, or within
`CS_METHOD_MIN .. CS_METHOD_MAX`. -/
def valid_method (m : Int) : Prop := m = 0 ∨ (1 ≤ m ∧ m ≤ 9)

instance (m : Int) : Decidable (valid_method m) := by
  unfold valid_method; exact inferInstance

/-- An environment in which no system call fails. -/
def os_ok : OS :=
  { fails := fun _ => false, barrier_init_errno := 0, create_errno := fun _ => 0,
    join_errno := fun _ => 0 }

/-- The workers as an oracle for `main` when the method excludes: the rounds
are run in the order given by a schedule (no worker calls `exit`). -/
def exclusive_workers (cfg : Config) (schedule : List Nat) : Ledger → Option Ledger :=
  fun s =>
    some (run_schedule cfg.cs_method cfg.thread_count.toNat cfg.per_thread schedule
      { ledger := s, i := fun _ => 0 }).ledger

/-- The workers as an oracle for `main` under the naive flag: the steps are
taken in the order given by a schedule. -/
def naive_workers (cfg : Config) (schedule : List Nat) : Ledger → Option Ledger :=
  fun s =>
    some (naive_run cfg.thread_count.toNat cfg.per_thread schedule
      { locked := false, ledger := s, i := fun _ => 0, pc := fun _ => NPc.loop_test }).ledger

/-- An environment in which `pthread_mutex_init` fails and nothing else does. -/
def os_mutex_init_fails : OS :=
  { fails := fun c => decide (c = Call.pthread_mutex_init), barrier_init_errno := 0,
    create_errno := fun _ => 0, join_errno := fun _ => 0 }

/-! ## Kernel objects, `cs_destroy` and process exit -/

/-- The synchronisation objects the controller can hold, as the operating
system sees them. `none` means the object does not exist (or, for a handle, is
not open); otherwise the field carries the object's token: for the mutex
whether it is locked, for a semaphore its value, for a queue the number of
messages in it. The two names are the entries `SEM_NAME` and `MQ_POSIX_NAME`
of the system-wide namespace. -/
structure Kernel where
  mutex : Option Bool
  sem_posix : Option Nat
  sem_named : Option Nat
  sem_name : Bool
  sem_sysv : Option Nat
  mq_posix : Option Nat
  mq_posix_name : Bool
  mq_sysv : Option Nat
  deriving DecidableEq, Repr

/-- No object exists and no name is taken. -/
def empty_kernel : Kernel :=
  { mutex := none, sem_posix := none, sem_named := none, sem_name := false,
    sem_sysv := none, mq_posix := none, mq_posix_name := false, mq_sysv := none }

/-- The controller variables, the pointer `psem_named_locked` (`true` when it
holds a handle returned by `sem_open`, `false` for `SEM_FAILED`), and the kernel
objects. -/
structure System where
  ctl : Controller
  psem_named_locked : Bool
  kernel : Kernel
  deriving DecidableEq, Repr

/-- The system at program start. -/
def initial_system : System :=
  { ctl := initial_controller, psem_named_locked := false, kernel := empty_kernel }

/-- The effect on the kernel objects of a call of `cs_init` that succeeds:
`sem_init(.., 0, 1)`, `sem_open(.., 1)` and `semctl(.., SETVAL, 1)` give the
value 1; `sem_open` and `mq_open` create the object and its name, `sem_unlink`
and `mq_unlink` remove the name; `mq_send` and `msgsnd` add one message. -/
def call_effect : Call → Kernel → Kernel
  | Call.pthread_mutex_init, k => { k with mutex := some false }
  | Call.sem_init, k => { k with sem_posix := some 1 }
  | Call.sem_open, k => { k with sem_named := some 1, sem_name := true }
  | Call.sem_unlink, k => { k with sem_name := false }
  | Call.semget, k => { k with sem_sysv := some 0 }
  | Call.semctl_SETVAL, k => { k with sem_sysv := k.sem_sysv.map (fun _ => 1) }
  | Call.mq_open, k => { k with mq_posix := some 0, mq_posix_name := true }
  | Call.mq_unlink, k => { k with mq_posix_name := false }
  | Call.mq_send, k => { k with mq_posix := k.mq_posix.map (fun n => n + 1) }
  | Call.msgget, k => { k with mq_sysv := some 0 }
  | Call.msgsnd, k => { k with mq_sysv := k.mq_sysv.map (fun n => n + 1) }

/-- The call `sem_open` resp. `mq_open` with `O_CREAT|O_EXCL` fails because the
name exists already. -/
def name_exists (k : Kernel) : Call → Bool
  | Call.sem_open => k.sem_name
  | Call.mq_open => k.mq_posix_name
  | _ => false

/-- Whether a call of `cs_init` fails: for a reason given by the environment
(`fails`), or because the name it is to create exclusively exists. -/
def call_fails (fails : Call → Bool) (k : Kernel) (c : Call) : Bool :=
  fails c || name_exists k c

/-- The kernel objects after the calls issued by `cs_init`: every call takes
effect unless it failed. -/
def kernel_after (failed : Call → Bool) : List Call → Kernel → Kernel
  | [], k => k
  | c :: rest, k => kernel_after failed rest (if failed c then k else call_effect c k)

/-- The outcome of `cs_init` on the whole system. -/
structure InitOutcome where
  sys : System
  calls : List Call
  exit_status : Option Int
  deriving DecidableEq, Repr

/-- The function `cs_init` of `src/8` run on the whole system: the control flow
is `cs_init`, the calls act on the kernel objects, and `psem_named_locked`
receives the result of `sem_open` (line 121). -/
def cs_init_system (fails : Call → Bool) (method : Int) (s : System) : InitOutcome :=
  let failed := call_fails fails s.kernel
  let r := cs_init failed method s.ctl
  let handle := if method = CS_METHOD_SEM_POSIX_NAMED then !(failed Call.sem_open)
    else s.psem_named_locked
  { sys := { ctl := r.ctl, psem_named_locked := handle,
             kernel := kernel_after failed r.calls s.kernel },
    calls := r.calls, exit_status := r.exit_status }

/-- The system calls issued by `cs_destroy`. -/
inductive ReleaseCall
  | pthread_mutex_destroy
  | sem_destroy
  | sem_close
  | semctl_IPC_RMID
  | mq_close
  | msgctl_IPC_RMID
  deriving DecidableEq, Repr

/-- The effect on the kernel objects of a release call that succeeds. -/
def release_effect : ReleaseCall → Kernel → Kernel
  | ReleaseCall.pthread_mutex_destroy, k => { k with mutex := none }
  | ReleaseCall.sem_destroy, k => { k with sem_posix := none }
  | ReleaseCall.sem_close, k => { k with sem_named := none }
  | ReleaseCall.semctl_IPC_RMID, k => { k with sem_sysv := none }
  | ReleaseCall.mq_close, k => { k with mq_posix := none }
  | ReleaseCall.msgctl_IPC_RMID, k => { k with mq_sysv := none }

/-- The outcome of `cs_destroy`: the system afterwards, the release calls issued,
the failures reported with `perror`, and the exit status if `cs_destroy` called
`exit`. -/
structure DestroyResult where
  sys : System
  calls : List ReleaseCall
  reported : List ReleaseCall
  exit_status : Option Int
  deriving DecidableEq, Repr

/-- One release call of `cs_destroy` in `src/8`: a failure is reported with
`perror` and nothing else happens. -/
def release_call (fails : ReleaseCall → Bool) (c : ReleaseCall) (s : System) :
    DestroyResult :=
  if fails c then { sys := s, calls := [c], reported := [c], exit_status := none }
  else
    { sys := { s with kernel := release_effect c s.kernel }, calls := [c], reported := [],
      exit_status := none }

/-- The `switch` of `cs_destroy` in `src/8` (lines 218-266). -/
def cs_destroy_switch (fails : ReleaseCall → Bool) (s : System) : DestroyResult :=
  let m := s.ctl.cs_method_used
  if m = CS_METHOD_MUTEX then release_call fails ReleaseCall.pthread_mutex_destroy s
  else if m = CS_METHOD_SEM_POSIX then release_call fails ReleaseCall.sem_destroy s
  else if m = CS_METHOD_SEM_POSIX_NAMED then
    let r := release_call fails ReleaseCall.sem_close s
    { r with sys := { r.sys with psem_named_locked := false } }
  else if m = CS_METHOD_SEM_SYSV then release_call fails ReleaseCall.semctl_IPC_RMID s
  else if m = CS_METHOD_MQ_POSIX then release_call fails ReleaseCall.mq_close s
  else if m = CS_METHOD_MQ_SYSV then release_call fails ReleaseCall.msgctl_IPC_RMID s
  else { sys := s, calls := [], reported := [], exit_status := none }

/-- The function `cs_destroy` of `src/8/cs_methods.h` (lines 214-268). -/
def cs_destroy (fails : ReleaseCall → Bool) (s : System) : DestroyResult :=
  if s.ctl.cs_var_allocated = false then
    { sys := s, calls := [], reported := [], exit_status := none }
  else
    let r := cs_destroy_switch fails s
    let ctl := { r.sys.ctl with cs_var_allocated := false }
    { r with sys := { r.sys with ctl := ctl } }

/-- The function `release_resources` (lines 56-67), the `atexit` handler:
the barrier is destroyed if it was initialised (`barrier_destroy_errno` is the
result of `pthread_barrier_destroy`), then `cs_destroy` runs. Returns the new
value of `sync_start_barrier_initialized` and the outcome of `cs_destroy`. -/
def release_resources (barrier_destroy_errno : Int) (fails : ReleaseCall → Bool)
    (sync_start_barrier_initialized : Bool) (s : System) : Bool × DestroyResult :=
  let barrier :=
    if sync_start_barrier_initialized = true then
      (if barrier_destroy_errno ≠ 0 then true else false)
    else sync_start_barrier_initialized
  (barrier, cs_destroy fails s)

/-- What the operating system does to the objects when the process has
terminated: everything that lives in the process (the mutex, the unnamed
semaphore, the open handle of the named semaphore, the open queue descriptor)
is gone; System V objects and names stay until they are removed. -/
def process_terminated (k : Kernel) : Kernel :=
  { k with mutex := none, sem_posix := none, sem_named := none, mq_posix := none }

/-! ## `cs_enter` and `cs_leave`, one thread at a time -/

/-- The system calls issued by `cs_enter` and `cs_leave`. -/
inductive LockCall
  | pthread_mutex_lock
  | pthread_mutex_unlock
  | sem_wait
  | sem_post
  | sem_wait_named
  | sem_post_named
  | semop_wait
  | semop_post
  | mq_receive
  | mq_send
  | msgrcv
  | msgsnd
  deriving DecidableEq, Repr

/-- What a call of `cs_enter` or `cs_leave` does when no other thread runs: it
succeeds and leaves the kernel objects in a new state, it reports failure, or
it blocks for ever. -/
inductive CallOutcome
  | done (k : Kernel)
  | failed
  | blocked
  deriving DecidableEq, Repr

/-- Taking one unit from a token: blocks on 0, fails when the object does not
exist. -/
def take_token (token : Option Nat) (put : Option Nat → Kernel) : CallOutcome :=
  match token with
  | none => CallOutcome.failed
  | some 0 => CallOutcome.blocked
  | some (n + 1) => CallOutcome.done (put (some n))

/-- Adding one unit to a token: fails when the object does not exist. -/
def give_token (token : Option Nat) (put : Option Nat → Kernel) : CallOutcome :=
  match token with
  | none => CallOutcome.failed
  | some n => CallOutcome.done (put (some (n + 1)))

/-- The behaviour of the calls of `cs_enter` and `cs_leave` on the kernel
objects; `fails` lets the environment make a call report failure. The POSIX
queue holds at most `mq_maxmsg = 1` message, so `mq_send` blocks on a full
queue. -/
def lock_call (fails : LockCall → Bool) (c : LockCall) (k : Kernel) : CallOutcome :=
  if fails c then CallOutcome.failed
  else
    match c with
    | LockCall.pthread_mutex_lock =>
      match k.mutex with
      | none => CallOutcome.failed
      | some true => CallOutcome.blocked
      | some false => CallOutcome.done { k with mutex := some true }
    | LockCall.pthread_mutex_unlock =>
      match k.mutex with
      | none => CallOutcome.failed
      | some _ => CallOutcome.done { k with mutex := some false }
    | LockCall.sem_wait => take_token k.sem_posix (fun v => { k with sem_posix := v })
    | LockCall.sem_post => give_token k.sem_posix (fun v => { k with sem_posix := v })
    | LockCall.sem_wait_named => take_token k.sem_named (fun v => { k with sem_named := v })
    | LockCall.sem_post_named => give_token k.sem_named (fun v => { k with sem_named := v })
    | LockCall.semop_wait => take_token k.sem_sysv (fun v => { k with sem_sysv := v })
    | LockCall.semop_post => give_token k.sem_sysv (fun v => { k with sem_sysv := v })
    | LockCall.mq_receive => take_token k.mq_posix (fun v => { k with mq_posix := v })
    | LockCall.mq_send =>
      match k.mq_posix with
      | none => CallOutcome.failed
      | some 0 => CallOutcome.done { k with mq_posix := some 1 }
      | some (_ + 1) => CallOutcome.blocked
    | LockCall.msgrcv => take_token k.mq_sysv (fun v => { k with mq_sysv := v })
    | LockCall.msgsnd => give_token k.mq_sysv (fun v => { k with mq_sysv := v })

/-- The outcome of a `cs_enter` or `cs_leave` that returns: the system, the
calls issued, and the exit status if the function called `exit`. -/
structure HotResult where
  sys : System
  calls : List LockCall
  exit_status : Option Int
  deriving DecidableEq, Repr

/-- A case of `cs_enter` or `cs_leave` of `src/8` that consists of one system
call whose result is not examined (`no error checking due to performance
testing`): the function returns whatever the call reports; `none` when the call
blocks for ever. -/
def unchecked_call (fails : LockCall → Bool) (c : LockCall) (s : System) :
    Option HotResult :=
  match lock_call fails c s.kernel with
  | CallOutcome.done k => some { sys := { s with kernel := k }, calls := [c], exit_status := none }
  | CallOutcome.failed => some { sys := s, calls := [c], exit_status := none }
  | CallOutcome.blocked => none

/-- A busy wait of `cs_enter` on a flag when no other thread runs: it takes the
flag when it is clear and spins for ever (`none`) when it is set. -/
def spin_on (flag : Bool) (taken : System) : Option HotResult :=
  if flag = true then none else some { sys := taken, calls := [], exit_status := none }

/-- The function `cs_enter` of `src/8/cs_methods.h` (lines 271-333) when no
other thread runs; `none` when it does not return. -/
def cs_enter (fails : LockCall → Bool) (_id : Int) (s : System) : Option HotResult :=
  let m := s.ctl.cs_method_used
  if m = CS_METHOD_ATOMIC then some { sys := s, calls := [], exit_status := none }
  else if m = CS_METHOD_LOCKED then
    spin_on s.ctl.locked { s with ctl := { s.ctl with locked := true } }
  else if m = CS_METHOD_TEST_XCHG then
    spin_on s.ctl.locked { s with ctl := { s.ctl with locked := true } }
  else if m = CS_METHOD_XCHG then
    spin_on (atomic_flag_test_and_set s.ctl.xchg_locked).1
      { s with ctl := { s.ctl with xchg_locked := (atomic_flag_test_and_set s.ctl.xchg_locked).2 } }
  else if m = CS_METHOD_MUTEX then unchecked_call fails LockCall.pthread_mutex_lock s
  else if m = CS_METHOD_SEM_POSIX then unchecked_call fails LockCall.sem_wait s
  else if m = CS_METHOD_SEM_POSIX_NAMED then unchecked_call fails LockCall.sem_wait_named s
  else if m = CS_METHOD_SEM_SYSV then unchecked_call fails LockCall.semop_wait s
  else if m = CS_METHOD_MQ_POSIX then unchecked_call fails LockCall.mq_receive s
  else if m = CS_METHOD_MQ_SYSV then unchecked_call fails LockCall.msgrcv s
  else some { sys := s, calls := [], exit_status := none }

/-- The function `cs_leave` of `src/8/cs_methods.h` (lines 336-382) when no
other thread runs; `none` when it does not return. -/
def cs_leave (fails : LockCall → Bool) (_id : Int) (s : System) : Option HotResult :=
  let m := s.ctl.cs_method_used
  if m = CS_METHOD_ATOMIC then some { sys := s, calls := [], exit_status := none }
  else if m = CS_METHOD_LOCKED ∨ m = CS_METHOD_TEST_XCHG then
    some { sys := { s with ctl := { s.ctl with locked := false } }, calls := [],
           exit_status := none }
  else if m = CS_METHOD_XCHG then
    some { sys := { s with ctl := { s.ctl with xchg_locked := atomic_flag_clear } },
           calls := [], exit_status := none }
  else if m = CS_METHOD_MUTEX then unchecked_call fails LockCall.pthread_mutex_unlock s
  else if m = CS_METHOD_SEM_POSIX then unchecked_call fails LockCall.sem_post s
  else if m = CS_METHOD_SEM_POSIX_NAMED then unchecked_call fails LockCall.sem_post_named s
  else if m = CS_METHOD_SEM_SYSV then unchecked_call fails LockCall.semop_post s
  else if m = CS_METHOD_MQ_POSIX then unchecked_call fails LockCall.mq_send s
  else if m = CS_METHOD_MQ_SYSV then unchecked_call fails LockCall.msgsnd s
  else some { sys := s, calls := [], exit_status := none }

/-- The call `cs_enter` makes for a blocking method. -/
def enter_call (m : Int) : Option LockCall :=
  if m = CS_METHOD_MUTEX then some LockCall.pthread_mutex_lock
  else if m = CS_METHOD_SEM_POSIX then some LockCall.sem_wait
  else if m = CS_METHOD_SEM_POSIX_NAMED then some LockCall.sem_wait_named
  else if m = CS_METHOD_SEM_SYSV then some LockCall.semop_wait
  else if m = CS_METHOD_MQ_POSIX then some LockCall.mq_receive
  else if m = CS_METHOD_MQ_SYSV then some LockCall.msgrcv
  else none

/-- The call `cs_leave` makes for a blocking method. -/
def leave_call (m : Int) : Option LockCall :=
  if m = CS_METHOD_MUTEX then some LockCall.pthread_mutex_unlock
  else if m = CS_METHOD_SEM_POSIX then some LockCall.sem_post
  else if m = CS_METHOD_SEM_POSIX_NAMED then some LockCall.sem_post_named
  else if m = CS_METHOD_SEM_SYSV then some LockCall.semop_post
  else if m = CS_METHOD_MQ_POSIX then some LockCall.mq_send
  else if m = CS_METHOD_MQ_SYSV then some LockCall.msgsnd
  else none

/-- The outcome of one iteration of the loop of `do_withdrawals`. -/
structure IterationResult where
  sys : System
  ledger : Ledger
  exit_status : Option Int

/-- One iteration of the loop of `do_withdrawals` (lines 121-135) when no other
thread runs: `cs_enter`, `withdraw` with the update of `withdrawn[tid]`,
`cs_leave`; the process ends where one of them calls `exit`; `none` when
`cs_enter` or `cs_leave` does not return. -/
def do_withdrawals_iteration (fails : LockCall → Bool) (cs_method : Int) (tid : Nat)
    (s : System) (ledger : Ledger) : Option IterationResult :=
  match cs_enter fails tid s with
  | none => none
  | some entered =>
    match entered.exit_status with
    | some status => some { sys := entered.sys, ledger := ledger, exit_status := some status }
    | none =>
      let ledger' := withdrawal_round cs_method tid ledger
      match cs_leave fails tid entered.sys with
      | none => none
      | some left => some { sys := left.sys, ledger := ledger', exit_status := left.exit_status }

/-- The token of the method in use: 1 when the critical section is free, 0 when
it is taken (the flag for methods 1-3, the lock state of the mutex, the value
of the semaphore, the number of messages in the queue). -/
def token (s : System) : Option Nat :=
  let m := s.ctl.cs_method_used
  if m = CS_METHOD_LOCKED ∨ m = CS_METHOD_TEST_XCHG then
    some (if s.ctl.locked = true then 0 else 1)
  else if m = CS_METHOD_XCHG then some (if s.ctl.xchg_locked = true then 0 else 1)
  else if m = CS_METHOD_MUTEX then s.kernel.mutex.map (fun b => if b = true then 0 else 1)
  else if m = CS_METHOD_SEM_POSIX then s.kernel.sem_posix
  else if m = CS_METHOD_SEM_POSIX_NAMED then s.kernel.sem_named
  else if m = CS_METHOD_SEM_SYSV then s.kernel.sem_sysv
  else if m = CS_METHOD_MQ_POSIX then s.kernel.mq_posix
  else if m = CS_METHOD_MQ_SYSV then s.kernel.mq_sysv
  else none

/-- The environment in which no call of `cs_enter` or `cs_leave` fails. -/
def no_lock_failure : LockCall → Bool := fun _ => false

/-- The system after `k` rounds of `cs_enter; cs_leave` with no failing call;
`none` when one of them does not return. -/
def enter_leave_rounds (id : Int) : Nat → System → Option System
  | 0, s => some s
  | k + 1, s =>
    match cs_enter no_lock_failure id s with
    | none => none
    | some entered =>
      match cs_leave no_lock_failure id entered.sys with
      | none => none
      | some left => enter_leave_rounds id k left.sys

/-! ## The life of the controller after `cs_init` -/

/-- What a program does with the controller once `cs_init` has returned. -/
inductive ControllerOp
  | enter (id : Int)
  | leave (id : Int)
  | destroy
  deriving DecidableEq, Repr

/-- One operation on the controller; `none` when it does not return. -/
def apply_op (lfails : LockCall → Bool) (rfails : ReleaseCall → Bool) :
    ControllerOp → System → Option System
  | ControllerOp.enter id, s => (cs_enter lfails id s).map (fun r => r.sys)
  | ControllerOp.leave id, s => (cs_leave lfails id s).map (fun r => r.sys)
  | ControllerOp.destroy, s => some (cs_destroy rfails s).sys

/-- A sequence of operations on the controller; `none` when one of them does not
return. -/
def apply_ops (lfails : LockCall → Bool) (rfails : ReleaseCall → Bool) :
    List ControllerOp → System → Option System
  | [], s => some s
  | op :: rest, s =>
    match apply_op lfails rfails op s with
    | none => none
    | some t => apply_ops lfails rfails rest t

/-! ## `withdraw` of the Atomic method, one memory access at a time -/

/-- Where a thread stands in `withdraw` for `CS_METHOD_ATOMIC` (lines 97-101):
before the comparison `balance_atomic < amount`, between the comparison and
`balance_atomic -= amount`, or returned with a result. -/
inductive APc
  | check
  | subtract
  | returned (result : Bool)
  deriving DecidableEq, Repr

/-- The atomic balance and the position of every thread in `withdraw`. -/
structure AtomicState where
  balance_atomic : Int
  pc : Nat → APc

/-- Every thread is about to call `withdraw`. -/
def atomic_start (balance : Int) : AtomicState :=
  { balance_atomic := balance, pc := fun _ => APc.check }

/-- One memory access of thread `t` in `withdraw(amount)` for the Atomic method:
the atomic load with the comparison, or the atomic subtraction; `none` when the
thread has returned. -/
def atomic_withdraw_step (amount : Int) (t : Nat) (s : AtomicState) : Option AtomicState :=
  match s.pc t with
  | APc.check =>
    if s.balance_atomic < amount then
      some { s with pc := Function.update s.pc t (APc.returned false) }
    else some { s with pc := Function.update s.pc t APc.subtract }
  | APc.subtract =>
    some { balance_atomic := wrapLong (s.balance_atomic - amount),
           pc := Function.update s.pc t (APc.returned true) }
  | APc.returned _ => none

/-- The steps of a schedule (the list of the threads that move, in order). -/
def atomic_withdraw_run (amount : Int) : List Nat → AtomicState → Option AtomicState
  | [], s => some s
  | t :: rest, s =>
    match atomic_withdraw_step amount t s with
    | none => none
    | some s' => atomic_withdraw_run amount rest s'

/-! ## The earlier variants `src/4` and `src/5` -/

/-- One release call of `cs_destroy` in `src/4` and `src/5`: a failure is
reported with `perror` and the process exits with `EXIT_FAILURE`. -/
def release_call_or_exit (fails : ReleaseCall → Bool) (c : ReleaseCall) (s : System) :
    DestroyResult :=
  if fails c then { sys := s, calls := [c], reported := [c], exit_status := some EXIT_FAILURE }
  else
    { sys := { s with kernel := release_effect c s.kernel }, calls := [c], reported := [],
      exit_status := none }

namespace Src4

/-- The function `cs_init` of `src/4/cs_methods.h` (lines 68-124). The cases of
the mutex and of the two POSIX semaphores are the code of `src/8` (in `sem_open`
only the flag `O_EXCL` is missing); every other method `break`s, so that
`cs_var_allocated = true` is reached for all ten methods. -/
def cs_init (fails : Call → Bool) (method : Int) (c0 : Controller) : InitResult :=
  let c := { c0 with cs_method_used := method }
  if method = CS_METHOD_ATOMIC ∨ method = CS_METHOD_LOCKED ∨ method = CS_METHOD_TEST_XCHG ∨
      method = CS_METHOD_XCHG then
    { ctl := { c with cs_var_allocated := true }, calls := [], exit_status := none }
  else if method = CS_METHOD_MUTEX then cs_init_mutex fails c
  else if method = CS_METHOD_SEM_POSIX then cs_init_sem_posix fails c
  else if method = CS_METHOD_SEM_POSIX_NAMED then cs_init_sem_posix_named fails c
  else if method = CS_METHOD_SEM_SYSV ∨ method = CS_METHOD_MQ_POSIX ∨
      method = CS_METHOD_MQ_SYSV then
    { ctl := { c with cs_var_allocated := true }, calls := [], exit_status := none }
  else
    { ctl := c, calls := [], exit_status := some EXIT_FAILURE }

/-- The function `cs_destroy` of `src/4/cs_methods.h` (lines 127-164): there is
no assignment to `cs_var_allocated`. -/
def cs_destroy (fails : ReleaseCall → Bool) (s : System) : DestroyResult :=
  if s.ctl.cs_var_allocated = false then
    { sys := s, calls := [], reported := [], exit_status := none }
  else
    let m := s.ctl.cs_method_used
    if m = CS_METHOD_MUTEX then release_call_or_exit fails ReleaseCall.pthread_mutex_destroy s
    else if m = CS_METHOD_SEM_POSIX then release_call_or_exit fails ReleaseCall.sem_destroy s
    else if m = CS_METHOD_SEM_POSIX_NAMED then
      let r := release_call_or_exit fails ReleaseCall.sem_close s
      if fails ReleaseCall.sem_close then r
      else { r with sys := { r.sys with psem_named_locked := false } }
    else { sys := s, calls := [], reported := [], exit_status := none }

end Src4

namespace Src5

/-- The function `cs_init` of `src/5/cs_methods.h` (lines 65-110): only the
System V semaphore acquires a resource, with the code of `src/8`. -/
def cs_init (fails : Call → Bool) (method : Int) (c0 : Controller) : InitResult :=
  let c := { c0 with cs_method_used := method }
  if method = CS_METHOD_SEM_SYSV then cs_init_sem_sysv fails c
  else if CS_METHOD_ATOMIC ≤ method ∧ method ≤ CS_METHOD_MQ_SYSV then
    { ctl := { c with cs_var_allocated := true }, calls := [], exit_status := none }
  else
    { ctl := c, calls := [], exit_status := some EXIT_FAILURE }

/-- The function `cs_destroy` of `src/5/cs_methods.h` (lines 113-142): there is
no assignment to `cs_var_allocated`. -/
def cs_destroy (fails : ReleaseCall → Bool) (s : System) : DestroyResult :=
  if s.ctl.cs_var_allocated = false then
    { sys := s, calls := [], reported := [], exit_status := none }
  else if s.ctl.cs_method_used = CS_METHOD_SEM_SYSV then
    release_call_or_exit fails ReleaseCall.semctl_IPC_RMID s
  else { sys := s, calls := [], reported := [], exit_status := none }

end Src5

/-! ## The loop conditions of the two exchange locks -/

/-- The operation `atomic_load_explicit` on the flag: the value read. -/
def atomic_load_explicit (object : Bool) : Bool := object

/-- The operation `atomic_exchange_explicit`: the value returned (the old flag)
and the new flag. -/
def atomic_exchange_explicit (object desired : Bool) : Bool × Bool := (object, desired)

/-- One evaluation of a loop condition of `cs_enter`: its value (`true`: the
lock was not acquired, the loop goes on), the flag afterwards, and the number
of writes to the flag. -/
structure LoopCondition where
  value : Bool
  flag : Bool
  writes : Nat
  deriving DecidableEq, Repr

/-- The loop condition of `CS_METHOD_TEST_XCHG` (line 285), evaluated without
interruption: `atomic_load_explicit(&locked, ..) || atomic_exchange_explicit(&locked, true, ..)`;
the operator `||` evaluates the exchange only when the load returned `false`. -/
def test_xchg_condition (locked : Bool) : LoopCondition :=
  if atomic_load_explicit locked = true then { value := true, flag := locked, writes := 0 }
  else
    let r := atomic_exchange_explicit locked true
    { value := r.1, flag := r.2, writes := 1 }

/-- The loop condition of `CS_METHOD_XCHG` (line 296):
`atomic_flag_test_and_set(&xchg_locked)`. -/
def xchg_condition (xchg_locked : Bool) : LoopCondition :=
  let r := atomic_flag_test_and_set xchg_locked
  { value := r.1, flag := r.2, writes := 1 }

/-! ## The sizes of the POSIX message queue -/

/-- The fields of `struct mq_attr`. -/
structure mq_attr where
  mq_flags : Int
  mq_maxmsg : Int
  mq_msgsize : Int
  mq_curmsgs : Int
  deriving DecidableEq, Repr

/-- The value of `sizeof` on a string literal: its bytes and the terminating
zero byte. -/
def sizeof_literal (s : String) : Nat := s.utf8ByteSize + 1

/-- The size arguments of a call of `mq_send` or `mq_receive`: the size of the
object the pointer argument refers to, and the length argument. -/
structure MqTransfer where
  object_size : Nat
  msg_len : Nat
  deriving DecidableEq, Repr

/-- The rule of `mq_send`: the call fails with `EMSGSIZE` when `msg_len`
exceeds the `mq_msgsize` of the queue; it reads `msg_len` bytes from the
object. -/
def mq_send_fits (attr : mq_attr) (c : MqTransfer) : Bool :=
  decide ((c.msg_len : Int) ≤ attr.mq_msgsize) && decide (c.msg_len ≤ c.object_size)

/-- The rule of `mq_receive`: the call fails with `EMSGSIZE` when `msg_len` is
less than the `mq_msgsize` of the queue; it writes at most `msg_len` bytes to
the object. -/
def mq_receive_fits (attr : mq_attr) (c : MqTransfer) : Bool :=
  decide (attr.mq_msgsize ≤ (c.msg_len : Int)) && decide (c.msg_len ≤ c.object_size)

/-- The macro `MQ_POSIX_MESSAGE` of `src/8/cs_methods.h` (line 51). -/
def MQ_POSIX_MESSAGE : String := "lock"

/-- The macro `MQ_POSIX_MESSAGE_LIMIT` of `src/8/cs_methods.h` (line 52). -/
def MQ_POSIX_MESSAGE_LIMIT : Nat := 4

/-- The size of `char mq_posix_buffer[MQ_POSIX_MESSAGE_LIMIT + 1]` (line 55). -/
def sizeof_mq_posix_buffer : Nat := MQ_POSIX_MESSAGE_LIMIT + 1

/-- The attributes `cs_init` of `src/8` passes to `mq_open` (lines 161-164). -/
def mq_posix_attr : mq_attr :=
  { mq_flags := 0, mq_maxmsg := 1, mq_msgsize := MQ_POSIX_MESSAGE_LIMIT, mq_curmsgs := 0 }

/-- The call `mq_send(mq_posix_locked, MQ_POSIX_MESSAGE, MQ_POSIX_MESSAGE_LIMIT, 0)`
of `cs_init` in `src/8` (line 181). -/
def cs_init_mq_send : MqTransfer :=
  { object_size := sizeof_literal MQ_POSIX_MESSAGE, msg_len := MQ_POSIX_MESSAGE_LIMIT }

/-- The call `mq_send(mq_posix_locked, MQ_POSIX_MESSAGE, MQ_POSIX_MESSAGE_LIMIT, 0)`
of `cs_leave` in `src/8` (line 370). -/
def cs_leave_mq_send : MqTransfer :=
  { object_size := sizeof_literal MQ_POSIX_MESSAGE, msg_len := MQ_POSIX_MESSAGE_LIMIT }

/-- The call `mq_receive(mq_posix_locked, mq_posix_buffer, MQ_POSIX_MESSAGE_LIMIT, NULL)`
of `cs_enter` in `src/8` (line 320). -/
def cs_enter_mq_receive : MqTransfer :=
  { object_size := sizeof_mq_posix_buffer, msg_len := MQ_POSIX_MESSAGE_LIMIT }

namespace Src6

/-- The macro `MQ_POSIX_MESSAGE` of `src/6/cs_methods.h` (line 35). -/
def MQ_POSIX_MESSAGE : String := ""

/-- The macro `MQ_POSIX_MESSAGE_LIMIT` of `src/6/cs_methods.h` (line 36). -/
def MQ_POSIX_MESSAGE_LIMIT : Nat := 1

/-- The size of `char mq_posix_buffer[MQ_POSIX_MESSAGE_LIMIT]` (line 39). -/
def sizeof_mq_posix_buffer : Nat := MQ_POSIX_MESSAGE_LIMIT

/-- The attributes `cs_init` of `src/6` passes to `mq_open` (lines 90-93). -/
def mq_posix_attr : mq_attr :=
  { mq_flags := 0, mq_maxmsg := 1, mq_msgsize := MQ_POSIX_MESSAGE_LIMIT, mq_curmsgs := 0 }

/-- The call of `mq_send` in `cs_init` of `src/6` (line 111). -/
def cs_init_mq_send : MqTransfer :=
  { object_size := sizeof_literal MQ_POSIX_MESSAGE, msg_len := MQ_POSIX_MESSAGE_LIMIT }

/-- The call of `mq_send` in `cs_leave` of `src/6` (line 211). -/
def cs_leave_mq_send : MqTransfer :=
  { object_size := sizeof_literal MQ_POSIX_MESSAGE, msg_len := MQ_POSIX_MESSAGE_LIMIT }

/-- The call of `mq_receive` in `cs_enter` of `src/6` (line 178). -/
def cs_enter_mq_receive : MqTransfer :=
  { object_size := sizeof_mq_posix_buffer, msg_len := MQ_POSIX_MESSAGE_LIMIT }

end Src6

/-! ## `sync_threads` and the whole of `do_withdrawals` -/

/-- The value of `PTHREAD_BARRIER_SERIAL_THREAD` in `<pthread.h>` (glibc). -/
def PTHREAD_BARRIER_SERIAL_THREAD : Int := -1

/-- What `sync_threads` does that is visible outside it. -/
inductive SyncEvent
  | printf_all_started
  | time_init
  | perror_barrier_wait
  deriving DecidableEq, Repr

/-- The outcome of `sync_threads`: its events in order, and the exit status if
it called `exit`. -/
structure SyncResult where
  events : List SyncEvent
  exit_status : Option Int
  deriving DecidableEq, Repr

/-- The function `sync_threads` (lines 76-91) on the value returned by
`pthread_barrier_wait`: the case `PTHREAD_BARRIER_SERIAL_THREAD` prints when
`verbose` is set, calls `time_init` and falls through to `case 0`, which only
`break`s; every other value leads to `perror` and `exit(3)`. -/
def sync_threads (verbose : Int) (barrier_wait : Int) : SyncResult :=
  if barrier_wait = PTHREAD_BARRIER_SERIAL_THREAD then
    { events := (if verbose ≠ 0 then [SyncEvent.printf_all_started] else []) ++
        [SyncEvent.time_init],
      exit_status := none }
  else if barrier_wait = 0 then { events := [], exit_status := none }
  else { events := [SyncEvent.perror_barrier_wait], exit_status := some 3 }

/-- The loop of `do_withdrawals` (lines 121-135) of the worker `tid` with `todo`
iterations left and loop variable `i`: each iteration is `cs_enter`,
`withdraw(WITHDRAW_AMOUNT)` with `withdrawn[tid] += amount` on success, and
`cs_leave`; `cs_enter` and `cs_leave` act on the controller only. `others i` is
what the other threads do to the ledger before iteration `i` of this worker.
Returns the results of the calls of `withdraw`, in order, and the ledger. -/
def do_withdrawals_loop (cs_method : Int) (tid : Nat) (others : Nat → Ledger → Ledger) :
    Nat → Nat → Ledger → List Bool × Ledger
  | 0, _, s => ([], s)
  | todo + 1, i, s =>
    let before := others i s
    let rest := do_withdrawals_loop cs_method tid others todo (i + 1)
      (withdrawal_round cs_method tid before)
    ((withdraw cs_method WITHDRAW_AMOUNT before).1 :: rest.1, rest.2)

/-- The outcome of a run of `do_withdrawals` that comes to an end. -/
structure WorkerResult where
  events : List SyncEvent
  attempts : List Bool
  ledger : Ledger
  exit_status : Option Int

/-- The function `do_withdrawals` (lines 111-142): `sync_threads` when
`do_sync_start` is set, then the loop `for (i = 0; i < per_thread; ++i)`, which
runs `per_thread` times, and not at all when `per_thread` is not positive. -/
def do_withdrawals (do_sync_start : Bool) (verbose barrier_wait cs_method per_thread : Int)
    (tid : Nat) (others : Nat → Ledger → Ledger) (s : Ledger) : WorkerResult :=
  let sync : SyncResult :=
    if do_sync_start = true then sync_threads verbose barrier_wait
    else { events := [], exit_status := none }
  match sync.exit_status with
  | some status => { events := sync.events, attempts := [], ledger := s, exit_status := some status }
  | none =>
    let r := do_withdrawals_loop cs_method tid others per_thread.toNat 0 s
    { events := sync.events, attempts := r.1, ledger := r.2, exit_status := none }

/-- No other thread touches the ledger. -/
def no_others : Nat → Ledger → Ledger := fun _ s => s

/-! ## The start barrier as a transition system -/

/-- Where a worker stands with respect to the start barrier: before its call of
`pthread_barrier_wait`, inside the call, past `sync_threads`, or having called
`exit` from `sync_threads`. -/
inductive BPc
  | arriving
  | waiting
  | past
  | exited
  deriving DecidableEq, Repr

/-- The positions of the workers, the number of calls of `time_init` so far,
and the exit status once a worker has called `exit`. -/
structure BarrierState where
  pc : Nat → BPc
  time_inits : Nat
  exit_status : Option Int

/-- Every worker is about to call `pthread_barrier_wait`. -/
def barrier_start : BarrierState :=
  { pc := fun _ => BPc.arriving, time_inits := 0, exit_status := none }

/-- All of the `count` participants have called `pthread_barrier_wait`. -/
def all_arrived (count : Nat) (s : BarrierState) : Bool :=
  (List.range count).all (fun t => decide (s.pc t ≠ BPc.arriving))

/-- One step of worker `t` at a barrier initialised with `count` (line 174):
it calls `pthread_barrier_wait`; or, once all participants have called it, its
call returns `ret t` and the thread runs the rest of `sync_threads`. `none` when
the thread cannot move (it waits for the others, it is past the barrier, or the
process has ended). -/
def barrier_thread_step (count : Nat) (verbose : Int) (ret : Nat → Int) (t : Nat)
    (s : BarrierState) : Option BarrierState :=
  if s.exit_status ≠ none then none
  else
    match s.pc t with
    | BPc.arriving => some { s with pc := Function.update s.pc t BPc.waiting }
    | BPc.waiting =>
      if all_arrived count s = true then
        let r := sync_threads verbose (ret t)
        some { pc := Function.update s.pc t (if r.exit_status = none then BPc.past else BPc.exited),
               time_inits := s.time_inits + r.events.count SyncEvent.time_init,
               exit_status := r.exit_status }
      else none
    | BPc.past => none
    | BPc.exited => none

/-- One step of the system of `count` workers at the barrier. -/
inductive BarrierStep (count : Nat) (verbose : Int) (ret : Nat → Int) :
    BarrierState → BarrierState → Prop
  | step (s s' : BarrierState) (t : Nat) (ht : t < count)
      (h : barrier_thread_step count verbose ret t s = some s') :
      BarrierStep count verbose ret s s'

/-- The states reachable from the start by any interleaving. -/
def BarrierReachable (count : Nat) (verbose : Int) (ret : Nat → Int) (s : BarrierState) : Prop :=
  Relation.ReflTransGen (BarrierStep count verbose ret) barrier_start s

/-- The steps of a schedule (the threads that move, in order); an entry naming
a thread that cannot move, or no worker, is skipped. -/
def barrier_run (count : Nat) (verbose : Int) (ret : Nat → Int) :
    List Nat → BarrierState → BarrierState
  | [], s => s
  | t :: rest, s =>
    if t < count then
      match barrier_thread_step count verbose ret t s with
      | some s' => barrier_run count verbose ret rest s'
      | none => barrier_run count verbose ret rest s
    else barrier_run count verbose ret rest s

/-- The invariant of the barrier when `pthread_barrier_wait` returns
`PTHREAD_BARRIER_SERIAL_THREAD` to the thread `serial` and 0 to the others. -/
structure BarrierInv (count serial : Nat) (s : BarrierState) : Prop where
  no_exit : s.exit_status = none
  not_exited : ∀ t, s.pc t ≠ BPc.exited
  counted : s.time_inits = if s.pc serial = BPc.past then 1 else 0
  arrived : ∀ t, s.pc t = BPc.past → all_arrived count s = true

/-- The steps worker `t` still has to take to be past the barrier. -/
def barrier_steps_left (s : BarrierState) (t : Nat) : Int :=
  match s.pc t with
  | BPc.arriving => 2
  | BPc.waiting => 1
  | BPc.past => 0
  | BPc.exited => 0

/-! ## The Atomic method with all workers, one memory access at a time -/

/-- Where a worker stands in the loop of `do_withdrawals` under the Atomic
method (`cs_enter` and `cs_leave` do nothing): at the loop test
`i < per_thread`; in `withdraw` before the comparison `balance_atomic < amount`;
between the comparison and `balance_atomic -= amount`; before
`withdrawn[tid] += amount`; or out of the loop. -/
inductive WPc
  | loop_test
  | check
  | subtract
  | credit
  | done
  deriving DecidableEq, Repr

/-- The atomic balance, the slots `withdrawn`, the loop variable and the
position of every worker, and the number of calls of `withdraw` that have
returned `false`. -/
structure AtomicWorkers where
  balance_atomic : Int
  withdrawn : Nat → Int
  i : Nat → Int
  pc : Nat → WPc
  rejected : Nat

/-- The workers at the start of their loops, with the balance set by `main`. -/
def atomic_workers_start (initial : Int) : AtomicWorkers :=
  { balance_atomic := initial, withdrawn := fun _ => 0, i := fun _ => 0,
    pc := fun _ => WPc.loop_test, rejected := 0 }

/-- One memory access of worker `t` (lines 97-101 and 121-135 for
`CS_METHOD_ATOMIC`); `none` when the worker has left its loop. -/
def atomic_worker_step (per_thread : Int) (t : Nat) (s : AtomicWorkers) :
    Option AtomicWorkers :=
  match s.pc t with
  | WPc.loop_test =>
    if s.i t < per_thread then some { s with pc := Function.update s.pc t WPc.check }
    else some { s with pc := Function.update s.pc t WPc.done }
  | WPc.check =>
    if s.balance_atomic < WITHDRAW_AMOUNT then
      some { s with i := Function.update s.i t (wrapLong (s.i t + 1)),
                    pc := Function.update s.pc t WPc.loop_test,
                    rejected := s.rejected + 1 }
    else some { s with pc := Function.update s.pc t WPc.subtract }
  | WPc.subtract =>
    some { s with balance_atomic := wrapLong (s.balance_atomic - WITHDRAW_AMOUNT),
                  pc := Function.update s.pc t WPc.credit }
  | WPc.credit =>
    some { s with withdrawn := Function.update s.withdrawn t
                    (wrapLong (s.withdrawn t + WITHDRAW_AMOUNT)),
                  i := Function.update s.i t (wrapLong (s.i t + 1)),
                  pc := Function.update s.pc t WPc.loop_test }
  | WPc.done => none

/-- One step of the system of `thread_count` workers. -/
inductive AtomicWorkersStep (thread_count : Nat) (per_thread : Int) :
    AtomicWorkers → AtomicWorkers → Prop
  | step (s s' : AtomicWorkers) (t : Nat) (ht : t < thread_count)
      (h : atomic_worker_step per_thread t s = some s') :
      AtomicWorkersStep thread_count per_thread s s'

/-- The states reachable from `s` by any interleaving. -/
def AtomicWorkersReachable (thread_count : Nat) (per_thread : Int) :
    AtomicWorkers → AtomicWorkers → Prop :=
  Relation.ReflTransGen (AtomicWorkersStep thread_count per_thread)

/-- The steps of a schedule (the workers that move, in order); an entry naming
a worker that has left its loop, or no worker, is skipped. -/
def atomic_workers_run (thread_count : Nat) (per_thread : Int) :
    List Nat → AtomicWorkers → AtomicWorkers
  | [], s => s
  | t :: rest, s =>
    if t < thread_count then
      match atomic_worker_step per_thread t s with
      | some s' => atomic_workers_run thread_count per_thread rest s'
      | none => atomic_workers_run thread_count per_thread rest s
    else atomic_workers_run thread_count per_thread rest s

/-- Every worker has left its loop. -/
def atomic_workers_done (thread_count : Nat) (s : AtomicWorkers) : Prop :=
  ∀ t, t < thread_count → s.pc t = WPc.done

/-- The ledger `main` reads once the workers are joined. -/
def atomic_ledger (s : AtomicWorkers) : Ledger :=
  { balance := s.balance_atomic, balance_atomic := s.balance_atomic, withdrawn := s.withdrawn }

/-- The subtractions worker `t` has executed: one per finished iteration, and
the one of the current iteration when it is before `withdrawn[tid] += amount`. -/
def subtractions (s : AtomicWorkers) (t : Nat) : Int :=
  if s.pc t = WPc.credit then s.i t + 1 else s.i t

/-- The invariant of the Atomic method for `n` workers with `k` iterations each
and the initial balance `n * k`. -/
structure AtomicInv (n : Nat) (k : Int) (s : AtomicWorkers) : Prop where
  bal : s.balance_atomic = n * k - sum_withdrawn (subtractions s) n
  lo : ∀ t, 0 ≤ s.i t
  hi : ∀ t, s.i t ≤ k
  mid : ∀ t, s.pc t = WPc.check ∨ s.pc t = WPc.subtract ∨ s.pc t = WPc.credit → s.i t < k
  fin : ∀ t, s.pc t = WPc.done → s.i t = k
  wd : ∀ t, s.withdrawn t = s.i t
  rej : s.rejected = 0

/-- The memory accesses worker `t` still has to make when every `withdraw`
succeeds: four per iteration and the last loop test. -/
def steps_left (k : Int) (s : AtomicWorkers) (t : Nat) : Int :=
  match s.pc t with
  | WPc.loop_test => 4 * (k - s.i t) + 1
  | WPc.check => 4 * (k - s.i t)
  | WPc.subtract => 4 * (k - s.i t) - 1
  | WPc.credit => 4 * (k - s.i t) - 2
  | WPc.done => 0

/-! ## Facts on machine integers -/

theorem wrapLong_of_isLong {x : Int} (h : isLong x) : wrapLong x = x := by
  unfold isLong LONG_MIN LONG_MAX at h
  unfold wrapLong
  omega

theorem isLong_wrapLong (x : Int) : isLong (wrapLong x) := by
  unfold isLong LONG_MIN LONG_MAX wrapLong
  omega

/-! ## `withdraw` as a single call -/

theorem withdraw_plain_reject {cs_method amount : Int} {s : Ledger}
    (hm : cs_method ≠ CS_METHOD_ATOMIC) (hlt : s.balance < amount) :
    withdraw cs_method amount s = (false, s) := by
  unfold withdraw
  rw [if_neg hm, if_pos hlt]

theorem withdraw_plain_accept {cs_method amount : Int} {s : Ledger}
    (hm : cs_method ≠ CS_METHOD_ATOMIC) (hlt : ¬ s.balance < amount) :
    withdraw cs_method amount s =
      (true, { s with balance := wrapLong (s.balance - amount) }) := by
  unfold withdraw
  rw [if_neg hm, if_neg hlt]

theorem withdraw_atomic_reject {cs_method amount : Int} {s : Ledger}
    (hm : cs_method = CS_METHOD_ATOMIC) (hlt : s.balance_atomic < amount) :
    withdraw cs_method amount s = (false, s) := by
  unfold withdraw
  rw [if_pos hm, if_pos hlt]

theorem withdraw_atomic_accept {cs_method amount : Int} {s : Ledger}
    (hm : cs_method = CS_METHOD_ATOMIC) (hlt : ¬ s.balance_atomic < amount) :
    withdraw cs_method amount s =
      (true, { s with balance_atomic := wrapLong (s.balance_atomic - amount) }) := by
  unfold withdraw
  rw [if_pos hm, if_neg hlt]

theorem withdraw_withdrawn (cs_method amount : Int) (s : Ledger) :
    (withdraw cs_method amount s).2.withdrawn = s.withdrawn := by
  unfold withdraw
  split_ifs <;> rfl

/-- C1 (amended): for all values of the two balances and of `amount` such that
`balance - amount` of the variable in use does not exceed `LONG_MAX` (true for
every `long` balance and every `amount ≥ 0`), an uninterrupted
`withdraw(amount)` returns `true` iff that balance is `≥ amount`; on `true` the
new balance is `balance - amount`, on `false` it is unchanged; the variable in
use is `balance_atomic` for the Atomic method and `balance` otherwise, and the
other balance variable and `withdrawn` are never modified. -/
theorem withdraw_contract (cs_method amount : Int) (s : Ledger)
    (hfit : active_balance cs_method s - amount ≤ LONG_MAX) :
    (cs_method ≠ CS_METHOD_ATOMIC →
      ((withdraw cs_method amount s).1 = true ↔ s.balance ≥ amount) ∧
      ((withdraw cs_method amount s).1 = true →
        (withdraw cs_method amount s).2.balance = s.balance - amount) ∧
      ((withdraw cs_method amount s).1 = false →
        (withdraw cs_method amount s).2.balance = s.balance) ∧
      (withdraw cs_method amount s).2.balance_atomic = s.balance_atomic) ∧
    (cs_method = CS_METHOD_ATOMIC →
      ((withdraw cs_method amount s).1 = true ↔ s.balance_atomic ≥ amount) ∧
      ((withdraw cs_method amount s).1 = true →
        (withdraw cs_method amount s).2.balance_atomic = s.balance_atomic - amount) ∧
      ((withdraw cs_method amount s).1 = false →
        (withdraw cs_method amount s).2.balance_atomic = s.balance_atomic) ∧
      (withdraw cs_method amount s).2.balance = s.balance) ∧
    (withdraw cs_method amount s).2.withdrawn = s.withdrawn := by
  unfold active_balance LONG_MAX at hfit
  refine ⟨fun hm => ?_, fun hm => ?_, withdraw_withdrawn cs_method amount s⟩
  · rw [if_neg hm] at hfit
    by_cases hlt : s.balance < amount
    · rw [withdraw_plain_reject hm hlt]
      exact ⟨⟨fun h => Bool.noConfusion h, fun h => (by omega)⟩, fun h => Bool.noConfusion h,
        fun _ => rfl, rfl⟩
    · rw [withdraw_plain_accept hm hlt]
      refine ⟨⟨fun _ => (by omega), fun _ => rfl⟩, fun _ => ?_, fun h => Bool.noConfusion h, rfl⟩
      show wrapLong (s.balance - amount) = s.balance - amount
      apply wrapLong_of_isLong
      unfold isLong LONG_MIN LONG_MAX
      omega
  · rw [if_pos hm] at hfit
    by_cases hlt : s.balance_atomic < amount
    · rw [withdraw_atomic_reject hm hlt]
      exact ⟨⟨fun h => Bool.noConfusion h, fun h => (by omega)⟩, fun h => Bool.noConfusion h,
        fun _ => rfl, rfl⟩
    · rw [withdraw_atomic_accept hm hlt]
      refine ⟨⟨fun _ => (by omega), fun _ => rfl⟩, fun _ => ?_, fun h => Bool.noConfusion h, rfl⟩
      show wrapLong (s.balance_atomic - amount) = s.balance_atomic - amount
      apply wrapLong_of_isLong
      unfold isLong LONG_MIN LONG_MAX
      omega

/-- Witness for C1: the mutex method, balance 8, amount 1. -/
theorem withdraw_contract_witness :
    (withdraw CS_METHOD_MUTEX 1 (initial_ledger 8)).1 = true ∧
    (withdraw CS_METHOD_MUTEX 1 (initial_ledger 8)).2.balance = 7 ∧
    (withdraw CS_METHOD_MUTEX 1 (initial_ledger 8)).2.balance_atomic = 8 := by
  have h := withdraw_contract CS_METHOD_MUTEX 1 (initial_ledger 8) (by decide)
  have hm : CS_METHOD_MUTEX ≠ CS_METHOD_ATOMIC := by decide
  obtain ⟨hiff, htrue, -, hother⟩ := h.1 hm
  have ht : (withdraw CS_METHOD_MUTEX 1 (initial_ledger 8)).1 = true :=
    hiff.2 (by decide)
  exact ⟨ht, htrue ht, hother⟩

/-- C1 as stated fails for a negative amount at the top of the range: with the
Atomic method, `balance_atomic = LONG_MAX` and `amount = -1`, the call returns
`true` and the subtraction wraps to `LONG_MIN`, which is not `balance - amount`. -/
theorem withdraw_contract_overflow :
    isLong LONG_MAX ∧ isLong (-1) ∧
    (withdraw CS_METHOD_ATOMIC (-1)
      { balance := LONG_MAX, balance_atomic := LONG_MAX, withdrawn := fun _ => 0 }).1 = true ∧
    (withdraw CS_METHOD_ATOMIC (-1)
      { balance := LONG_MAX, balance_atomic := LONG_MAX,
        withdrawn := fun _ => 0 }).2.balance_atomic = LONG_MIN ∧
    (withdraw CS_METHOD_ATOMIC (-1)
      { balance := LONG_MAX, balance_atomic := LONG_MAX,
        withdrawn := fun _ => 0 }).2.balance_atomic ≠ LONG_MAX - (-1) := by
  refine ⟨by decide, by decide, by decide, by decide, by decide⟩

/-! ## Rounds under exclusion -/

theorem sum_withdrawn_update_of_lt (w : Nat → Int) (v : Int) {tid : Nat} :
    ∀ n, tid < n →
      sum_withdrawn (Function.update w tid v) n = sum_withdrawn w n - w tid + v
  | 0, h => absurd h (Nat.not_lt_zero _)
  | n + 1, h => by
    by_cases hn : tid < n
    · have ih := sum_withdrawn_update_of_lt w v n hn
      have hne : n ≠ tid := by omega
      simp only [sum_withdrawn, ih, Function.update_noteq hne]
      omega
    · have htid : tid = n := by omega
      subst htid
      have hrest : ∀ m, m ≤ tid →
          sum_withdrawn (Function.update w tid v) m = sum_withdrawn w m := by
        intro m
        induction m with
        | zero => intro _; rfl
        | succ m ihm =>
          intro hm
          have hne : m ≠ tid := by omega
          simp only [sum_withdrawn, ihm (by omega), Function.update_noteq hne]
      simp only [sum_withdrawn, hrest tid (Nat.le_refl _), Function.update_same]
      omega

theorem sum_withdrawn_nonneg {w : Nat → Int} (h : ∀ j, 0 ≤ w j) :
    ∀ n, 0 ≤ sum_withdrawn w n
  | 0 => Int.le_refl 0
  | n + 1 => by
    have := sum_withdrawn_nonneg h n
    have := h n
    simp only [sum_withdrawn]
    omega

theorem le_sum_withdrawn {w : Nat → Int} (h : ∀ j, 0 ≤ w j) {tid : Nat} :
    ∀ n, tid < n → w tid ≤ sum_withdrawn w n
  | 0, hlt => absurd hlt (Nat.not_lt_zero _)
  | n + 1, hlt => by
    have hs := sum_withdrawn_nonneg h n
    have hn := h n
    by_cases htid : tid < n
    · have := le_sum_withdrawn h n htid
      simp only [sum_withdrawn]
      omega
    · have : tid = n := by omega
      subst this
      simp only [sum_withdrawn]
      omega

theorem total_withdrawn_loop_eq {w : Nat → Int} (h : ∀ j, 0 ≤ w j) :
    ∀ n, sum_withdrawn w n ≤ LONG_MAX → total_withdrawn_loop w n = sum_withdrawn w n
  | 0, _ => rfl
  | n + 1, hle => by
    have hs := sum_withdrawn_nonneg h n
    have hn := h n
    simp only [sum_withdrawn] at hle
    have ih := total_withdrawn_loop_eq h n (by omega)
    simp only [total_withdrawn_loop, sum_withdrawn, ih]
    apply wrapLong_of_isLong
    unfold isLong LONG_MIN
    omega

theorem withdrawal_round_reject {cs_method : Int} {s : Ledger} (tid : Nat)
    (h : active_balance cs_method s < WITHDRAW_AMOUNT) :
    withdrawal_round cs_method tid s = s := by
  unfold active_balance at h
  unfold withdrawal_round
  by_cases hm : cs_method = CS_METHOD_ATOMIC
  · rw [if_pos hm] at h
    simp only [withdraw_atomic_reject hm h]
    rfl
  · rw [if_neg hm] at h
    simp only [withdraw_plain_reject hm h]
    rfl

theorem withdrawal_round_accept {cs_method : Int} {s : Ledger} (tid : Nat)
    (h : ¬ active_balance cs_method s < WITHDRAW_AMOUNT) :
    active_balance cs_method (withdrawal_round cs_method tid s) =
        wrapLong (active_balance cs_method s - WITHDRAW_AMOUNT) ∧
      (withdrawal_round cs_method tid s).withdrawn =
        Function.update s.withdrawn tid (wrapLong (s.withdrawn tid + WITHDRAW_AMOUNT)) := by
  unfold active_balance at h ⊢
  unfold withdrawal_round
  by_cases hm : cs_method = CS_METHOD_ATOMIC
  · rw [if_pos hm] at h
    simp only [withdraw_atomic_accept hm h, if_pos hm]
    exact ⟨rfl, rfl⟩
  · rw [if_neg hm] at h
    simp only [withdraw_plain_accept hm h, if_neg hm]
    exact ⟨rfl, rfl⟩

theorem ledgerInv_initial (cs_method : Int) (n : Nat) (B : Int) :
    LedgerInv cs_method n B (initial_ledger B) := by
  have hz : ∀ m, sum_withdrawn (fun _ => (0 : Int)) m = 0 := by
    intro m
    induction m with
    | zero => rfl
    | succ m ih => simp only [sum_withdrawn, ih]; rfl
  refine ⟨?_, fun _ => Int.le_refl 0, Or.inr (hz n)⟩
  show active_balance cs_method (initial_ledger B) = B - sum_withdrawn (fun _ => 0) n
  rw [hz n]
  unfold active_balance initial_ledger
  split_ifs <;> simp

theorem ledgerInv_round {cs_method : Int} {n : Nat} {B : Int} {s : Ledger} {tid : Nat}
    (hB : isLong B) (htid : tid < n) (h : LedgerInv cs_method n B s) :
    LedgerInv cs_method n B (withdrawal_round cs_method tid s) := by
  by_cases hlt : active_balance cs_method s < WITHDRAW_AMOUNT
  · rw [withdrawal_round_reject tid hlt]
    exact h
  · obtain ⟨hbal, hw⟩ := withdrawal_round_accept tid hlt
    obtain ⟨h1, h2, h3⟩ := h
    unfold WITHDRAW_AMOUNT at hlt hbal hw
    unfold isLong LONG_MIN LONG_MAX at hB
    have hsum := sum_withdrawn_nonneg h2 n
    have htl := le_sum_withdrawn h2 n htid
    have ht0 := h2 tid
    have e1 : wrapLong (active_balance cs_method s - 1) = active_balance cs_method s - 1 := by
      apply wrapLong_of_isLong
      unfold isLong LONG_MIN LONG_MAX
      omega
    have e2 : wrapLong (s.withdrawn tid + 1) = s.withdrawn tid + 1 := by
      apply wrapLong_of_isLong
      unfold isLong LONG_MIN LONG_MAX
      omega
    rw [e1] at hbal
    rw [e2] at hw
    have hs' : sum_withdrawn (withdrawal_round cs_method tid s).withdrawn n =
        sum_withdrawn s.withdrawn n + 1 := by
      rw [hw, sum_withdrawn_update_of_lt _ _ n htid]
      omega
    refine ⟨?_, ?_, Or.inl ?_⟩
    · rw [hbal, hs']; omega
    · intro j
      rw [hw]
      by_cases hj : j = tid
      · subst hj; rw [Function.update_same]; omega
      · rw [Function.update_noteq hj]; exact h2 j
    · rw [hbal]; omega

theorem ledgerInv_reachable {cs_method : Int} {n : Nat} {per_thread B : Int}
    {s t : Workers} (hB : isLong B) (hs : LedgerInv cs_method n B s.ledger)
    (h : RoundReachable cs_method n per_thread s t) :
    LedgerInv cs_method n B t.ledger := by
  induction h with
  | refl => exact hs
  | tail _ hstep ih =>
    cases hstep with
    | round tid htid _ => exact ledgerInv_round hB htid ih

theorem main_check_of_ledgerInv {cs_method : Int} {n : Nat} {B : Int} {s : Ledger}
    (hB : isLong B) (h : LedgerInv cs_method n B s) :
    main_check cs_method n B s = EXIT_SUCCESS := by
  obtain ⟨h1, h2, h3⟩ := h
  have hsum := sum_withdrawn_nonneg h2 n
  unfold isLong LONG_MIN LONG_MAX at hB
  have hle : sum_withdrawn s.withdrawn n ≤ LONG_MAX := by
    unfold LONG_MAX
    omega
  have hbal : wrapLong (B - sum_withdrawn s.withdrawn n) = active_balance cs_method s := by
    rw [h1]
    apply wrapLong_of_isLong
    unfold isLong LONG_MIN LONG_MAX
    omega
  unfold main_check
  simp only [total_withdrawn_loop_eq h2 n hle, hbal]
  unfold active_balance
  simp

theorem rounds_left_update {per_thread : Int} {i : Nat → Int} {tid : Nat}
    (hi : i tid < per_thread) :
    ∀ n, tid < n →
      rounds_left per_thread (Function.update i tid (i tid + 1)) n + 1 =
        rounds_left per_thread i n
  | 0, h => absurd h (Nat.not_lt_zero _)
  | n + 1, h => by
    by_cases hn : tid < n
    · have ih := rounds_left_update hi n hn
      have hne : n ≠ tid := by omega
      simp only [rounds_left, Function.update_noteq hne]
      omega
    · have htid : tid = n := by omega
      subst htid
      have hrest : ∀ m, m ≤ tid →
          rounds_left per_thread (Function.update i tid (i tid + 1)) m =
            rounds_left per_thread i m := by
        intro m
        induction m with
        | zero => intro _; rfl
        | succ m ihm =>
          intro hm
          have hne : m ≠ tid := by omega
          simp only [rounds_left, ihm (by omega), Function.update_noteq hne]
      simp only [rounds_left, hrest tid (Nat.le_refl _), Function.update_same]
      omega

theorem counter_step {per_thread : Int} {s : Workers} {tid : Nat}
    (hk : per_thread ≤ LONG_MAX) (h0 : 0 ≤ s.i tid) (hi : s.i tid < per_thread) :
    wrapLong (s.i tid + 1) = s.i tid + 1 := by
  apply wrapLong_of_isLong
  unfold LONG_MAX at hk
  unfold isLong LONG_MIN LONG_MAX
  omega

theorem counters_nonneg {cs_method : Int} {n : Nat} {per_thread : Int} {s t : Workers}
    (hk : per_thread ≤ LONG_MAX) (hs : ∀ tid, 0 ≤ s.i tid)
    (h : RoundReachable cs_method n per_thread s t) : ∀ tid, 0 ≤ t.i tid := by
  induction h with
  | refl => exact hs
  | @tail b _ _ hstep ih =>
    cases hstep with
    | round tid htid hi =>
      intro j
      show 0 ≤ Function.update b.i tid (wrapLong (b.i tid + 1)) j
      rw [counter_step hk (ih tid) hi]
      by_cases hj : j = tid
      · subst hj; rw [Function.update_same]; have := ih j; omega
      · rw [Function.update_noteq hj]; exact ih j

theorem exists_all_done (cs_method : Int) (n : Nat) {per_thread : Int}
    (hk : per_thread ≤ LONG_MAX) :
    ∀ (m : Nat) (s : Workers), (∀ tid, 0 ≤ s.i tid) → rounds_left per_thread s.i n ≤ m →
      ∃ t, RoundReachable cs_method n per_thread s t ∧ all_done n per_thread t := by
  intro m
  induction m with
  | zero =>
    intro s h0 hm
    by_cases hd : all_done n per_thread s
    · exact ⟨s, Relation.ReflTransGen.refl, hd⟩
    · unfold all_done at hd
      push_neg at hd
      obtain ⟨tid, htid, hi⟩ := hd
      have := rounds_left_update hi n htid
      omega
  | succ m ih =>
    intro s h0 hm
    by_cases hd : all_done n per_thread s
    · exact ⟨s, Relation.ReflTransGen.refl, hd⟩
    · unfold all_done at hd
      push_neg at hd
      obtain ⟨tid, htid, hi⟩ := hd
      have hstep : RoundStep cs_method n per_thread s (run_round cs_method tid s) :=
        RoundStep.round s tid htid hi
      have hreach : RoundReachable cs_method n per_thread s (run_round cs_method tid s) :=
        Relation.ReflTransGen.single hstep
      have h0' := counters_nonneg hk h0 hreach
      have hleft : rounds_left per_thread (run_round cs_method tid s).i n ≤ m := by
        have := rounds_left_update hi n htid
        show rounds_left per_thread (Function.update s.i tid (wrapLong (s.i tid + 1))) n ≤ m
        rw [counter_step hk (h0 tid) hi]
        omega
      obtain ⟨t, ht, hdone⟩ := ih (run_round cs_method tid s) h0' hleft
      exact ⟨t, Relation.ReflTransGen.trans hreach ht, hdone⟩

/-! ## Exact drain -/

theorem sum_withdrawn_congr {w v : Nat → Int} :
    ∀ n, (∀ j, j < n → w j = v j) → sum_withdrawn w n = sum_withdrawn v n
  | 0, _ => rfl
  | n + 1, h => by
    have ih := sum_withdrawn_congr n (fun j hj => h j (by omega))
    simp only [sum_withdrawn, ih, h n (by omega)]

theorem sum_withdrawn_const (k : Int) : ∀ n : Nat, sum_withdrawn (fun _ => k) n = n * k
  | 0 => by simp [sum_withdrawn]
  | n + 1 => by
    have ih := sum_withdrawn_const k n
    simp only [sum_withdrawn, ih]
    push_cast
    ring

theorem sum_withdrawn_le_mul {w : Nat → Int} {k : Int} :
    ∀ n : Nat, (∀ j, j < n → w j ≤ k) → sum_withdrawn w n ≤ n * k
  | 0, _ => by simp [sum_withdrawn]
  | n + 1, h => by
    have ih := sum_withdrawn_le_mul n (fun j hj => h j (by omega))
    have hn := h n (by omega)
    have e : ((n + 1 : Nat) : Int) * k = n * k + k := by push_cast; ring
    simp only [sum_withdrawn]
    rw [e]
    omega

theorem sum_withdrawn_slack {w : Nat → Int} {k : Int} {tid : Nat} :
    ∀ n : Nat, (∀ j, j < n → w j ≤ k) → tid < n →
      sum_withdrawn w n + (k - w tid) ≤ n * k
  | 0, _, hlt => absurd hlt (Nat.not_lt_zero _)
  | n + 1, h, hlt => by
    have hn := h n (by omega)
    have e : ((n + 1 : Nat) : Int) * k = n * k + k := by push_cast; ring
    simp only [sum_withdrawn]
    rw [e]
    by_cases htid : tid < n
    · have ih := sum_withdrawn_slack n (fun j hj => h j (by omega)) htid
      omega
    · have : tid = n := by omega
      subst this
      have := sum_withdrawn_le_mul tid (fun j hj => h j (by omega))
      omega

theorem round_accept_exact {cs_method : Int} {n : Nat} {B : Int} {s : Ledger} {tid : Nat}
    (hB : isLong B) (htid : tid < n) (h : LedgerInv cs_method n B s)
    (hlt : ¬ active_balance cs_method s < WITHDRAW_AMOUNT) :
    active_balance cs_method (withdrawal_round cs_method tid s) =
        active_balance cs_method s - 1 ∧
      (withdrawal_round cs_method tid s).withdrawn =
        Function.update s.withdrawn tid (s.withdrawn tid + 1) := by
  obtain ⟨hbal, hw⟩ := withdrawal_round_accept tid hlt
  obtain ⟨h1, h2, h3⟩ := h
  unfold WITHDRAW_AMOUNT at hlt hbal hw
  unfold isLong LONG_MIN LONG_MAX at hB
  have hsum := sum_withdrawn_nonneg h2 n
  have htl := le_sum_withdrawn h2 n htid
  have ht0 := h2 tid
  have e1 : wrapLong (active_balance cs_method s - 1) = active_balance cs_method s - 1 := by
    apply wrapLong_of_isLong
    unfold isLong LONG_MIN LONG_MAX
    omega
  have e2 : wrapLong (s.withdrawn tid + 1) = s.withdrawn tid + 1 := by
    apply wrapLong_of_isLong
    unfold isLong LONG_MIN LONG_MAX
    omega
  rw [e1] at hbal
  rw [e2] at hw
  exact ⟨hbal, hw⟩

/-- While draining `n * k`: every worker's slot equals its loop counter, which
is at most `k`. -/
theorem drain_counters {cs_method : Int} {n : Nat} {k : Int} {s : Workers}
    (hk0 : 0 ≤ k) (hfit : (n : Int) * k ≤ LONG_MAX) (hk : k ≤ LONG_MAX)
    (hs : RoundReachable cs_method n k (initial_workers (n * k)) s) :
    ∀ tid, tid < n → s.ledger.withdrawn tid = s.i tid ∧ s.i tid ≤ k := by
  have hB : isLong ((n : Int) * k) := by
    have : (0 : Int) ≤ (n : Int) * k := Int.mul_nonneg (Int.ofNat_nonneg n) hk0
    unfold LONG_MAX at hfit
    unfold isLong LONG_MIN LONG_MAX
    omega
  induction hs with
  | refl => intro tid _; exact ⟨rfl, hk0⟩
  | @tail b _ hb hstep ih =>
    have hinv := ledgerInv_reachable hB (ledgerInv_initial cs_method n _) hb
    have h0 := counters_nonneg hk (fun _ => Int.le_refl 0) hb
    cases hstep with
    | round tid htid hi =>
      have hslack := sum_withdrawn_slack n (fun j hj => (ih j hj).2) htid
      have hcongr := sum_withdrawn_congr n (fun j hj => (ih j hj).1)
      have hacc : ¬ active_balance cs_method b.ledger < WITHDRAW_AMOUNT := by
        have := hinv.1
        unfold WITHDRAW_AMOUNT
        omega
      obtain ⟨-, hw⟩ := round_accept_exact hB htid hinv hacc
      intro j hj
      show (withdrawal_round cs_method tid b.ledger).withdrawn j =
          Function.update b.i tid (wrapLong (b.i tid + 1)) j ∧
        Function.update b.i tid (wrapLong (b.i tid + 1)) j ≤ k
      rw [hw, counter_step hk (h0 tid) hi]
      by_cases hjt : j = tid
      · subst hjt
        rw [Function.update_same, Function.update_same]
        have := (ih j hj).1
        omega
      · rw [Function.update_noteq hjt, Function.update_noteq hjt]
        exact ih j hj

/-- C3 (amended): with the initial balance `thread_count * per_thread` set by
`main`, amount 1 and rounds executed exclusively, for every method, every
`n` in `1..1024` and every `k ≥ 0` such that `n * k` fits in a `long`: in every
reachable state every `withdraw` call a worker can make returns `true`; when
all workers are done each `withdrawn[tid]` is `k`, the sum is `n * k`, the
balance is 0 and the final check of `main` yields `EXIT_SUCCESS`; and every
interleaving can be completed. -/
theorem exact_drain (cs_method : Int) (n : Nat) (k : Int)
    (hn : 1 ≤ n ∧ (n : Int) ≤ MAX_THREADS) (hk0 : 0 ≤ k) (hfit : (n : Int) * k ≤ LONG_MAX)
    (s : Workers)
    (hs : RoundReachable cs_method n k (initial_workers (initial_amount n k)) s) :
    (∀ tid, tid < n → s.i tid < k →
      (withdraw cs_method WITHDRAW_AMOUNT s.ledger).1 = true) ∧
    (all_done n k s →
      (∀ tid, tid < n → s.ledger.withdrawn tid = k) ∧
      sum_withdrawn s.ledger.withdrawn n = n * k ∧
      active_balance cs_method s.ledger = 0 ∧
      main_check cs_method n (initial_amount n k) s.ledger = EXIT_SUCCESS) ∧
    ∃ t, RoundReachable cs_method n k s t ∧ all_done n k t := by
  have hnk : (0 : Int) ≤ (n : Int) * k := Int.mul_nonneg (Int.ofNat_nonneg n) hk0
  have hB : isLong ((n : Int) * k) := by
    unfold LONG_MAX at hfit
    unfold isLong LONG_MIN LONG_MAX
    omega
  have hinit : initial_amount n k = n * k := wrapLong_of_isLong hB
  rw [hinit] at hs ⊢
  have hk : k ≤ LONG_MAX := by
    have h1 : (1 : Int) ≤ n := by exact_mod_cast hn.1
    have : k ≤ (n : Int) * k := le_mul_of_one_le_left hk0 h1
    omega
  have hinv := ledgerInv_reachable hB (ledgerInv_initial cs_method n _) hs
  have h0 := counters_nonneg hk (fun _ => Int.le_refl 0) hs
  have hc := drain_counters hk0 hfit hk hs
  have hcongr := sum_withdrawn_congr n (fun j hj => (hc j hj).1)
  refine ⟨?_, ?_, exists_all_done cs_method n hk _ s h0 (Nat.le_refl _)⟩
  · intro tid htid hi
    have hslack := sum_withdrawn_slack n (fun j hj => (hc j hj).2) htid
    have h1 := hinv.1
    have hacc : ¬ active_balance cs_method s.ledger < WITHDRAW_AMOUNT := by
      unfold WITHDRAW_AMOUNT
      omega
    unfold active_balance at hacc
    by_cases hm : cs_method = CS_METHOD_ATOMIC
    · rw [if_pos hm] at hacc
      rw [withdraw_atomic_accept hm hacc]
    · rw [if_neg hm] at hacc
      rw [withdraw_plain_accept hm hacc]
  · intro hdone
    have hall : ∀ tid, tid < n → s.ledger.withdrawn tid = k := by
      intro tid htid
      have h1 := hc tid htid
      have h2 := hdone tid htid
      omega
    have hsum : sum_withdrawn s.ledger.withdrawn n = n * k := by
      rw [sum_withdrawn_congr n hall, sum_withdrawn_const]
    refine ⟨hall, hsum, ?_, main_check_of_ledgerInv hB hinv⟩
    have h1 := hinv.1
    omega

/-- Witness for C3: the mutex method with 8 workers and 1,000,000 iterations
each drains the balance to 0 with 8,000,000 withdrawn in total. -/
theorem exact_drain_witness :
    ∃ t, RoundReachable CS_METHOD_MUTEX 8 1000000
        (initial_workers (initial_amount 8 1000000)) t ∧
      all_done 8 1000000 t ∧
      sum_withdrawn t.ledger.withdrawn 8 = 8000000 ∧
      active_balance CS_METHOD_MUTEX t.ledger = 0 := by
  obtain ⟨t, ht, hdone⟩ :=
    (exact_drain CS_METHOD_MUTEX 8 1000000 (by decide) (by decide) (by decide)
      (initial_workers (initial_amount 8 1000000)) Relation.ReflTransGen.refl).2.2
  have h := (exact_drain CS_METHOD_MUTEX 8 1000000 (by decide) (by decide) (by decide)
      t ht).2.1 hdone
  exact ⟨t, ht, hdone, by simpa using h.2.1, h.2.2.1⟩

/-- C3 as stated fails when `n * k` leaves the range of `long`: for 2 workers
and `k = 2^62` the balance set by `main` is `LONG_MIN`, and the first
`withdraw(1)` of an enabled worker returns `false`. -/
theorem exact_drain_overflow :
    ((1 : Nat) ≤ 2 ∧ ((2 : Nat) : Int) ≤ MAX_THREADS) ∧ (0 : Int) ≤ 2 ^ 62 ∧
    isLong (2 ^ 62) ∧
    (initial_workers (initial_amount 2 (2 ^ 62))).i 0 < 2 ^ 62 ∧
    initial_amount 2 (2 ^ 62) = LONG_MIN ∧
    (withdraw CS_METHOD_MUTEX WITHDRAW_AMOUNT
      (initial_workers (initial_amount 2 (2 ^ 62))).ledger).1 = false := by
  refine ⟨by decide, by decide, by decide, by decide, by decide, by decide⟩

/-! ## Sequences of withdrawals -/

theorem fits_long_of_nonneg (cs_method : Int) :
    ∀ (amounts : List Int) (s : Ledger), isLong (active_balance cs_method s) →
      (∀ a ∈ amounts, 0 ≤ a) → fits_long cs_method amounts s
  | [], _, _, _ => trivial
  | a :: rest, s, hb, ha => by
    have ha0 : 0 ≤ a := ha a (List.mem_cons_self a rest)
    have hb' := hb
    unfold isLong LONG_MIN LONG_MAX at hb'
    refine ⟨by unfold LONG_MAX; omega, ?_⟩
    apply fits_long_of_nonneg cs_method rest _ _
      (fun x hx => ha x (List.mem_cons_of_mem a hx))
    unfold active_balance at hb' ⊢
    by_cases hm : cs_method = CS_METHOD_ATOMIC
    · rw [if_pos hm] at hb' ⊢
      by_cases hlt : s.balance_atomic < a
      · rw [withdraw_atomic_reject hm hlt]; exact hb'
      · rw [withdraw_atomic_accept hm hlt]; exact isLong_wrapLong _
    · rw [if_neg hm] at hb' ⊢
      by_cases hlt : s.balance < a
      · rw [withdraw_plain_reject hm hlt]; exact hb'
      · rw [withdraw_plain_accept hm hlt]; exact isLong_wrapLong _

theorem withdraw_active (cs_method amount : Int) (s : Ledger)
    (hfit : active_balance cs_method s - amount ≤ LONG_MAX) :
    ((withdraw cs_method amount s).1 = false ∧
        active_balance cs_method s < amount ∧
        active_balance cs_method (withdraw cs_method amount s).2 =
          active_balance cs_method s) ∨
      ((withdraw cs_method amount s).1 = true ∧
        amount ≤ active_balance cs_method s ∧
        active_balance cs_method (withdraw cs_method amount s).2 =
          active_balance cs_method s - amount) := by
  unfold active_balance LONG_MAX at hfit
  unfold active_balance
  by_cases hm : cs_method = CS_METHOD_ATOMIC
  · simp only [if_pos hm] at hfit ⊢
    by_cases hlt : s.balance_atomic < amount
    · rw [withdraw_atomic_reject hm hlt]
      exact Or.inl ⟨rfl, hlt, rfl⟩
    · rw [withdraw_atomic_accept hm hlt]
      refine Or.inr ⟨rfl, by omega, ?_⟩
      show wrapLong (s.balance_atomic - amount) = s.balance_atomic - amount
      apply wrapLong_of_isLong
      unfold isLong LONG_MIN LONG_MAX
      omega
  · simp only [if_neg hm] at hfit ⊢
    by_cases hlt : s.balance < amount
    · rw [withdraw_plain_reject hm hlt]
      exact Or.inl ⟨rfl, hlt, rfl⟩
    · rw [withdraw_plain_accept hm hlt]
      refine Or.inr ⟨rfl, by omega, ?_⟩
      show wrapLong (s.balance - amount) = s.balance - amount
      apply wrapLong_of_isLong
      unfold isLong LONG_MIN LONG_MAX
      omega

/-- C4 (amended): if the balance in use is `≥ 0` and a finite sequence of
uninterrupted `withdraw` calls is made with amounts for which no executed
subtraction `balance - amount` exceeds `LONG_MAX` (as is the case for all
non-negative amounts), then the balance is `≥ 0` after every call, and the
amounts of the successful calls sum to at most the initial balance. -/
theorem balance_never_negative (cs_method : Int) (amounts : List Int) (s : Ledger)
    (h0 : 0 ≤ active_balance cs_method s) (hfit : fits_long cs_method amounts s) :
    (∀ b ∈ balances_after cs_method amounts s, 0 ≤ b) ∧
    successful_total cs_method amounts s ≤ active_balance cs_method s := by
  induction amounts generalizing s with
  | nil =>
    refine ⟨fun b hb => ?_, h0⟩
    simp [balances_after] at hb
  | cons a rest ih =>
    obtain ⟨hfa, hfr⟩ := hfit
    rcases withdraw_active cs_method a s hfa with ⟨hr, hlt, hb⟩ | ⟨hr, hle, hb⟩
    · have h0' : 0 ≤ active_balance cs_method (withdraw cs_method a s).2 := by
        rw [hb]; exact h0
      obtain ⟨i1, i2⟩ := ih _ h0' hfr
      refine ⟨fun b hmem => ?_, ?_⟩
      · simp only [balances_after, List.mem_cons] at hmem
        rcases hmem with rfl | hmem
        · exact h0'
        · exact i1 b hmem
      · simp only [successful_total, hr]
        rw [hb] at i2
        simpa using i2
    · have h0' : 0 ≤ active_balance cs_method (withdraw cs_method a s).2 := by
        rw [hb]; omega
      obtain ⟨i1, i2⟩ := ih _ h0' hfr
      refine ⟨fun b hmem => ?_, ?_⟩
      · simp only [balances_after, List.mem_cons] at hmem
        rcases hmem with rfl | hmem
        · exact h0'
        · exact i1 b hmem
      · simp only [successful_total, hr]
        rw [hb] at i2
        simp only [if_true]
        omega

/-- Witness for C4: balance 5 and the amounts 3, 4, 2 (the second call is
rejected). -/
theorem balance_never_negative_witness :
    balances_after CS_METHOD_MUTEX [3, 4, 2] (initial_ledger 5) = [2, 2, 0] ∧
    (∀ b ∈ balances_after CS_METHOD_MUTEX [3, 4, 2] (initial_ledger 5), 0 ≤ b) ∧
    successful_total CS_METHOD_MUTEX [3, 4, 2] (initial_ledger 5) ≤ 5 := by
  have h := balance_never_negative CS_METHOD_MUTEX [3, 4, 2] (initial_ledger 5)
    (by decide)
    (fits_long_of_nonneg CS_METHOD_MUTEX [3, 4, 2] (initial_ledger 5) (by decide)
      (by decide))
  exact ⟨by decide, h.1, h.2⟩

/-- C4 as stated fails for arbitrary amounts: from the non-negative balance
`LONG_MAX`, the call `withdraw(-1)` succeeds and leaves the balance `LONG_MIN`,
which is negative. -/
theorem balance_negative_after_overflow :
    0 ≤ active_balance CS_METHOD_MUTEX
      { balance := LONG_MAX, balance_atomic := LONG_MAX, withdrawn := fun _ => 0 } ∧
    isLong (-1) ∧
    (withdraw_seq CS_METHOD_MUTEX [-1]
      { balance := LONG_MAX, balance_atomic := LONG_MAX, withdrawn := fun _ => 0 }).1
      = [true] ∧
    balances_after CS_METHOD_MUTEX [-1]
      { balance := LONG_MAX, balance_atomic := LONG_MAX, withdrawn := fun _ => 0 }
      = [LONG_MIN] ∧
    LONG_MIN < 0 := by
  refine ⟨by decide, by decide, by decide, by decide, by decide⟩

/-! ## Mutual exclusion of the exchange spin lock -/

theorem xchgInv_init : XchgInv xchg_init :=
  ⟨fun _ _ h => XPc.noConfusion h, fun _ h => XPc.noConfusion h⟩

theorem xchgInv_step {s : XchgState} (t : Nat) (h : XchgInv s) :
    XchgInv (xchg_thread_step t s) := by
  obtain ⟨huniq, hflag⟩ := h
  unfold xchg_thread_step
  cases hpc : s.pc t with
  | idle =>
    refine ⟨fun a b ha hb => ?_, fun a ha => ?_⟩
    · by_cases hat : a = t
      · subst hat; simp at ha
      · by_cases hbt : b = t
        · subst hbt; simp at hb
        · simp only [Function.update_noteq hat] at ha
          simp only [Function.update_noteq hbt] at hb
          exact huniq a b ha hb
    · by_cases hat : a = t
      · subst hat; simp at ha
      · simp only [Function.update_noteq hat] at ha
        exact hflag a ha
  | yielding =>
    refine ⟨fun a b ha hb => ?_, fun a ha => ?_⟩
    · by_cases hat : a = t
      · subst hat; simp at ha
      · by_cases hbt : b = t
        · subst hbt; simp at hb
        · simp only [Function.update_noteq hat] at ha
          simp only [Function.update_noteq hbt] at hb
          exact huniq a b ha hb
    · by_cases hat : a = t
      · subst hat; simp at ha
      · simp only [Function.update_noteq hat] at ha
        exact hflag a ha
  | holding =>
    refine ⟨fun a b ha hb => ?_, fun a ha => ?_⟩
    · by_cases hat : a = t
      · subst hat; simp at ha
      · by_cases hbt : b = t
        · subst hbt; simp at hb
        · simp only [Function.update_noteq hat] at ha
          simp only [Function.update_noteq hbt] at hb
          exact huniq a b ha hb
    · by_cases hat : a = t
      · subst hat; simp at ha
      · simp only [Function.update_noteq hat] at ha
        exact absurd (huniq a t ha hpc) hat
  | testing =>
    cases hl : s.xchg_locked with
    | true =>
      refine ⟨fun a b ha hb => ?_, fun _ _ => rfl⟩
      by_cases hat : a = t
      · subst hat; simp [atomic_flag_test_and_set, hl] at ha
      · by_cases hbt : b = t
        · subst hbt; simp [atomic_flag_test_and_set, hl] at hb
        · simp only [Function.update_noteq hat] at ha
          simp only [Function.update_noteq hbt] at hb
          exact huniq a b ha hb
    | false =>
      have hnone : ∀ a, s.pc a ≠ XPc.holding := by
        intro a ha
        have := hflag a ha
        rw [hl] at this
        cases this
      refine ⟨fun a b ha hb => ?_, fun _ _ => rfl⟩
      by_cases hat : a = t
      · by_cases hbt : b = t
        · rw [hat, hbt]
        · simp only [Function.update_noteq hbt] at hb
          exact absurd hb (hnone b)
      · simp only [Function.update_noteq hat] at ha
        exact absurd ha (hnone a)

theorem xchgInv_reachable {n : Nat} {s t : XchgState} (hs : XchgInv s)
    (h : XchgReachable n s t) : XchgInv t := by
  induction h with
  | refl => exact hs
  | tail _ hstep ih =>
    cases hstep with
    | step u _ => exact xchgInv_step u ih

/-- C5: in the interleaving model of the exchange spin lock (each
`atomic_flag_test_and_set` of `cs_enter` and each `atomic_flag_clear` of
`cs_leave` one atomic step, `cs_leave` executed by a holder only), starting
from the state produced by `cs_init` (flag clear, no holder), for every number
of threads and every schedule no reachable state has two different threads that
have completed `cs_enter` and not yet executed `cs_leave`. -/
theorem xchg_mutual_exclusion (n : Nat) (s : XchgState)
    (hs : XchgReachable n xchg_init s) :
    (∀ fails c, (cs_init fails CS_METHOD_XCHG c).ctl.xchg_locked = xchg_init.xchg_locked ∧
      (cs_init fails CS_METHOD_XCHG c).exit_status = none) ∧
    (∀ t, xchg_init.pc t ≠ XPc.holding) ∧
    ¬ ∃ t u, t ≠ u ∧ s.pc t = XPc.holding ∧ s.pc u = XPc.holding := by
  refine ⟨fun _ _ => ⟨rfl, rfl⟩, fun _ h => XPc.noConfusion h, ?_⟩
  rintro ⟨t, u, hne, ht, hu⟩
  exact hne ((xchgInv_reachable xchgInv_init hs).1 t u ht hu)

/-- Witness for C5: two threads; thread 0 enters and acquires the lock, thread 1
enters and fails its test-and-set. Thread 0 holds, thread 1 spins. -/
theorem xchg_mutual_exclusion_witness :
    (xchg_thread_step 1 (xchg_thread_step 1 (xchg_thread_step 0
      (xchg_thread_step 0 xchg_init)))).pc 0 = XPc.holding ∧
    (xchg_thread_step 1 (xchg_thread_step 1 (xchg_thread_step 0
      (xchg_thread_step 0 xchg_init)))).pc 1 = XPc.yielding ∧
    ¬ ∃ t u, t ≠ u ∧
      (xchg_thread_step 1 (xchg_thread_step 1 (xchg_thread_step 0
        (xchg_thread_step 0 xchg_init)))).pc t = XPc.holding ∧
      (xchg_thread_step 1 (xchg_thread_step 1 (xchg_thread_step 0
        (xchg_thread_step 0 xchg_init)))).pc u = XPc.holding := by
  refine ⟨by decide, by decide, (xchg_mutual_exclusion 2 _ ?_).2.2⟩
  exact Relation.ReflTransGen.tail (Relation.ReflTransGen.tail (Relation.ReflTransGen.tail
    (Relation.ReflTransGen.single (XchgStep.step xchg_init 0 (by decide)))
    (XchgStep.step _ 0 (by decide))) (XchgStep.step _ 1 (by decide)))
    (XchgStep.step _ 1 (by decide))

/-! ## Validation in `main` and `eval_args` -/

theorem main_condition_iff (m : Int) :
    (m ≠ CS_METHOD_ATOMIC ∧ (m < CS_METHOD_MIN ∨ m > CS_METHOD_MAX)) ↔ ¬ valid_method m := by
  unfold valid_method CS_METHOD_ATOMIC CS_METHOD_MIN CS_METHOD_MAX CS_METHOD_LOCKED
    CS_METHOD_MQ_SYSV
  omega

theorem main_of_invalid {cfg : Config} (os : OS) (ctl : Controller)
    (workers : Ledger → Option Ledger) (h : ¬ valid_method cfg.cs_method) :
    main cfg os ctl workers = { events := [], status := 2 } := by
  unfold main
  simp only [if_pos ((main_condition_iff cfg.cs_method).2 h)]

theorem main_of_valid (cfg : Config) (os : OS) (ctl : Controller)
    (workers : Ledger → Option Ledger) (h : valid_method cfg.cs_method) :
    ∃ rest, (main cfg os ctl workers).events =
      Event.atexit_release_resources :: Event.cs_init cfg.cs_method :: rest := by
  have hc : ¬ (cfg.cs_method ≠ CS_METHOD_ATOMIC ∧
      (cfg.cs_method < CS_METHOD_MIN ∨ cfg.cs_method > CS_METHOD_MAX)) :=
    fun hc => (main_condition_iff cfg.cs_method).1 hc h
  unfold main
  simp only [if_neg hc]
  repeat' first | exact ⟨_, rfl⟩ | split

/-- C7: for every value `m` of the method selector `cs_method`, `main` proceeds
to `cs_init` iff `m = 0` (Atomic) or `1 ≤ m ≤ 9`; for every other `m` (the
default `-1` included) `main` returns status 2 having performed nothing: no
`atexit` registration, no `cs_init`, no barrier initialisation, no thread
creation. -/
theorem main_method_validation (cfg : Config) (os : OS) (ctl : Controller)
    (workers : Ledger → Option Ledger) :
    (Event.cs_init cfg.cs_method ∈ (main cfg os ctl workers).events ↔
      (cfg.cs_method = 0 ∨ (1 ≤ cfg.cs_method ∧ cfg.cs_method ≤ 9))) ∧
    (¬ (cfg.cs_method = 0 ∨ (1 ≤ cfg.cs_method ∧ cfg.cs_method ≤ 9)) →
      (main cfg os ctl workers).status = 2 ∧ (main cfg os ctl workers).events = []) ∧
    default_config.cs_method = -1 ∧
    (main default_config os ctl workers).status = 2 ∧
    (main default_config os ctl workers).events = [] := by
  have hdef : ¬ valid_method default_config.cs_method := by decide
  refine ⟨⟨fun hmem => ?_, fun hv => ?_⟩, fun hv => ?_, rfl, ?_, ?_⟩
  · by_contra hv
    rw [main_of_invalid os ctl workers hv] at hmem
    simp at hmem
  · obtain ⟨rest, hrest⟩ := main_of_valid cfg os ctl workers hv
    rw [hrest]
    simp
  · rw [main_of_invalid os ctl workers hv]
    exact ⟨rfl, rfl⟩
  · rw [main_of_invalid os ctl workers hdef]
  · rw [main_of_invalid os ctl workers hdef]

theorem cs_init_ok {m : Int} (ctl : Controller) (h : valid_method m) :
    (cs_init (fun _ => false) m ctl).exit_status = none := by
  unfold valid_method at h
  have hm : m = 0 ∨ m = 1 ∨ m = 2 ∨ m = 3 ∨ m = 4 ∨ m = 5 ∨ m = 6 ∨ m = 7 ∨ m = 8 ∨ m = 9 := by
    omega
  rcases hm with h | h | h | h | h | h | h | h | h | h <;> subst h <;> rfl

theorem create_threads_ok : ∀ todo i : Nat,
    create_threads (fun _ => 0) todo i = (List.range' i todo, false)
  | 0, _ => rfl
  | todo + 1, i => by
    simp only [create_threads, create_threads_ok todo (i + 1)]
    simp [List.range']

theorem join_threads_ok : ∀ todo i : Nat,
    join_threads (fun _ => 0) todo i = (List.range' i todo, false)
  | 0, _ => rfl
  | todo + 1, i => by
    simp only [join_threads, join_threads_ok todo (i + 1)]
    simp [List.range']

/-- The ids handed out by the creation loop are `i, i+1, ...` without gap or
repetition, at most `todo` of them, and all `todo` of them when no
`pthread_create` fails. -/
theorem create_threads_ids (create_errno : Nat → Int) : ∀ todo i : Nat,
    ∃ m, m ≤ todo ∧ (create_threads create_errno todo i).1 = List.range' i m ∧
      ((create_threads create_errno todo i).2 = false → m = todo)
  | 0, _ => ⟨0, Nat.le_refl 0, rfl, fun _ => rfl⟩
  | todo + 1, i => by
    obtain ⟨m, hm, hids, hall⟩ := create_threads_ids create_errno todo (i + 1)
    by_cases he : create_errno i ≠ 0
    · refine ⟨0, Nat.zero_le _, ?_, ?_⟩
      · simp only [create_threads, if_pos he]; rfl
      · simp only [create_threads, if_pos he]
        intro h; cases h
    · refine ⟨m + 1, Nat.succ_le_succ hm, ?_, ?_⟩
      · simp only [create_threads, if_neg he, hids]; rfl
      · simp only [create_threads, if_neg he]
        intro h
        rw [hall h]

theorem run_schedule_no_rounds (cs_method : Int) (n : Nat) {per_thread : Int}
    (hv : per_thread ≤ 0) (B : Int) :
    ∀ schedule, run_schedule cs_method n per_thread schedule (initial_workers B) =
      initial_workers B
  | [] => rfl
  | tid :: rest => by
    have hno : ¬ (tid < n ∧ (initial_workers B).i tid < per_thread) := by
      rintro ⟨-, h⟩
      have : (initial_workers B).i tid = 0 := rfl
      omega
    simp only [run_schedule, if_neg hno]
    exact run_schedule_no_rounds cs_method n hv B rest

theorem main_ok_status (cfg : Config) {workers : Ledger → Option Ledger} {after : Ledger}
    (ctl : Controller) (hm : valid_method cfg.cs_method)
    (hw : workers (initial_ledger (initial_amount cfg.thread_count cfg.per_thread)) =
      some after) :
    (main cfg os_ok ctl workers).status =
      main_check cfg.cs_method cfg.thread_count.toNat
        (initial_amount cfg.thread_count cfg.per_thread) after ∧
    (main cfg os_ok ctl workers).events =
      [Event.atexit_release_resources, Event.cs_init cfg.cs_method] ++
        (cs_init (fun _ => false) cfg.cs_method ctl).calls.map Event.call ++
        [if cfg.do_sync_start = true then Event.pthread_barrier_init cfg.thread_count
          else Event.time_init] ++
        (List.range' 0 cfg.thread_count.toNat).map Event.pthread_create ++
        (List.range' 0 cfg.thread_count.toNat).map Event.pthread_join := by
  have hc : ¬ (cfg.cs_method ≠ CS_METHOD_ATOMIC ∧
      (cfg.cs_method < CS_METHOD_MIN ∨ cfg.cs_method > CS_METHOD_MAX)) :=
    fun hc => (main_condition_iff cfg.cs_method).1 hc hm
  have hinit := cs_init_ok ctl hm
  unfold main
  simp only [if_neg hc, os_ok, hinit, hw, create_threads_ok, join_threads_ok]
  simp

theorem main_creates_started (cfg : Config) (os : OS) (ctl : Controller)
    (workers : Ledger → Option Ledger) (hm : valid_method cfg.cs_method)
    (hinit : (cs_init os.fails cfg.cs_method ctl).exit_status = none)
    (hbar : ¬ (cfg.do_sync_start = true ∧ os.barrier_init_errno ≠ 0)) :
    ∀ i ∈ (create_threads os.create_errno cfg.thread_count.toNat 0).1,
      Event.pthread_create i ∈ (main cfg os ctl workers).events := by
  have hc : ¬ (cfg.cs_method ≠ CS_METHOD_ATOMIC ∧
      (cfg.cs_method < CS_METHOD_MIN ∨ cfg.cs_method > CS_METHOD_MAX)) :=
    fun hc => (main_condition_iff cfg.cs_method).1 hc hm
  intro i hi
  have hmem : Event.pthread_create i ∈
      (create_threads os.create_errno cfg.thread_count.toNat 0).1.map Event.pthread_create :=
    List.mem_map_of_mem _ hi
  unfold main
  simp only [if_neg hc, hinit, if_neg hbar]
  repeat' split
  all_goals simp only [List.mem_append]
  all_goals tauto

/-! ## The ledger invariant under exclusion -/

theorem run_schedule_reachable (cs_method : Int) (n : Nat) (per_thread : Int) :
    ∀ (schedule : List Nat) (s : Workers),
      RoundReachable cs_method n per_thread s
        (run_schedule cs_method n per_thread schedule s)
  | [], _ => Relation.ReflTransGen.refl
  | tid :: rest, s => by
    by_cases h : tid < n ∧ s.i tid < per_thread
    · simp only [run_schedule, if_pos h]
      exact Relation.ReflTransGen.trans
        (Relation.ReflTransGen.single (RoundStep.round s tid h.1 h.2))
        (run_schedule_reachable cs_method n per_thread rest _)
    · simp only [run_schedule, if_neg h]
      exact run_schedule_reachable cs_method n per_thread rest s

/-- C2: with every worker round taken as one indivisible step, for every
method, every thread count `n` in `1..1024`, every `long` iteration count
`per_thread` and initial balance `B`, every state reachable by any interleaving
of rounds satisfies `balance == B - sum(withdrawn[0..n-1])` (balance being the
variable the method uses); the final check of `main` on such a state yields
`EXIT_SUCCESS`; every such run can be completed (all workers leave their
loop), so the check is reached; and `main` itself, with a valid method, no
failing system call and the workers run under any schedule of rounds, returns
`EXIT_SUCCESS`. -/
theorem ledger_invariant_under_exclusion (cs_method : Int) (n : Nat) (per_thread B : Int)
    (_hn : 1 ≤ n ∧ (n : Int) ≤ MAX_THREADS) (hk : isLong per_thread) (hB : isLong B)
    (s : Workers)
    (hs : RoundReachable cs_method n per_thread (initial_workers B) s) :
    active_balance cs_method s.ledger = B - sum_withdrawn s.ledger.withdrawn n ∧
    main_check cs_method n B s.ledger = EXIT_SUCCESS ∧
    (∃ t, RoundReachable cs_method n per_thread s t ∧ all_done n per_thread t ∧
      active_balance cs_method t.ledger = B - sum_withdrawn t.ledger.withdrawn n ∧
      main_check cs_method n B t.ledger = EXIT_SUCCESS) ∧
    (∀ (cfg : Config) (ctl : Controller) (schedule : List Nat),
      cfg.cs_method = cs_method → cfg.thread_count = n → cfg.per_thread = per_thread →
      valid_method cs_method →
      (main cfg os_ok ctl (exclusive_workers cfg schedule)).status = EXIT_SUCCESS) := by
  have hinv := ledgerInv_reachable hB (ledgerInv_initial cs_method n B) hs
  have h0 : ∀ tid, 0 ≤ s.i tid :=
    counters_nonneg hk.2 (fun _ => Int.le_refl 0) hs
  obtain ⟨t, ht, hdone⟩ := exists_all_done cs_method n hk.2 _ s h0 (Nat.le_refl _)
  have hinv' := ledgerInv_reachable hB hinv ht
  refine ⟨hinv.1, main_check_of_ledgerInv hB hinv, ⟨t, ht, hdone, hinv'.1,
    main_check_of_ledgerInv hB hinv'⟩, ?_⟩
  intro cfg ctl schedule hm hn hp hv
  have hnat : cfg.thread_count.toNat = n := by rw [hn]; exact Int.toNat_ofNat n
  have hw : exclusive_workers cfg schedule
      (initial_ledger (initial_amount cfg.thread_count cfg.per_thread)) =
      some (run_schedule cfg.cs_method cfg.thread_count.toNat cfg.per_thread schedule
        (initial_workers (initial_amount cfg.thread_count cfg.per_thread))).ledger := rfl
  rw [(main_ok_status cfg ctl (hm ▸ hv) hw).1]
  exact main_check_of_ledgerInv (isLong_wrapLong _)
    (ledgerInv_reachable (isLong_wrapLong _) (ledgerInv_initial _ _ _)
      (run_schedule_reachable cfg.cs_method cfg.thread_count.toNat cfg.per_thread
        schedule _))

/-- Witness for C2: two workers, one iteration each, initial balance 5, after
worker 1 has run its round. -/
theorem ledger_invariant_under_exclusion_witness :
    active_balance CS_METHOD_MUTEX
        (run_round CS_METHOD_MUTEX 1 (initial_workers 5)).ledger =
      5 - sum_withdrawn (run_round CS_METHOD_MUTEX 1 (initial_workers 5)).ledger.withdrawn 2 ∧
    main_check CS_METHOD_MUTEX 2 5
        (run_round CS_METHOD_MUTEX 1 (initial_workers 5)).ledger = EXIT_SUCCESS ∧
    (main { default_config with cs_method := 4, thread_count := 2, per_thread := 1 }
      os_ok initial_controller
      (exclusive_workers
        { default_config with cs_method := 4, thread_count := 2, per_thread := 1 }
        [1, 0])).status = EXIT_SUCCESS := by
  have h := ledger_invariant_under_exclusion CS_METHOD_MUTEX 2 1 5
    (by decide) (by decide) (by decide) (run_round CS_METHOD_MUTEX 1 (initial_workers 5))
    (Relation.ReflTransGen.single
      (RoundStep.round (initial_workers 5) 1 (by decide) (by decide)))
  exact ⟨h.1, h.2.1, h.2.2.2 _ initial_controller [1, 0] rfl rfl rfl (by decide)⟩

/-- C10 (amended): the program does not validate the `-t` value. For every
value `v ≤ 0` given with `-t`, `eval_args` accepts it and stores it in
`per_thread`; with a valid method `main` proceeds to `cs_init`; when no system
call fails it goes on to barrier initialisation and the creation of every
worker `0..thread_count-1`, the workers make no withdrawal attempt under any
schedule (the ledger is left as set up), and the process ends with
`EXIT_SUCCESS`. -/
theorem nonpositive_iterations_accepted (cfg : Config) (v : Int) (hv : v ≤ 0)
    (hm : valid_method cfg.cs_method) (hn : 1 ≤ cfg.thread_count) :
    eval_option cfg (Opt.t v) = Except.ok { cfg with per_thread := v } ∧
    (∀ os ctl workers, Event.cs_init cfg.cs_method ∈
      (main { cfg with per_thread := v } os ctl workers).events) ∧
    (∀ ctl schedule,
      Event.pthread_barrier_init cfg.thread_count ∈
        (main { cfg with per_thread := v, do_sync_start := true } os_ok ctl
          (exclusive_workers { cfg with per_thread := v, do_sync_start := true }
            schedule)).events ∧
      (∀ i : Nat, (i : Int) < cfg.thread_count → Event.pthread_create i ∈
        (main { cfg with per_thread := v, do_sync_start := true } os_ok ctl
          (exclusive_workers { cfg with per_thread := v, do_sync_start := true }
            schedule)).events) ∧
      exclusive_workers { cfg with per_thread := v, do_sync_start := true } schedule
          (initial_ledger (initial_amount cfg.thread_count v)) =
        some (initial_ledger (initial_amount cfg.thread_count v)) ∧
      (main { cfg with per_thread := v, do_sync_start := true } os_ok ctl
        (exclusive_workers { cfg with per_thread := v, do_sync_start := true }
          schedule)).status = EXIT_SUCCESS) := by
  refine ⟨rfl, fun os ctl workers => ?_, fun ctl schedule => ?_⟩
  · obtain ⟨rest, hrest⟩ :=
      main_of_valid { cfg with per_thread := v } os ctl workers hm
    rw [hrest]
    simp
  · have hw : exclusive_workers { cfg with per_thread := v, do_sync_start := true } schedule
          (initial_ledger (initial_amount cfg.thread_count v)) =
        some (initial_ledger (initial_amount cfg.thread_count v)) := by
      unfold exclusive_workers
      have := run_schedule_no_rounds cfg.cs_method cfg.thread_count.toNat hv
        (initial_amount cfg.thread_count v) schedule
      unfold initial_workers at this
      simp only [this]
    obtain ⟨hst, hev⟩ :=
      main_ok_status { cfg with per_thread := v, do_sync_start := true } ctl hm hw
    refine ⟨?_, fun i hi => ?_, hw, ?_⟩
    · rw [hev]; simp
    · rw [hev]
      simp only [List.mem_append, List.mem_map, List.mem_range']
      exact Or.inl (Or.inr ⟨i, ⟨i, by omega, by simp⟩, rfl⟩)
    · rw [hst]
      exact main_check_of_ledgerInv (isLong_wrapLong _) (ledgerInv_initial _ _ _)

/-- Witness for C10: the mutex method with `-t -5` and the default 8 threads. -/
theorem nonpositive_iterations_accepted_witness :
    eval_option { default_config with cs_method := 4 } (Opt.t (-5)) =
      Except.ok { default_config with cs_method := 4, per_thread := -5 } ∧
    (main { default_config with cs_method := 4, per_thread := -5, do_sync_start := true }
      os_ok initial_controller
      (exclusive_workers
        { default_config with cs_method := 4, per_thread := -5, do_sync_start := true }
        [0, 1])).status = EXIT_SUCCESS := by
  have h := nonpositive_iterations_accepted { default_config with cs_method := 4 } (-5)
    (by decide) (by decide) (by decide)
  exact ⟨h.1, (h.2.2 initial_controller [0, 1]).2.2.2⟩

/-- C10 as stated fails: with `-m 4 -t 0` no configuration error is reported;
`eval_args` returns normally, `main` performs `cs_init`, initialises the barrier
and creates the workers, and the process ends with `EXIT_SUCCESS`. -/
theorem zero_iterations_not_rejected :
    eval_args default_config [Opt.m 4, Opt.t 0] =
      Except.ok { default_config with cs_method := 4, per_thread := 0 } ∧
    Event.cs_init 4 ∈
      (main { default_config with cs_method := 4, per_thread := 0 } os_ok
        initial_controller
        (exclusive_workers { default_config with cs_method := 4, per_thread := 0 } [])).events ∧
    Event.pthread_barrier_init 8 ∈
      (main { default_config with cs_method := 4, per_thread := 0 } os_ok
        initial_controller
        (exclusive_workers { default_config with cs_method := 4, per_thread := 0 } [])).events ∧
    Event.pthread_create 0 ∈
      (main { default_config with cs_method := 4, per_thread := 0 } os_ok
        initial_controller
        (exclusive_workers { default_config with cs_method := 4, per_thread := 0 } [])).events ∧
    run_program [Opt.m 4, Opt.t 0] os_ok
      (exclusive_workers { default_config with cs_method := 4, per_thread := 0 } []) =
      EXIT_SUCCESS := by
  refine ⟨rfl, by decide, by decide, by decide, by decide⟩

/-! ## Thread count and worker slots -/

/-- What holds of `-c`: the value is accepted iff its conversion to `int` lies in
`1..MAX_THREADS`, and is otherwise answered with `exit(2)`; after acceptance
`thread_count` is in `1..1024`, and the ids handed to the workers are
`0, 1, ...` in order, without repetition, all below 1024, and all of
`0..thread_count-1` when no `pthread_create` fails. -/
theorem accepted_thread_count_slots (cfg : Config) (value : Int) :
    (eval_option cfg (Opt.c value) =
        Except.ok { cfg with thread_count := wrapInt value } ↔
      (1 ≤ wrapInt value ∧ wrapInt value ≤ MAX_THREADS)) ∧
    (¬ (1 ≤ wrapInt value ∧ wrapInt value ≤ MAX_THREADS) →
      eval_option cfg (Opt.c value) = Except.error 2) ∧
    ((1 ≤ wrapInt value ∧ wrapInt value ≤ MAX_THREADS) →
      ∀ create_errno : Nat → Int,
        (create_threads create_errno (wrapInt value).toNat 0).1.Nodup ∧
        (∀ i ∈ (create_threads create_errno (wrapInt value).toNat 0).1,
          (i : Int) < wrapInt value ∧ (i : Int) < MAX_THREADS) ∧
        ((create_threads create_errno (wrapInt value).toNat 0).2 = false →
          (create_threads create_errno (wrapInt value).toNat 0).1 =
            List.range (wrapInt value).toNat)) := by
  refine ⟨⟨fun h => ?_, fun h => ?_⟩, fun h => ?_, fun h create_errno => ?_⟩
  · by_contra hc
    have hc' : wrapInt value < 1 ∨ wrapInt value > MAX_THREADS := by omega
    simp only [eval_option, if_pos hc'] at h
    cases h
  · have hc' : ¬ (wrapInt value < 1 ∨ wrapInt value > MAX_THREADS) := by omega
    simp only [eval_option, if_neg hc']
  · have hc' : wrapInt value < 1 ∨ wrapInt value > MAX_THREADS := by omega
    simp only [eval_option, if_pos hc']
  · obtain ⟨m, hm, hids, hall⟩ := create_threads_ids create_errno (wrapInt value).toNat 0
    rw [hids]
    refine ⟨List.nodup_range' 0 m, fun i hi => ?_, fun hf => ?_⟩
    · rw [List.mem_range'_1] at hi
      omega
    · rw [hall hf, List.range_eq_range']

/-- C9, the failing input: the `-c` value 4294967297 (`2^32 + 1`, a `long`
outside `1..1024`) is converted to the `int` 1 by the assignment to
`thread_count` and accepted; instead of exiting with status 2 the program goes
on with one thread: `main` performs `cs_init` and creates worker 0. -/
theorem thread_count_conversion_accepts :
    isLong 4294967297 ∧
    ¬ (1 ≤ (4294967297 : Int) ∧ (4294967297 : Int) ≤ MAX_THREADS) ∧
    eval_option default_config (Opt.c 4294967297) =
      Except.ok { default_config with thread_count := 1 } ∧
    eval_args default_config [Opt.m 4, Opt.c 4294967297] =
      Except.ok { default_config with cs_method := 4, thread_count := 1 } ∧
    (∀ workers, Event.cs_init 4 ∈
      (main { default_config with cs_method := 4, thread_count := 1 } os_ok
        initial_controller workers).events) ∧
    (∀ workers, Event.pthread_create 0 ∈
      (main { default_config with cs_method := 4, thread_count := 1 } os_ok
        initial_controller workers).events) := by
  refine ⟨by decide, by decide, rfl, rfl, fun workers => ?_, fun workers => ?_⟩
  · obtain ⟨rest, hrest⟩ :=
      main_of_valid { default_config with cs_method := 4, thread_count := 1 } os_ok
        initial_controller workers (by decide)
    rw [hrest]
    simp
  · exact main_creates_started { default_config with cs_method := 4, thread_count := 1 }
      os_ok initial_controller workers (by decide) (by decide) (by decide) 0 (by decide)

/-! ## The naive spin flag -/

theorem naive_run_reachable (n : Nat) (per_thread : Int) :
    ∀ (schedule : List Nat) (s : NaiveState),
      NaiveReachable n per_thread s (naive_run n per_thread schedule s)
  | [], _ => Relation.ReflTransGen.refl
  | tid :: rest, s => by
    by_cases htid : tid < n
    · simp only [naive_run, if_pos htid]
      by_cases hpc : s.pc tid = NPc.done
      · have hs : naive_thread_step per_thread tid s = s := by
          unfold naive_thread_step
          rw [hpc]
        rw [hs]
        exact naive_run_reachable n per_thread rest s
      · exact Relation.ReflTransGen.trans
          (Relation.ReflTransGen.single (NaiveStep.step s tid htid hpc))
          (naive_run_reachable n per_thread rest _)
    · simp only [naive_run, if_neg htid]
      exact naive_run_reachable n per_thread rest s

/-- C6 as stated fails: with 2 workers, 1 iteration each and the balance 2 set
by `main`, the schedule that alternates the two workers is a schedule of the
model; after 6 steps both workers are between `cs_enter` and `cs_leave`, and
at the end both have finished with `balance = 1` and `withdrawn = 1, 1`, so
`balance ≠ initial_balance - sum(withdrawn)` and `main` returns `EXIT_FAILURE`. -/
theorem naive_flag_lost_update :
    initial_amount 2 1 = 2 ∧
    in_critical ((naive_run 2 1 [0, 1, 0, 1, 0, 1] (naive_init 2)).pc 0) = true ∧
    in_critical ((naive_run 2 1 [0, 1, 0, 1, 0, 1] (naive_init 2)).pc 1) = true ∧
    (naive_run 2 1 [0, 1, 0, 1, 0, 1, 0, 1, 0, 1, 0, 1, 0, 1, 0, 1, 0, 1]
      (naive_init 2)).pc 0 = NPc.done ∧
    (naive_run 2 1 [0, 1, 0, 1, 0, 1, 0, 1, 0, 1, 0, 1, 0, 1, 0, 1, 0, 1]
      (naive_init 2)).pc 1 = NPc.done ∧
    (naive_run 2 1 [0, 1, 0, 1, 0, 1, 0, 1, 0, 1, 0, 1, 0, 1, 0, 1, 0, 1]
      (naive_init 2)).ledger.balance = 1 ∧
    sum_withdrawn (naive_run 2 1 [0, 1, 0, 1, 0, 1, 0, 1, 0, 1, 0, 1, 0, 1, 0, 1, 0, 1]
      (naive_init 2)).ledger.withdrawn 2 = 2 ∧
    main_check CS_METHOD_LOCKED 2 2
      (naive_run 2 1 [0, 1, 0, 1, 0, 1, 0, 1, 0, 1, 0, 1, 0, 1, 0, 1, 0, 1]
        (naive_init 2)).ledger = EXIT_FAILURE ∧
    NaiveReachable 2 1 (naive_init 2)
      (naive_run 2 1 [0, 1, 0, 1, 0, 1, 0, 1, 0, 1, 0, 1, 0, 1, 0, 1, 0, 1]
        (naive_init 2)) := by
  refine ⟨by decide, by decide, by decide, by decide, by decide, by decide, by decide,
    by decide, naive_run_reachable 2 1 _ _⟩

theorem naiveInv_init (n : Nat) (B : Int) : NaiveInv n B (naive_init B) where
  excl := fun _ _ h => Bool.noConfusion h
  range := fun _ h => Bool.noConfusion h
  nonneg := fun _ => Int.le_refl 0
  stored := fun _ _ h => NPc.noConfusion h
  loaded := fun _ h => NPc.noConfusion h
  settled := fun _ =>
    let h := ledgerInv_initial CS_METHOD_LOCKED n B
    ⟨h.1, h.2.2⟩
  pending := fun _ h => NPc.noConfusion h

/-- A step that only moves worker `t` to the program counter `X` and leaves the
ledger alone preserves the invariant. -/
theorem naiveInv_update {n : Nat} {B : Int} {s s' : NaiveState} (t : Nat) (X : NPc)
    (hpc' : s'.pc = Function.update s.pc t X) (hl : s'.ledger = s.ledger) (ht : t < n)
    (hinv : NaiveInv n B s) (hex : exclusive s')
    (hX1 : ∀ r, X = NPc.store r → r = s.ledger.balance ∧ 1 ≤ r)
    (hX2 : X = NPc.load → 1 ≤ s.ledger.balance)
    (hX3 : X ≠ NPc.credit) (hold : s.pc t ≠ NPc.credit) : NaiveInv n B s' where
  excl := hex
  range := by
    intro a ha
    rw [hpc'] at ha
    by_cases h : a = t
    · rw [h]; exact ht
    · rw [Function.update_noteq h] at ha
      exact hinv.range a ha
  nonneg := by rw [hl]; exact hinv.nonneg
  stored := by
    intro a r ha
    rw [hpc'] at ha
    rw [hl]
    by_cases h : a = t
    · rw [h, Function.update_same] at ha
      exact hX1 r ha
    · rw [Function.update_noteq h] at ha
      exact hinv.stored a r ha
  loaded := by
    intro a ha
    rw [hpc'] at ha
    rw [hl]
    by_cases h : a = t
    · rw [h, Function.update_same] at ha
      exact hX2 ha
    · rw [Function.update_noteq h] at ha
      exact hinv.loaded a ha
  settled := by
    intro hno
    rw [hl]
    apply hinv.settled
    intro a ha
    by_cases h : a = t
    · rw [h] at ha; exact hold ha
    · apply hno a
      rw [hpc', Function.update_noteq h]
      exact ha
  pending := by
    intro a ha
    rw [hpc'] at ha
    rw [hl]
    by_cases h : a = t
    · rw [h, Function.update_same] at ha
      exact absurd ha hX3
    · rw [Function.update_noteq h] at ha
      exact hinv.pending a ha

theorem naiveInv_store {n : Nat} {B : Int} {s s' : NaiveState} {t : Nat} {r : Int}
    (hB : isLong B) (ht : t < n) (hinv : NaiveInv n B s) (hpc : s.pc t = NPc.store r)
    (hpc' : s'.pc = Function.update s.pc t NPc.credit)
    (hbal' : s'.ledger.balance = wrapLong (r - WITHDRAW_AMOUNT))
    (hw' : s'.ledger.withdrawn = s.ledger.withdrawn)
    (hex : exclusive s') : NaiveInv n B s' := by
  have htc : in_critical (s.pc t) = true := by rw [hpc]; rfl
  have hoth : ∀ a, a ≠ t → in_critical (s.pc a) = true → False :=
    fun a hne ha => hne (hinv.excl a t ha htc)
  have hnocredit : ∀ a, s.pc a ≠ NPc.credit := by
    intro a ha
    by_cases h : a = t
    · rw [h, hpc] at ha; cases ha
    · exact hoth a h (by rw [ha]; rfl)
  obtain ⟨hr, hr1⟩ := hinv.stored t r hpc
  obtain ⟨hbal, _⟩ := hinv.settled hnocredit
  have hsum := sum_withdrawn_nonneg hinv.nonneg n
  unfold isLong LONG_MIN LONG_MAX at hB
  have hw : wrapLong (r - WITHDRAW_AMOUNT) = s.ledger.balance - 1 := by
    unfold WITHDRAW_AMOUNT
    rw [wrapLong_of_isLong]
    · omega
    · unfold isLong LONG_MIN LONG_MAX
      omega
  rw [hw] at hbal'
  refine ⟨hex, ?_, ?_, ?_, ?_, ?_, ?_⟩
  · intro a ha
    rw [hpc'] at ha
    by_cases h : a = t
    · rw [h]; exact ht
    · rw [Function.update_noteq h] at ha
      exact hinv.range a ha
  · rw [hw']; exact hinv.nonneg
  · intro a r' ha
    rw [hpc'] at ha
    by_cases h : a = t
    · rw [h, Function.update_same] at ha; cases ha
    · rw [Function.update_noteq h] at ha
      exact absurd (by rw [ha]; rfl) (hoth a h)
  · intro a ha
    rw [hpc'] at ha
    by_cases h : a = t
    · rw [h, Function.update_same] at ha; cases ha
    · rw [Function.update_noteq h] at ha
      exact absurd (by rw [ha]; rfl) (hoth a h)
  · intro hno
    exact absurd (by rw [hpc', Function.update_same]) (hno t)
  · intro a _
    rw [hbal', hw']
    omega

theorem naiveInv_credit {n : Nat} {B : Int} {s s' : NaiveState} {t : Nat}
    (hB : isLong B) (ht : t < n) (hinv : NaiveInv n B s) (hpc : s.pc t = NPc.credit)
    (hpc' : s'.pc = Function.update s.pc t NPc.leave)
    (hbal' : s'.ledger.balance = s.ledger.balance)
    (hw' : s'.ledger.withdrawn = Function.update s.ledger.withdrawn t
      (wrapLong (s.ledger.withdrawn t + WITHDRAW_AMOUNT)))
    (hex : exclusive s') : NaiveInv n B s' := by
  have htc : in_critical (s.pc t) = true := by rw [hpc]; rfl
  have hoth : ∀ a, a ≠ t → in_critical (s.pc a) = true → False :=
    fun a hne ha => hne (hinv.excl a t ha htc)
  obtain ⟨hbal, hb0⟩ := hinv.pending t hpc
  have hsum := sum_withdrawn_nonneg hinv.nonneg n
  have htl := le_sum_withdrawn hinv.nonneg n ht
  have ht0 := hinv.nonneg t
  unfold isLong LONG_MIN LONG_MAX at hB
  have hw : wrapLong (s.ledger.withdrawn t + WITHDRAW_AMOUNT) = s.ledger.withdrawn t + 1 := by
    unfold WITHDRAW_AMOUNT
    apply wrapLong_of_isLong
    unfold isLong LONG_MIN LONG_MAX
    omega
  rw [hw] at hw'
  have hs' : sum_withdrawn s'.ledger.withdrawn n =
      sum_withdrawn s.ledger.withdrawn n + 1 := by
    rw [hw', sum_withdrawn_update_of_lt _ _ n ht]
    omega
  refine ⟨hex, ?_, ?_, ?_, ?_, ?_, ?_⟩
  · intro a ha
    rw [hpc'] at ha
    by_cases h : a = t
    · rw [h]; exact ht
    · rw [Function.update_noteq h] at ha
      exact hinv.range a ha
  · intro j
    rw [hw']
    by_cases hj : j = t
    · rw [hj, Function.update_same]; omega
    · rw [Function.update_noteq hj]; exact hinv.nonneg j
  · intro a r' ha
    rw [hpc'] at ha
    rw [hbal']
    by_cases h : a = t
    · rw [h, Function.update_same] at ha; cases ha
    · rw [Function.update_noteq h] at ha
      exact hinv.stored a r' ha
  · intro a ha
    rw [hpc'] at ha
    rw [hbal']
    by_cases h : a = t
    · rw [h, Function.update_same] at ha; cases ha
    · rw [Function.update_noteq h] at ha
      exact hinv.loaded a ha
  · intro _
    rw [hbal', hs']
    exact ⟨by omega, Or.inl hb0⟩
  · intro a ha
    rw [hpc'] at ha
    by_cases h : a = t
    · rw [h, Function.update_same] at ha; cases ha
    · rw [Function.update_noteq h] at ha
      exact absurd (by rw [ha]; rfl) (hoth a h)

theorem naiveInv_step {n : Nat} {per_thread B : Int} {s : NaiveState} {t : Nat}
    (hB : isLong B) (ht : t < n) (hinv : NaiveInv n B s)
    (hex : exclusive (naive_thread_step per_thread t s)) :
    NaiveInv n B (naive_thread_step per_thread t s) := by
  unfold naive_thread_step at hex ⊢
  cases hpc : s.pc t with
  | loop_test =>
    rw [hpc] at hex
    refine naiveInv_update t _ rfl rfl ht hinv hex ?_ ?_ ?_ (by rw [hpc]; exact NPc.noConfusion)
    · intro r h; split_ifs at h
    · intro h; split_ifs at h
    · intro h; split_ifs at h
  | enter_test =>
    rw [hpc] at hex
    refine naiveInv_update t _ rfl rfl ht hinv hex ?_ ?_ ?_ (by rw [hpc]; exact NPc.noConfusion)
    · intro r h; split_ifs at h
    · intro h; split_ifs at h
    · intro h; split_ifs at h
  | enter_yield =>
    rw [hpc] at hex
    exact naiveInv_update t _ rfl rfl ht hinv hex (fun _ h => NPc.noConfusion h)
      (fun h => NPc.noConfusion h) NPc.noConfusion (by rw [hpc]; exact NPc.noConfusion)
  | enter_set =>
    rw [hpc] at hex
    exact naiveInv_update t _ rfl rfl ht hinv hex (fun _ h => NPc.noConfusion h)
      (fun h => NPc.noConfusion h) NPc.noConfusion (by rw [hpc]; exact NPc.noConfusion)
  | check =>
    rw [hpc] at hex
    refine naiveInv_update t _ rfl rfl ht hinv hex ?_ ?_ ?_ (by rw [hpc]; exact NPc.noConfusion)
    · intro r h; split_ifs at h
    · intro h
      unfold WITHDRAW_AMOUNT at h
      split_ifs at h with hlt
      omega
    · intro h; split_ifs at h
  | load =>
    rw [hpc] at hex
    refine naiveInv_update t _ rfl rfl ht hinv hex ?_ (fun h => NPc.noConfusion h)
      NPc.noConfusion (by rw [hpc]; exact NPc.noConfusion)
    intro r h
    have hr : s.ledger.balance = r := NPc.store.inj h
    have := hinv.loaded t hpc
    exact ⟨hr.symm, by omega⟩
  | store r =>
    rw [hpc] at hex
    exact naiveInv_store hB ht hinv hpc rfl rfl rfl hex
  | credit =>
    rw [hpc] at hex
    exact naiveInv_credit hB ht hinv hpc rfl rfl rfl hex
  | leave =>
    rw [hpc] at hex
    exact naiveInv_update t _ rfl rfl ht hinv hex (fun _ h => NPc.noConfusion h)
      (fun h => NPc.noConfusion h) NPc.noConfusion (by rw [hpc]; exact NPc.noConfusion)
  | done =>
    exact hinv

theorem naiveInv_reachable {n : Nat} {per_thread B : Int} {s : NaiveState} (hB : isLong B)
    (h : ExclReachable n per_thread (naive_init B) s) : NaiveInv n B s := by
  induction h with
  | refl => exact naiveInv_init n B
  | tail _ hstep ih =>
    obtain ⟨hstep, hex⟩ := hstep
    cases hstep with
    | step tid htid _ => exact naiveInv_step hB htid ih hex

theorem naive_thread_step_pc_other (per_thread : Int) {t a : Nat} (s : NaiveState)
    (h : a ≠ t) : (naive_thread_step per_thread t s).pc a = s.pc a := by
  unfold naive_thread_step
  cases s.pc t <;> simp only [Function.update_noteq h]

theorem idle_beyond_step {n : Nat} (per_thread : Int) {t : Nat} {s : NaiveState}
    (ht : t < n) (h : idle_beyond n s) : idle_beyond n (naive_thread_step per_thread t s) := by
  intro a ha
  rw [naive_thread_step_pc_other per_thread s (by omega)]
  exact h a ha

theorem exclusive_of_upto {n : Nat} {s : NaiveState} (hidle : idle_beyond n s)
    (h : exclusive_upto n s = true) : exclusive s := by
  unfold exclusive_upto at h
  have h' := of_decide_eq_true h
  intro a b ha hb
  have hlt : ∀ c, in_critical (s.pc c) = true → c < n := by
    intro c hc
    by_contra hge
    rw [hidle c (by omega)] at hc
    cases hc
  exact h' a (hlt a ha) b (hlt b hb) ha hb

theorem naive_run_exclusive_reachable (n : Nat) (per_thread : Int) :
    ∀ (schedule : List Nat) (s : NaiveState), idle_beyond n s →
      naive_run_exclusive n per_thread schedule s = true →
      ExclReachable n per_thread s (naive_run n per_thread schedule s)
  | [], _, _, _ => Relation.ReflTransGen.refl
  | tid :: rest, s, hidle, h => by
    simp only [naive_run_exclusive, Bool.and_eq_true, decide_eq_true_eq] at h
    obtain ⟨⟨⟨htid, hpc⟩, hex⟩, hrest⟩ := h
    have hidle' := idle_beyond_step per_thread htid hidle
    simp only [naive_run, if_pos htid]
    exact Relation.ReflTransGen.trans
      (Relation.ReflTransGen.single
        ⟨NaiveStep.step s tid htid hpc, exclusive_of_upto hidle' hex⟩)
      (naive_run_exclusive_reachable n per_thread rest _ hidle' hrest)

theorem naive_two_in_critical (n : Nat) (per_thread B : Int) (hn : 2 ≤ n)
    (hk : 1 ≤ per_thread) :
    (naive_run n per_thread [0, 1, 0, 1, 0, 1] (naive_init B)).pc 0 = NPc.check ∧
    (naive_run n per_thread [0, 1, 0, 1, 0, 1] (naive_init B)).pc 1 = NPc.check := by
  have h0 : 0 < n := by omega
  have h1 : 1 < n := by omega
  have hk' : (0 : Int) < per_thread := by omega
  simp [naive_run, naive_thread_step, naive_init, h0, h1, hk', Function.update]

theorem sum_withdrawn_zero : ∀ n, sum_withdrawn (fun _ => (0 : Int)) n = 0
  | 0 => rfl
  | n + 1 => by simp only [sum_withdrawn, sum_withdrawn_zero n]; rfl

theorem naive_run_pc_other (n : Nat) (per_thread : Int) {t : Nat} :
    ∀ (schedule : List Nat) (s : NaiveState), t ∉ schedule →
      (naive_run n per_thread schedule s).pc t = s.pc t
  | [], _, _ => rfl
  | tid :: rest, s, h => by
    have hne : t ≠ tid := fun e => h (e ▸ List.mem_cons_self _ _)
    have hrest : t ∉ rest := fun e => h (List.mem_cons_of_mem _ e)
    by_cases htid : tid < n
    · simp only [naive_run, if_pos htid]
      rw [naive_run_pc_other n per_thread rest _ hrest,
        naive_thread_step_pc_other per_thread s hne]
    · simp only [naive_run, if_neg htid]
      exact naive_run_pc_other n per_thread rest s hrest

/-- The alternating schedule of workers 0 and 1 through their first round: both
are back at the loop test, the balance went down by 1 and both slots went up
by 1. -/
theorem naive_lost_update_state (n : Nat) (per_thread B : Int) (hn : 2 ≤ n)
    (hk : 1 ≤ per_thread) (hB1 : 1 ≤ B) (hB : isLong B) :
    (naive_run n per_thread [0, 1, 0, 1, 0, 1, 0, 1, 0, 1, 0, 1, 0, 1, 0, 1]
      (naive_init B)).pc 0 = NPc.loop_test ∧
    (naive_run n per_thread [0, 1, 0, 1, 0, 1, 0, 1, 0, 1, 0, 1, 0, 1, 0, 1]
      (naive_init B)).pc 1 = NPc.loop_test ∧
    (naive_run n per_thread [0, 1, 0, 1, 0, 1, 0, 1, 0, 1, 0, 1, 0, 1, 0, 1]
      (naive_init B)).ledger.balance = B - 1 ∧
    (naive_run n per_thread [0, 1, 0, 1, 0, 1, 0, 1, 0, 1, 0, 1, 0, 1, 0, 1]
      (naive_init B)).ledger.withdrawn =
      Function.update (Function.update (fun _ => 0) 0 1) 1 1 := by
  have h0 : 0 < n := by omega
  have h1 : 1 < n := by omega
  have hk' : (0 : Int) < per_thread := by omega
  have hlt : ¬ B < 1 := by omega
  have hw : wrapLong (B - 1) = B - 1 := by
    apply wrapLong_of_isLong
    unfold isLong LONG_MIN LONG_MAX at hB ⊢
    omega
  have hw1 : wrapLong 1 = 1 := by decide
  simp [naive_run, naive_thread_step, naive_init, initial_ledger, h0, h1, hk', hlt, hw, hw1,
    WITHDRAW_AMOUNT]

/-- C6 (amended): in the interleaving model of the naive spin flag (the read of
`locked`, the write `locked = true`, and the read and the write of `balance`
separate steps), exclusion is not guaranteed: for every number of workers
`n ≥ 2` and `per_thread ≥ 1` some schedule reaches a state in which workers 0
and 1 are both between `cs_enter` and `cs_leave`, and, the initial balance being
at least 1, some schedule reaches a state with no worker in the critical
section in which `balance ≠ initial_balance - sum(withdrawn)` (an update is
lost). The ledger equation holds, and the final check of `main` passes, in
every state without a worker in the critical section (the final state
included) that is reached along a schedule on which at most one worker was
between `cs_enter` and `cs_leave` at any time. -/
theorem naive_flag_exclusion_not_guaranteed (n : Nat) (per_thread B : Int)
    (hn : 2 ≤ n) (hk : 1 ≤ per_thread) (hB : isLong B) :
    (∃ s, NaiveReachable n per_thread (naive_init B) s ∧
      in_critical (s.pc 0) = true ∧ in_critical (s.pc 1) = true) ∧
    (1 ≤ B → ∃ s, NaiveReachable n per_thread (naive_init B) s ∧
      (∀ t, in_critical (s.pc t) = false) ∧
      s.ledger.balance ≠ B - sum_withdrawn s.ledger.withdrawn n) ∧
    (∀ s, ExclReachable n per_thread (naive_init B) s →
      (∀ t, t < n → in_critical (s.pc t) = false) →
      s.ledger.balance = B - sum_withdrawn s.ledger.withdrawn n ∧
      main_check CS_METHOD_LOCKED n B s.ledger = EXIT_SUCCESS) := by
  refine ⟨?_, fun hB1 => ?_, ?_⟩
  · obtain ⟨h0, h1⟩ := naive_two_in_critical n per_thread B hn hk
    refine ⟨_, naive_run_reachable n per_thread [0, 1, 0, 1, 0, 1] (naive_init B), ?_, ?_⟩
    · rw [h0]; rfl
    · rw [h1]; rfl
  · obtain ⟨h0, h1, hbal, hw⟩ := naive_lost_update_state n per_thread B hn hk hB1 hB
    refine ⟨_, naive_run_reachable n per_thread
      [0, 1, 0, 1, 0, 1, 0, 1, 0, 1, 0, 1, 0, 1, 0, 1] (naive_init B), fun t => ?_, ?_⟩
    · by_cases ht0 : t = 0
      · rw [ht0, h0]; rfl
      · by_cases ht1 : t = 1
        · rw [ht1, h1]; rfl
        · rw [naive_run_pc_other n per_thread _ _ (by simp [ht0, ht1])]
          rfl
    · have hsum : sum_withdrawn
          (Function.update (Function.update (fun _ => (0 : Int)) 0 1) 1 1) n = 2 := by
        rw [sum_withdrawn_update_of_lt _ _ n (by omega),
          sum_withdrawn_update_of_lt _ _ n (by omega), sum_withdrawn_zero]
        simp
      rw [hbal, hw, hsum]
      omega
  · intro s hs hout
    have hinv := naiveInv_reachable hB hs
    have hno : ∀ t, s.pc t ≠ NPc.credit := by
      intro t ht
      have hc : in_critical (s.pc t) = true := by rw [ht]; rfl
      have := hout t (hinv.range t hc)
      rw [hc] at this
      cases this
    obtain ⟨hbal, hsign⟩ := hinv.settled hno
    have hl : LedgerInv CS_METHOD_LOCKED n B s.ledger := ⟨hbal, hinv.nonneg, hsign⟩
    exact ⟨hbal, main_check_of_ledgerInv hB hl⟩

/-- Witness for C6: 2 workers, 1 iteration each, balance 2. Run one after the
other (worker 0 for its 9 steps, then worker 1), the schedule keeps exclusion,
both finish, and the ledger equation and the final check hold. -/
theorem naive_flag_exclusion_not_guaranteed_witness :
    naive_run_exclusive 2 1 [0, 0, 0, 0, 0, 0, 0, 0, 0, 1, 1, 1, 1, 1, 1, 1, 1, 1]
      (naive_init 2) = true ∧
    naive_done 2 (naive_run 2 1 [0, 0, 0, 0, 0, 0, 0, 0, 0, 1, 1, 1, 1, 1, 1, 1, 1, 1]
      (naive_init 2)) ∧
    (naive_run 2 1 [0, 0, 0, 0, 0, 0, 0, 0, 0, 1, 1, 1, 1, 1, 1, 1, 1, 1]
      (naive_init 2)).ledger.balance =
      2 - sum_withdrawn (naive_run 2 1 [0, 0, 0, 0, 0, 0, 0, 0, 0, 1, 1, 1, 1, 1, 1, 1, 1, 1]
        (naive_init 2)).ledger.withdrawn 2 ∧
    main_check CS_METHOD_LOCKED 2 2
      (naive_run 2 1 [0, 0, 0, 0, 0, 0, 0, 0, 0, 1, 1, 1, 1, 1, 1, 1, 1, 1]
        (naive_init 2)).ledger = EXIT_SUCCESS := by
  have hrun : naive_run_exclusive 2 1
      [0, 0, 0, 0, 0, 0, 0, 0, 0, 1, 1, 1, 1, 1, 1, 1, 1, 1] (naive_init 2) = true := by
    decide
  have hdone : naive_done 2 (naive_run 2 1
      [0, 0, 0, 0, 0, 0, 0, 0, 0, 1, 1, 1, 1, 1, 1, 1, 1, 1] (naive_init 2)) := by
    intro tid htid
    have : tid = 0 ∨ tid = 1 := by omega
    rcases this with h | h <;> subst h <;> decide
  have h := (naive_flag_exclusion_not_guaranteed 2 1 2 (by decide) (by decide)
    (by decide)).2.2 _
    (naive_run_exclusive_reachable 2 1 _ (naive_init 2) (fun _ _ => rfl) hrun)
    (fun t ht => by rw [hdone t ht]; rfl)
  exact ⟨hrun, hdone, h.1, h.2⟩

/-! ## Exit statuses -/

theorem cs_init_mutex_status (fails : Call → Bool) (c : Controller) (st : Int)
    (h : (cs_init_mutex fails c).exit_status = some st) : st = EXIT_FAILURE := by
  unfold cs_init_mutex at h
  split_ifs at h
  exact (Option.some.inj h).symm

theorem cs_init_sem_posix_status (fails : Call → Bool) (c : Controller) (st : Int)
    (h : (cs_init_sem_posix fails c).exit_status = some st) : st = EXIT_FAILURE := by
  unfold cs_init_sem_posix at h
  split_ifs at h
  exact (Option.some.inj h).symm

theorem cs_init_sem_posix_named_status (fails : Call → Bool) (c : Controller) (st : Int)
    (h : (cs_init_sem_posix_named fails c).exit_status = some st) : st = EXIT_FAILURE := by
  unfold cs_init_sem_posix_named at h
  split_ifs at h <;> exact (Option.some.inj h).symm

theorem cs_init_sem_sysv_status (fails : Call → Bool) (c : Controller) (st : Int)
    (h : (cs_init_sem_sysv fails c).exit_status = some st) : st = EXIT_FAILURE := by
  unfold cs_init_sem_sysv at h
  split_ifs at h <;> exact (Option.some.inj h).symm

theorem cs_init_mq_posix_status (fails : Call → Bool) (c : Controller) (st : Int)
    (h : (cs_init_mq_posix fails c).exit_status = some st) : st = EXIT_FAILURE := by
  unfold cs_init_mq_posix at h
  split_ifs at h <;> exact (Option.some.inj h).symm

theorem cs_init_mq_sysv_status (fails : Call → Bool) (c : Controller) (st : Int)
    (h : (cs_init_mq_sysv fails c).exit_status = some st) : st = EXIT_FAILURE := by
  unfold cs_init_mq_sysv at h
  split_ifs at h <;> exact (Option.some.inj h).symm

theorem cs_init_exit_status (fails : Call → Bool) (m : Int) (ctl : Controller) (st : Int)
    (h : (cs_init fails m ctl).exit_status = some st) : st = EXIT_FAILURE := by
  unfold cs_init at h
  dsimp only at h
  split_ifs at h
  all_goals first
    | exact (Option.some.inj h).symm
    | exact cs_init_mutex_status _ _ _ h
    | exact cs_init_sem_posix_status _ _ _ h
    | exact cs_init_sem_posix_named_status _ _ _ h
    | exact cs_init_sem_sysv_status _ _ _ h
    | exact cs_init_mq_posix_status _ _ _ h
    | exact cs_init_mq_sysv_status _ _ _ h

theorem eval_option_error (cfg : Config) (o : Opt) (st : Int)
    (h : eval_option cfg o = Except.error st) : st = 2 ∨ (st = EXIT_SUCCESS ∧ o = Opt.h) := by
  cases o <;> simp only [eval_option] at h
  case c value =>
    split_ifs at h
    · exact Or.inl (Except.error.inj h).symm
  case h => exact Or.inr ⟨(Except.error.inj h).symm, rfl⟩
  case unknown => exact Or.inl (Except.error.inj h).symm
  all_goals cases h

theorem eval_args_error : ∀ (opts : List Opt) (cfg : Config) (st : Int),
    eval_args cfg opts = Except.error st → st = 2 ∨ (st = EXIT_SUCCESS ∧ Opt.h ∈ opts)
  | [], _, _, h => by simp [eval_args] at h
  | o :: rest, cfg, st, h => by
    simp only [eval_args] at h
    cases ho : eval_option cfg o with
    | error e =>
      rw [ho] at h
      have he : e = st := Except.error.inj h
      rcases eval_option_error cfg o e ho with h2 | ⟨h0, hh⟩
      · exact Or.inl (by omega)
      · refine Or.inr ⟨by omega, ?_⟩
        rw [hh]
        exact List.mem_cons_self _ _
    | ok cfg' =>
      rw [ho] at h
      rcases eval_args_error rest cfg' st h with h2 | ⟨h0, hh⟩
      · exact Or.inl h2
      · exact Or.inr ⟨h0, List.mem_cons_of_mem _ hh⟩

theorem main_check_values (cs_method : Int) (n : Nat) (B : Int) (s : Ledger) :
    (main_check cs_method n B s = EXIT_SUCCESS ↔
      active_balance cs_method s = wrapLong (B - total_withdrawn_loop s.withdrawn n)) ∧
    (main_check cs_method n B s = EXIT_FAILURE ↔
      active_balance cs_method s ≠ wrapLong (B - total_withdrawn_loop s.withdrawn n)) := by
  unfold main_check active_balance EXIT_SUCCESS EXIT_FAILURE
  simp only []
  split_ifs <;> simp_all

theorem main_status_zero (cfg : Config) (os : OS) (ctl : Controller)
    (workers : Ledger → Option Ledger) (h : (main cfg os ctl workers).status = 0) :
    ∃ after, workers (initial_ledger (initial_amount cfg.thread_count cfg.per_thread)) =
        some after ∧
      active_balance cfg.cs_method after =
        wrapLong (initial_amount cfg.thread_count cfg.per_thread -
          total_withdrawn_loop after.withdrawn cfg.thread_count.toNat) := by
  unfold main at h
  simp only [] at h
  split at h
  · cases h
  · split at h
    · rename_i st hst
      have := cs_init_exit_status _ _ _ _ hst
      simp only [] at h
      rw [this] at h
      cases h
    · split at h
      · cases h
      · split at h
        · cases h
        · split at h
          · cases h
          · rename_i after hw
            split at h
            · cases h
            · exact ⟨after, hw, ((main_check_values _ _ _ _).1).1 h⟩

theorem main_status_of_init_failure (cfg : Config) (os : OS) (ctl : Controller)
    (workers : Ledger → Option Ledger) (hm : valid_method cfg.cs_method)
    (hf : (cs_init os.fails cfg.cs_method ctl).exit_status ≠ none) :
    (main cfg os ctl workers).status = EXIT_FAILURE := by
  have hc : ¬ (cfg.cs_method ≠ CS_METHOD_ATOMIC ∧
      (cfg.cs_method < CS_METHOD_MIN ∨ cfg.cs_method > CS_METHOD_MAX)) :=
    fun hc => (main_condition_iff cfg.cs_method).1 hc hm
  cases hst : (cs_init os.fails cfg.cs_method ctl).exit_status with
  | none => exact absurd hst hf
  | some st =>
    have hst' := cs_init_exit_status _ _ _ _ hst
    unfold main
    simp only [if_neg hc, hst]
    exact hst'

theorem main_status_of_check (cfg : Config) (os : OS) (ctl : Controller)
    (workers : Ledger → Option Ledger) (after : Ledger) (hm : valid_method cfg.cs_method)
    (hinit : (cs_init os.fails cfg.cs_method ctl).exit_status = none)
    (hbar : ¬ (cfg.do_sync_start = true ∧ os.barrier_init_errno ≠ 0))
    (hcreate : (create_threads os.create_errno cfg.thread_count.toNat 0).2 = false)
    (hw : workers (initial_ledger (initial_amount cfg.thread_count cfg.per_thread)) =
      some after)
    (hjoin : (join_threads os.join_errno cfg.thread_count.toNat 0).2 = false) :
    (main cfg os ctl workers).status =
      main_check cfg.cs_method cfg.thread_count.toNat
        (initial_amount cfg.thread_count cfg.per_thread) after := by
  have hc : ¬ (cfg.cs_method ≠ CS_METHOD_ATOMIC ∧
      (cfg.cs_method < CS_METHOD_MIN ∨ cfg.cs_method > CS_METHOD_MAX)) :=
    fun hc => (main_condition_iff cfg.cs_method).1 hc hm
  unfold main
  simp only [if_neg hc, hinit, if_neg hbar, hcreate, hw, hjoin]
  simp

/-- C8 (amended): a configuration error (invalid method in `main`, invalid
thread count in `eval_args`) gives status 2; a failure of `cs_init` to acquire
a resource gives `EXIT_FAILURE`; an invariant violation detected by the final
check of `main` gives `EXIT_FAILURE` as well. The values 2 and `EXIT_FAILURE` are
different and both nonzero, so a configuration error can be told from the other
two, which share one status. Status 0 is produced only by `-h` or when the
final check `balance == initial_amount - total_withdrawn` of `main` passes. -/
theorem exit_status_classes (cfg : Config) (os : OS) (ctl : Controller)
    (workers : Ledger → Option Ledger) (opts : List Opt) :
    (¬ valid_method cfg.cs_method → (main cfg os ctl workers).status = 2) ∧
    (∀ value, ¬ (1 ≤ wrapInt value ∧ wrapInt value ≤ MAX_THREADS) →
      eval_option cfg (Opt.c value) = Except.error 2) ∧
    (valid_method cfg.cs_method →
      (cs_init os.fails cfg.cs_method ctl).exit_status ≠ none →
      (main cfg os ctl workers).status = EXIT_FAILURE) ∧
    (∀ after, valid_method cfg.cs_method →
      (cs_init os.fails cfg.cs_method ctl).exit_status = none →
      ¬ (cfg.do_sync_start = true ∧ os.barrier_init_errno ≠ 0) →
      (create_threads os.create_errno cfg.thread_count.toNat 0).2 = false →
      workers (initial_ledger (initial_amount cfg.thread_count cfg.per_thread)) =
        some after →
      (join_threads os.join_errno cfg.thread_count.toNat 0).2 = false →
      active_balance cfg.cs_method after ≠
        wrapLong (initial_amount cfg.thread_count cfg.per_thread -
          total_withdrawn_loop after.withdrawn cfg.thread_count.toNat) →
      (main cfg os ctl workers).status = EXIT_FAILURE) ∧
    (2 : Int) ≠ EXIT_FAILURE ∧ (2 : Int) ≠ 0 ∧ EXIT_FAILURE ≠ 0 ∧
    (run_program opts os workers = 0 →
      Opt.h ∈ opts ∨
      ∃ cfg' after, eval_args default_config opts = Except.ok cfg' ∧
        workers (initial_ledger (initial_amount cfg'.thread_count cfg'.per_thread)) =
          some after ∧
        active_balance cfg'.cs_method after =
          wrapLong (initial_amount cfg'.thread_count cfg'.per_thread -
            total_withdrawn_loop after.withdrawn cfg'.thread_count.toNat)) := by
  refine ⟨fun hm => ?_, fun value hv => ?_, fun hm hf => ?_,
    fun after hm hinit hbar hcreate hw hjoin hne => ?_, by decide, by decide, by decide,
    fun h0 => ?_⟩
  · rw [main_of_invalid os ctl workers hm]
  · exact (accepted_thread_count_slots cfg value).2.1 hv
  · exact main_status_of_init_failure cfg os ctl workers hm hf
  · rw [main_status_of_check cfg os ctl workers after hm hinit hbar hcreate hw hjoin]
    exact ((main_check_values _ _ _ _).2).2 hne
  · unfold run_program at h0
    cases he : eval_args default_config opts with
    | error st =>
      rw [he] at h0
      simp only [] at h0
      rcases eval_args_error opts default_config st he with h2 | ⟨-, hh⟩
      · omega
      · exact Or.inl hh
    | ok cfg' =>
      rw [he] at h0
      simp only [] at h0
      obtain ⟨after, hw, hbal⟩ := main_status_zero cfg' os initial_controller workers h0
      exact Or.inr ⟨cfg', after, rfl, hw, hbal⟩

set_option maxRecDepth 20000 in
/-- C8 as stated fails: the status produced for an invariant violation and the
status produced when `cs_init` fails are the same. Under the naive flag with 2
workers and 1 iteration, the alternating schedule loses an update and `main`
returns `EXIT_FAILURE`; with the mutex method and a failing
`pthread_mutex_init`, `cs_init` exits with `EXIT_FAILURE` too. -/
theorem exit_status_collision :
    (main { default_config with cs_method := 1, thread_count := 2, per_thread := 1 }
      os_ok initial_controller
      (naive_workers
        { default_config with cs_method := 1, thread_count := 2, per_thread := 1 }
        [0, 1, 0, 1, 0, 1, 0, 1, 0, 1, 0, 1, 0, 1, 0, 1, 0, 1])).status = EXIT_FAILURE ∧
    (cs_init os_mutex_init_fails.fails 4 initial_controller).exit_status =
      some EXIT_FAILURE ∧
    (main { default_config with cs_method := 4 } os_mutex_init_fails initial_controller
      (exclusive_workers { default_config with cs_method := 4 } [])).status =
      EXIT_FAILURE ∧
    (main { default_config with cs_method := 1, thread_count := 2, per_thread := 1 }
      os_ok initial_controller
      (naive_workers
        { default_config with cs_method := 1, thread_count := 2, per_thread := 1 }
        [0, 1, 0, 1, 0, 1, 0, 1, 0, 1, 0, 1, 0, 1, 0, 1, 0, 1])).status =
    (main { default_config with cs_method := 4 } os_mutex_init_fails initial_controller
      (exclusive_workers { default_config with cs_method := 4 } [])).status := by
  refine ⟨by decide, by decide, by decide, by decide⟩

/-! ## Teardown -/

theorem release_call_facts (fails : ReleaseCall → Bool) (c : ReleaseCall) (s : System) :
    (release_call fails c s).calls = [c] ∧
    (release_call fails c s).exit_status = none ∧
    (release_call fails c s).sys.ctl = s.ctl ∧
    (fails c = true → (release_call fails c s).reported = [c] ∧
      (release_call fails c s).sys = s) ∧
    (fails c = false → (release_call fails c s).reported = [] ∧
      (release_call fails c s).sys.kernel = release_effect c s.kernel) := by
  unfold release_call
  by_cases h : fails c = true
  · simp [h]
  · simp [h]

theorem cs_destroy_switch_facts (fails : ReleaseCall → Bool) (s : System) :
    (cs_destroy_switch fails s).calls.length ≤ 1 ∧
    (cs_destroy_switch fails s).exit_status = none ∧
    (cs_destroy_switch fails s).sys.ctl = s.ctl ∧
    (∀ c ∈ (cs_destroy_switch fails s).calls, fails c = true →
      c ∈ (cs_destroy_switch fails s).reported) := by
  have hmem : ∀ c, ∀ x ∈ (release_call fails c s).calls, fails x = true →
      x ∈ (release_call fails c s).reported := by
    intro c x hx hf
    have h := release_call_facts fails c s
    rw [h.1] at hx
    have hxc : x = c := by simpa using hx
    subst hxc
    rw [(h.2.2.2.1 hf).1]
    exact List.mem_singleton_self x
  unfold cs_destroy_switch
  simp only []
  split_ifs
  · have h := release_call_facts fails ReleaseCall.pthread_mutex_destroy s
    exact ⟨by rw [h.1]; simp, h.2.1, h.2.2.1, hmem _⟩
  · have h := release_call_facts fails ReleaseCall.sem_destroy s
    exact ⟨by rw [h.1]; simp, h.2.1, h.2.2.1, hmem _⟩
  · have h := release_call_facts fails ReleaseCall.sem_close s
    exact ⟨by show (release_call fails ReleaseCall.sem_close s).calls.length ≤ 1
              rw [h.1]; simp, h.2.1, h.2.2.1, hmem _⟩
  · have h := release_call_facts fails ReleaseCall.semctl_IPC_RMID s
    exact ⟨by rw [h.1]; simp, h.2.1, h.2.2.1, hmem _⟩
  · have h := release_call_facts fails ReleaseCall.mq_close s
    exact ⟨by rw [h.1]; simp, h.2.1, h.2.2.1, hmem _⟩
  · have h := release_call_facts fails ReleaseCall.msgctl_IPC_RMID s
    exact ⟨by rw [h.1]; simp, h.2.1, h.2.2.1, hmem _⟩
  · exact ⟨by simp, rfl, rfl, fun c hc => by simp at hc⟩

theorem cs_destroy_of_not_allocated (fails : ReleaseCall → Bool) {s : System}
    (h : s.ctl.cs_var_allocated = false) :
    cs_destroy fails s = { sys := s, calls := [], reported := [], exit_status := none } := by
  unfold cs_destroy
  rw [if_pos h]

theorem cs_destroy_facts (fails : ReleaseCall → Bool) (s : System) :
    (cs_destroy fails s).sys.ctl.cs_var_allocated = false ∧
    (cs_destroy fails s).exit_status = none ∧
    (cs_destroy fails s).calls.length ≤ 1 ∧
    (cs_destroy fails s).sys.ctl.cs_method_used = s.ctl.cs_method_used ∧
    (∀ c ∈ (cs_destroy fails s).calls, fails c = true →
      c ∈ (cs_destroy fails s).reported) := by
  by_cases h : s.ctl.cs_var_allocated = false
  · rw [cs_destroy_of_not_allocated fails h]
    exact ⟨h, rfl, by simp, rfl, fun c hc => by simp at hc⟩
  · obtain ⟨h1, h2, h3, h4⟩ := cs_destroy_switch_facts fails s
    unfold cs_destroy
    rw [if_neg h]
    exact ⟨rfl, h2, h1, by show (cs_destroy_switch fails s).sys.ctl.cs_method_used = _
                           rw [h3], h4⟩

theorem cs_init_failure_keeps_flag (fails : Call → Bool) (m : Int) (c : Controller)
    (h : (cs_init fails m c).exit_status ≠ none) :
    (cs_init fails m c).ctl.cs_var_allocated = c.cs_var_allocated := by
  revert h
  unfold cs_init
  dsimp only
  split_ifs
  · intro h; exact absurd rfl h
  · intro h; exact absurd rfl h
  · intro h; exact absurd rfl h
  · unfold cs_init_mutex
    split_ifs
    · intro _; rfl
    · intro h; exact absurd rfl h
  · unfold cs_init_sem_posix
    split_ifs
    · intro _; rfl
    · intro h; exact absurd rfl h
  · unfold cs_init_sem_posix_named
    split_ifs
    · intro _; rfl
    · intro _; rfl
    · intro h; exact absurd rfl h
  · unfold cs_init_sem_sysv
    split_ifs
    · intro _; rfl
    · intro _; rfl
    · intro h; exact absurd rfl h
  · unfold cs_init_mq_posix
    split_ifs
    · intro _; rfl
    · intro _; rfl
    · intro _; rfl
    · intro h; exact absurd rfl h
  · unfold cs_init_mq_sysv
    split_ifs
    · intro _; rfl
    · intro _; rfl
    · intro h; exact absurd rfl h
  · intro _; rfl

theorem cs_destroy_allocated_call (fails : ReleaseCall → Bool) (s : System)
    (ha : s.ctl.cs_var_allocated = true)
    (hm : 4 ≤ s.ctl.cs_method_used ∧ s.ctl.cs_method_used ≤ 9) :
    ∃ c, (cs_destroy fails s).calls = [c] ∧
      (fails c = true → (cs_destroy fails s).reported = [c] ∧
        (cs_destroy fails s).sys.kernel = s.kernel) ∧
      (fails c = false → (cs_destroy fails s).reported = [] ∧
        (cs_destroy fails s).sys.kernel = release_effect c s.kernel) := by
  obtain ⟨⟨m, a, locked, x⟩, h, k⟩ := s
  simp only at ha hm
  subst ha
  have hcases : m = 4 ∨ m = 5 ∨ m = 6 ∨ m = 7 ∨ m = 8 ∨ m = 9 := by omega
  rcases hcases with h1 | h1 | h1 | h1 | h1 | h1 <;> subst h1
  · refine ⟨ReleaseCall.pthread_mutex_destroy, ?_⟩
    cases hf : fails ReleaseCall.pthread_mutex_destroy <;>
      simp [cs_destroy, cs_destroy_switch, release_call, hf, CS_METHOD_MUTEX]
  · refine ⟨ReleaseCall.sem_destroy, ?_⟩
    cases hf : fails ReleaseCall.sem_destroy <;>
      simp [cs_destroy, cs_destroy_switch, release_call, hf, CS_METHOD_MUTEX,
        CS_METHOD_SEM_POSIX]
  · refine ⟨ReleaseCall.sem_close, ?_⟩
    cases hf : fails ReleaseCall.sem_close <;>
      simp [cs_destroy, cs_destroy_switch, release_call, hf, CS_METHOD_MUTEX,
        CS_METHOD_SEM_POSIX, CS_METHOD_SEM_POSIX_NAMED]
  · refine ⟨ReleaseCall.semctl_IPC_RMID, ?_⟩
    cases hf : fails ReleaseCall.semctl_IPC_RMID <;>
      simp [cs_destroy, cs_destroy_switch, release_call, hf, CS_METHOD_MUTEX,
        CS_METHOD_SEM_POSIX, CS_METHOD_SEM_POSIX_NAMED, CS_METHOD_SEM_SYSV]
  · refine ⟨ReleaseCall.mq_close, ?_⟩
    cases hf : fails ReleaseCall.mq_close <;>
      simp [cs_destroy, cs_destroy_switch, release_call, hf, CS_METHOD_MUTEX,
        CS_METHOD_SEM_POSIX, CS_METHOD_SEM_POSIX_NAMED, CS_METHOD_SEM_SYSV, CS_METHOD_MQ_POSIX]
  · refine ⟨ReleaseCall.msgctl_IPC_RMID, ?_⟩
    cases hf : fails ReleaseCall.msgctl_IPC_RMID <;>
      simp [cs_destroy, cs_destroy_switch, release_call, hf, CS_METHOD_MUTEX,
        CS_METHOD_SEM_POSIX, CS_METHOD_SEM_POSIX_NAMED, CS_METHOD_SEM_SYSV, CS_METHOD_MQ_POSIX,
        CS_METHOD_MQ_SYSV]

/-- C11: in `src/8`, for every method and every state of the controller
(`cs_method_used`, `cs_var_allocated`, kernel objects): `cs_destroy` called when
no `cs_init` has completed successfully (`cs_var_allocated` is false, as at
program start and after a `cs_init` that exited) changes nothing and issues no
release call; and a second `cs_destroy` issues no call and leaves the state of
the first, so that over both calls each release call is issued at most once. -/
theorem cs_destroy_idempotent (fails fails' : ReleaseCall → Bool) (s : System) :
    initial_system.ctl.cs_var_allocated = false ∧
    (∀ ifails m, ∀ s0 : System, s0.ctl.cs_var_allocated = false →
      (cs_init_system ifails m s0).exit_status ≠ none →
      (cs_init_system ifails m s0).sys.ctl.cs_var_allocated = false) ∧
    (s.ctl.cs_var_allocated = false →
      cs_destroy fails s =
        { sys := s, calls := [], reported := [], exit_status := none }) ∧
    (cs_destroy fails' (cs_destroy fails s).sys).calls = [] ∧
    (cs_destroy fails' (cs_destroy fails s).sys).sys = (cs_destroy fails s).sys ∧
    (∀ c, ((cs_destroy fails s).calls ++
      (cs_destroy fails' (cs_destroy fails s).sys).calls).count c ≤ 1) := by
  have hflag := (cs_destroy_facts fails s).1
  have hsecond := cs_destroy_of_not_allocated fails' hflag
  refine ⟨rfl, fun ifails m s0 h0 h => ?_, fun h => cs_destroy_of_not_allocated fails h, ?_, ?_,
    fun c => ?_⟩
  · exact (cs_init_failure_keeps_flag _ m s0.ctl h).trans h0
  · rw [hsecond]
  · rw [hsecond]
  · rw [hsecond]
    simp only [List.append_nil]
    have hlen := (cs_destroy_facts fails s).2.2.1
    exact le_trans (List.count_le_length _ _) hlen

/-- C14: in `src/8`, for every method and every state, `cs_destroy` never
terminates the process and sets no exit status; a release call that fails is
reported (`perror`) and `cs_destroy` returns normally with `cs_var_allocated`
false, so that a further `cs_destroy` attempts no second release. After a
successful `cs_init` of a method 4..9 exactly one release call is issued, and
when it fails it is reported and the kernel objects stay as they were. -/
theorem cs_destroy_failure_not_fatal (fails fails' : ReleaseCall → Bool) (s : System) :
    (cs_destroy fails s).exit_status = none ∧
    (∀ c ∈ (cs_destroy fails s).calls, fails c = true →
      c ∈ (cs_destroy fails s).reported) ∧
    (s.ctl.cs_var_allocated = true → 4 ≤ s.ctl.cs_method_used → s.ctl.cs_method_used ≤ 9 →
      ∃ c, (cs_destroy fails s).calls = [c] ∧
        (fails c = true → (cs_destroy fails s).reported = [c] ∧
          (cs_destroy fails s).sys.kernel = s.kernel)) ∧
    (cs_destroy fails s).sys.ctl.cs_var_allocated = false ∧
    (cs_destroy fails' (cs_destroy fails s).sys).calls = [] := by
  obtain ⟨hflag, hexit, -, -, hrep⟩ := cs_destroy_facts fails s
  refine ⟨hexit, hrep, fun ha h4 h9 => ?_, hflag, ?_⟩
  · obtain ⟨c, hc, hfail, -⟩ := cs_destroy_allocated_call fails s ha ⟨h4, h9⟩
    exact ⟨c, hc, hfail⟩
  · rw [cs_destroy_of_not_allocated fails' hflag]

theorem cs_init_undefined (fails : Call → Bool) {m : Int} (c : Controller)
    (hm : m < 0 ∨ 9 < m) :
    cs_init fails m c =
      { ctl := { c with cs_method_used := m }, calls := [], exit_status := some EXIT_FAILURE } := by
  unfold cs_init
  simp only [CS_METHOD_ATOMIC, CS_METHOD_LOCKED, CS_METHOD_TEST_XCHG, CS_METHOD_XCHG,
    CS_METHOD_MUTEX, CS_METHOD_SEM_POSIX, CS_METHOD_SEM_POSIX_NAMED, CS_METHOD_SEM_SYSV,
    CS_METHOD_MQ_POSIX, CS_METHOD_MQ_SYSV]
  repeat rw [if_neg (by omega)]

/-- C16: for every integer `m` outside 0..9 and every state in which no
`cs_init` has succeeded, `cs_init(m)` calls `exit(EXIT_FAILURE)`: it issues no
system call, leaves the kernel objects as they were and `cs_var_allocated`
false, so that `release_resources`, run by `exit`, issues no release call and
changes nothing. -/
theorem cs_init_rejects_undefined (fails : Call → Bool) (rfails : ReleaseCall → Bool)
    (barrier_errno : Int) (barrier : Bool) (m : Int) (s : System)
    (hm : m < 0 ∨ 9 < m) (hflag : s.ctl.cs_var_allocated = false) :
    (cs_init_system fails m s).exit_status = some EXIT_FAILURE ∧
    EXIT_FAILURE ≠ EXIT_SUCCESS ∧
    (cs_init_system fails m s).calls = [] ∧
    (cs_init_system fails m s).sys.kernel = s.kernel ∧
    (cs_init_system fails m s).sys.ctl.cs_var_allocated = false ∧
    (release_resources barrier_errno rfails barrier (cs_init_system fails m s).sys).2.calls = [] ∧
    (release_resources barrier_errno rfails barrier (cs_init_system fails m s).sys).2.sys =
      (cs_init_system fails m s).sys := by
  have hinit := cs_init_undefined (call_fails fails s.kernel) s.ctl hm
  have hflag' : (cs_init_system fails m s).sys.ctl.cs_var_allocated = false := by
    show (cs_init (call_fails fails s.kernel) m s.ctl).ctl.cs_var_allocated = false
    rw [hinit]
    exact hflag
  refine ⟨?_, by decide, ?_, ?_, hflag', ?_, ?_⟩
  · show (cs_init (call_fails fails s.kernel) m s.ctl).exit_status = some EXIT_FAILURE
    rw [hinit]
  · show (cs_init (call_fails fails s.kernel) m s.ctl).calls = []
    rw [hinit]
  · show kernel_after (call_fails fails s.kernel)
      (cs_init (call_fails fails s.kernel) m s.ctl).calls s.kernel = s.kernel
    rw [hinit]
    rfl
  · show (cs_destroy rfails (cs_init_system fails m s).sys).calls = []
    rw [cs_destroy_of_not_allocated rfails hflag']
  · show (cs_destroy rfails (cs_init_system fails m s).sys).sys = _
    rw [cs_destroy_of_not_allocated rfails hflag']

/-- Witness for C16: `cs_init(10)` at program start. -/
theorem cs_init_rejects_undefined_witness :
    (cs_init_system (fun _ => false) 10 initial_system).exit_status = some EXIT_FAILURE ∧
    (cs_init_system (fun _ => false) 10 initial_system).calls = [] ∧
    (release_resources 0 (fun _ => false) false
      (cs_init_system (fun _ => false) 10 initial_system).sys).2.calls = [] := by
  have h := cs_init_rejects_undefined (fun _ => false) (fun _ => false) 0 false 10
    initial_system (by decide) rfl
  exact ⟨h.1, h.2.2.1, h.2.2.2.2.2.1⟩

/-- C12 fails in `src/8`: when the first step of `cs_init` succeeds and a later
step fails, `cs_init` calls `exit` with `cs_var_allocated` still false, so
`release_resources` and `cs_destroy` issue no release call, and once the process
has terminated the System V message queue (`msgsnd` failed), the System V
semaphore set (`semctl SETVAL` failed), the name of the semaphore (`sem_unlink`
failed) and the name of the POSIX queue (`mq_unlink` failed) still exist. -/
theorem partial_init_failure_leaks :
    ((cs_init_system (fun c => decide (c = Call.msgsnd)) CS_METHOD_MQ_SYSV
        initial_system).exit_status = some EXIT_FAILURE ∧
      (cs_init_system (fun c => decide (c = Call.msgsnd)) CS_METHOD_MQ_SYSV
        initial_system).calls = [Call.msgget, Call.msgsnd] ∧
      (release_resources 0 (fun _ => false) false
        (cs_init_system (fun c => decide (c = Call.msgsnd)) CS_METHOD_MQ_SYSV
          initial_system).sys).2.calls = [] ∧
      (process_terminated (release_resources 0 (fun _ => false) false
        (cs_init_system (fun c => decide (c = Call.msgsnd)) CS_METHOD_MQ_SYSV
          initial_system).sys).2.sys.kernel).mq_sysv = some 0) ∧
    ((cs_init_system (fun c => decide (c = Call.semctl_SETVAL)) CS_METHOD_SEM_SYSV
        initial_system).exit_status = some EXIT_FAILURE ∧
      (release_resources 0 (fun _ => false) false
        (cs_init_system (fun c => decide (c = Call.semctl_SETVAL)) CS_METHOD_SEM_SYSV
          initial_system).sys).2.calls = [] ∧
      (process_terminated (release_resources 0 (fun _ => false) false
        (cs_init_system (fun c => decide (c = Call.semctl_SETVAL)) CS_METHOD_SEM_SYSV
          initial_system).sys).2.sys.kernel).sem_sysv = some 0) ∧
    ((cs_init_system (fun c => decide (c = Call.sem_unlink)) CS_METHOD_SEM_POSIX_NAMED
        initial_system).exit_status = some EXIT_FAILURE ∧
      (release_resources 0 (fun _ => false) false
        (cs_init_system (fun c => decide (c = Call.sem_unlink)) CS_METHOD_SEM_POSIX_NAMED
          initial_system).sys).2.calls = [] ∧
      (process_terminated (release_resources 0 (fun _ => false) false
        (cs_init_system (fun c => decide (c = Call.sem_unlink)) CS_METHOD_SEM_POSIX_NAMED
          initial_system).sys).2.sys.kernel).sem_name = true) ∧
    ((cs_init_system (fun c => decide (c = Call.mq_unlink)) CS_METHOD_MQ_POSIX
        initial_system).exit_status = some EXIT_FAILURE ∧
      (release_resources 0 (fun _ => false) false
        (cs_init_system (fun c => decide (c = Call.mq_unlink)) CS_METHOD_MQ_POSIX
          initial_system).sys).2.calls = [] ∧
      (process_terminated (release_resources 0 (fun _ => false) false
        (cs_init_system (fun c => decide (c = Call.mq_unlink)) CS_METHOD_MQ_POSIX
          initial_system).sys).2.sys.kernel).mq_posix_name = true) := by
  refine ⟨⟨by decide, by decide, by decide, by decide⟩, ⟨by decide, by decide, by decide⟩,
    ⟨by decide, by decide, by decide⟩, ⟨by decide, by decide, by decide⟩⟩

/-! ## The Atomic method and the controller -/

/-- C18: from every state in which no `cs_init` has succeeded, `cs_init(0)`
returns having issued no system call, with the kernel objects, `locked` and
`xchg_locked` as they were and `cs_var_allocated` false; then, for every worker
id and whatever the environment, `cs_enter` and `cs_leave` return at once with
the whole system unchanged and no call issued, and `cs_destroy` issues no
release call and changes nothing. -/
theorem atomic_bypasses_controller (fails : Call → Bool) (lfails : LockCall → Bool)
    (rfails : ReleaseCall → Bool) (id : Int) (s : System)
    (hflag : s.ctl.cs_var_allocated = false) :
    (cs_init_system fails CS_METHOD_ATOMIC s).exit_status = none ∧
    (cs_init_system fails CS_METHOD_ATOMIC s).calls = [] ∧
    (cs_init_system fails CS_METHOD_ATOMIC s).sys =
      { s with ctl := { s.ctl with cs_method_used := CS_METHOD_ATOMIC } } ∧
    (cs_init_system fails CS_METHOD_ATOMIC s).sys.ctl.cs_var_allocated = false ∧
    cs_enter lfails id (cs_init_system fails CS_METHOD_ATOMIC s).sys =
      some { sys := (cs_init_system fails CS_METHOD_ATOMIC s).sys, calls := [],
             exit_status := none } ∧
    cs_leave lfails id (cs_init_system fails CS_METHOD_ATOMIC s).sys =
      some { sys := (cs_init_system fails CS_METHOD_ATOMIC s).sys, calls := [],
             exit_status := none } ∧
    cs_destroy rfails (cs_init_system fails CS_METHOD_ATOMIC s).sys =
      { sys := (cs_init_system fails CS_METHOD_ATOMIC s).sys, calls := [], reported := [],
        exit_status := none } := by
  have hsys : (cs_init_system fails CS_METHOD_ATOMIC s).sys =
      { s with ctl := { s.ctl with cs_method_used := CS_METHOD_ATOMIC } } := rfl
  have hflag' : (cs_init_system fails CS_METHOD_ATOMIC s).sys.ctl.cs_var_allocated = false :=
    hflag
  refine ⟨rfl, rfl, hsys, hflag', ?_, ?_, cs_destroy_of_not_allocated rfails hflag'⟩
  · rw [hsys]
    unfold cs_enter
    exact if_pos rfl
  · rw [hsys]
    unfold cs_leave
    exact if_pos rfl

/-- Witness for C18: the Atomic method at program start, worker 3. -/
theorem atomic_bypasses_controller_witness :
    (cs_init_system (fun _ => false) CS_METHOD_ATOMIC initial_system).calls = [] ∧
    cs_enter (fun _ => true) 3 (cs_init_system (fun _ => false) CS_METHOD_ATOMIC initial_system).sys =
      some { sys := (cs_init_system (fun _ => false) CS_METHOD_ATOMIC initial_system).sys,
             calls := [], exit_status := none } := by
  have h := atomic_bypasses_controller (fun _ => false) (fun _ => true) (fun _ => false) 3
    initial_system rfl
  exact ⟨h.2.1, h.2.2.2.2.1⟩

/-! ## `cs_enter` and `cs_leave` on the token -/

theorem enter_leave_round (id : Int) (s : System)
    (hm : 1 ≤ s.ctl.cs_method_used ∧ s.ctl.cs_method_used ≤ 9) (ht : token s = some 1) :
    ∃ e, cs_enter no_lock_failure id s = some e ∧ e.exit_status = none ∧
      token e.sys = some 0 ∧
      ∃ l, cs_leave no_lock_failure id e.sys = some l ∧ l.exit_status = none ∧ l.sys = s := by
  obtain ⟨⟨m, a, locked, x⟩, h, ⟨mutex, sem_posix, sem_named, sem_name, sem_sysv, mq_posix,
    mq_posix_name, mq_sysv⟩⟩ := s
  simp only at hm
  have hcases : m = 1 ∨ m = 2 ∨ m = 3 ∨ m = 4 ∨ m = 5 ∨ m = 6 ∨ m = 7 ∨ m = 8 ∨ m = 9 := by
    omega
  rcases hcases with h1 | h1 | h1 | h1 | h1 | h1 | h1 | h1 | h1 <;> subst h1
  · have hl : locked = false := by
      cases locked
      · rfl
      · exact absurd (show (some 0 : Option Nat) = some 1 from ht) (by decide)
    subst hl
    exact ⟨_, rfl, rfl, rfl, _, rfl, rfl, rfl⟩
  · have hl : x = false := by
      cases x
      · rfl
      · exact absurd (show (some 0 : Option Nat) = some 1 from ht) (by decide)
    subst hl
    exact ⟨_, rfl, rfl, rfl, _, rfl, rfl, rfl⟩
  · have hl : locked = false := by
      cases locked
      · rfl
      · exact absurd (show (some 0 : Option Nat) = some 1 from ht) (by decide)
    subst hl
    exact ⟨_, rfl, rfl, rfl, _, rfl, rfl, rfl⟩
  · have hl : mutex = some false := by
      rcases mutex with _ | b
      · exact absurd (show (none : Option Nat) = some 1 from ht) (by decide)
      · cases b
        · rfl
        · exact absurd (show (some 0 : Option Nat) = some 1 from ht) (by decide)
    subst hl
    exact ⟨_, rfl, rfl, rfl, _, rfl, rfl, rfl⟩
  · have hl : sem_posix = some 1 := ht
    subst hl
    exact ⟨_, rfl, rfl, rfl, _, rfl, rfl, rfl⟩
  · have hl : sem_named = some 1 := ht
    subst hl
    exact ⟨_, rfl, rfl, rfl, _, rfl, rfl, rfl⟩
  · have hl : sem_sysv = some 1 := ht
    subst hl
    exact ⟨_, rfl, rfl, rfl, _, rfl, rfl, rfl⟩
  · have hl : mq_posix = some 1 := ht
    subst hl
    exact ⟨_, rfl, rfl, rfl, _, rfl, rfl, rfl⟩
  · have hl : mq_sysv = some 1 := ht
    subst hl
    exact ⟨_, rfl, rfl, rfl, _, rfl, rfl, rfl⟩

theorem enter_leave_rounds_fixed (id : Int) (s : System)
    (hm : 1 ≤ s.ctl.cs_method_used ∧ s.ctl.cs_method_used ≤ 9) (ht : token s = some 1) :
    ∀ k, enter_leave_rounds id k s = some s
  | 0 => rfl
  | k + 1 => by
    obtain ⟨e, he, -, -, l, hl, -, hs⟩ := enter_leave_round id s hm ht
    simp only [enter_leave_rounds, he, hl, hs]
    exact enter_leave_rounds_fixed id s hm ht k

theorem cs_init_mutex_success {f : Call → Bool} {c : Controller}
    (h : (cs_init_mutex f c).exit_status = none) :
    f Call.pthread_mutex_init = false ∧
    cs_init_mutex f c = { ctl := { c with cs_var_allocated := true },
                          calls := [Call.pthread_mutex_init], exit_status := none } := by
  unfold cs_init_mutex at h ⊢
  cases h1 : f Call.pthread_mutex_init
  · simp
  · simp [h1] at h

theorem cs_init_sem_posix_success {f : Call → Bool} {c : Controller}
    (h : (cs_init_sem_posix f c).exit_status = none) :
    f Call.sem_init = false ∧
    cs_init_sem_posix f c = { ctl := { c with cs_var_allocated := true },
                              calls := [Call.sem_init], exit_status := none } := by
  unfold cs_init_sem_posix at h ⊢
  cases h1 : f Call.sem_init
  · simp
  · simp [h1] at h

theorem cs_init_sem_posix_named_success {f : Call → Bool} {c : Controller}
    (h : (cs_init_sem_posix_named f c).exit_status = none) :
    f Call.sem_open = false ∧ f Call.sem_unlink = false ∧
    cs_init_sem_posix_named f c = { ctl := { c with cs_var_allocated := true },
                                    calls := [Call.sem_open, Call.sem_unlink],
                                    exit_status := none } := by
  unfold cs_init_sem_posix_named at h ⊢
  cases h1 : f Call.sem_open <;> cases h2 : f Call.sem_unlink
  · simp
  · simp [h1, h2] at h
  · simp [h1] at h
  · simp [h1] at h

theorem cs_init_sem_sysv_success {f : Call → Bool} {c : Controller}
    (h : (cs_init_sem_sysv f c).exit_status = none) :
    f Call.semget = false ∧ f Call.semctl_SETVAL = false ∧
    cs_init_sem_sysv f c = { ctl := { c with cs_var_allocated := true },
                             calls := [Call.semget, Call.semctl_SETVAL],
                             exit_status := none } := by
  unfold cs_init_sem_sysv at h ⊢
  cases h1 : f Call.semget <;> cases h2 : f Call.semctl_SETVAL
  · simp
  · simp [h1, h2] at h
  · simp [h1] at h
  · simp [h1] at h

theorem cs_init_mq_posix_success {f : Call → Bool} {c : Controller}
    (h : (cs_init_mq_posix f c).exit_status = none) :
    f Call.mq_open = false ∧ f Call.mq_unlink = false ∧ f Call.mq_send = false ∧
    cs_init_mq_posix f c = { ctl := { c with cs_var_allocated := true },
                             calls := [Call.mq_open, Call.mq_unlink, Call.mq_send],
                             exit_status := none } := by
  unfold cs_init_mq_posix at h ⊢
  cases h1 : f Call.mq_open <;> cases h2 : f Call.mq_unlink <;> cases h3 : f Call.mq_send
  · simp
  all_goals simp [h1, h2, h3] at h

theorem cs_init_mq_sysv_success {f : Call → Bool} {c : Controller}
    (h : (cs_init_mq_sysv f c).exit_status = none) :
    f Call.msgget = false ∧ f Call.msgsnd = false ∧
    cs_init_mq_sysv f c = { ctl := { c with cs_var_allocated := true },
                            calls := [Call.msgget, Call.msgsnd], exit_status := none } := by
  unfold cs_init_mq_sysv at h ⊢
  cases h1 : f Call.msgget <;> cases h2 : f Call.msgsnd
  · simp
  · simp [h1, h2] at h
  · simp [h1] at h
  · simp [h1] at h

theorem cs_init_system_token (fails : Call → Bool) (m : Int) (s0 : System)
    (hm : 1 ≤ m ∧ m ≤ 9) (hok : (cs_init_system fails m s0).exit_status = none) :
    token (cs_init_system fails m s0).sys = some 1 ∧
    (cs_init_system fails m s0).sys.ctl.cs_method_used = m := by
  have hcases : m = 1 ∨ m = 2 ∨ m = 3 ∨ m = 4 ∨ m = 5 ∨ m = 6 ∨ m = 7 ∨ m = 8 ∨ m = 9 := by
    omega
  rcases hcases with h1 | h1 | h1 | h1 | h1 | h1 | h1 | h1 | h1 <;> subst h1
  · exact ⟨rfl, rfl⟩
  · exact ⟨rfl, rfl⟩
  · exact ⟨rfl, rfl⟩
  · have hc : cs_init (call_fails fails s0.kernel) 4 s0.ctl =
        cs_init_mutex (call_fails fails s0.kernel) { s0.ctl with cs_method_used := 4 } := rfl
    unfold cs_init_system at hok ⊢
    simp only [hc] at hok ⊢
    obtain ⟨h1, h2⟩ := cs_init_mutex_success hok
    simp only [h2, kernel_after, h1]
    exact ⟨rfl, trivial⟩
  · have hc : cs_init (call_fails fails s0.kernel) 5 s0.ctl =
        cs_init_sem_posix (call_fails fails s0.kernel) { s0.ctl with cs_method_used := 5 } := rfl
    unfold cs_init_system at hok ⊢
    simp only [hc] at hok ⊢
    obtain ⟨h1, h2⟩ := cs_init_sem_posix_success hok
    simp only [h2, kernel_after, h1]
    exact ⟨rfl, trivial⟩
  · have hc : cs_init (call_fails fails s0.kernel) 6 s0.ctl =
        cs_init_sem_posix_named (call_fails fails s0.kernel)
          { s0.ctl with cs_method_used := 6 } := rfl
    unfold cs_init_system at hok ⊢
    simp only [hc] at hok ⊢
    obtain ⟨h1, h2, h3⟩ := cs_init_sem_posix_named_success hok
    simp only [h3, kernel_after, h1, h2]
    exact ⟨rfl, trivial⟩
  · have hc : cs_init (call_fails fails s0.kernel) 7 s0.ctl =
        cs_init_sem_sysv (call_fails fails s0.kernel) { s0.ctl with cs_method_used := 7 } := rfl
    unfold cs_init_system at hok ⊢
    simp only [hc] at hok ⊢
    obtain ⟨h1, h2, h3⟩ := cs_init_sem_sysv_success hok
    simp only [h3, kernel_after, h1, h2]
    exact ⟨rfl, trivial⟩
  · have hc : cs_init (call_fails fails s0.kernel) 8 s0.ctl =
        cs_init_mq_posix (call_fails fails s0.kernel) { s0.ctl with cs_method_used := 8 } := rfl
    unfold cs_init_system at hok ⊢
    simp only [hc] at hok ⊢
    obtain ⟨h1, h2, h3, h4⟩ := cs_init_mq_posix_success hok
    simp only [h4, kernel_after, h1, h2, h3]
    exact ⟨rfl, trivial⟩
  · have hc : cs_init (call_fails fails s0.kernel) 9 s0.ctl =
        cs_init_mq_sysv (call_fails fails s0.kernel) { s0.ctl with cs_method_used := 9 } := rfl
    unfold cs_init_system at hok ⊢
    simp only [hc] at hok ⊢
    obtain ⟨h1, h2, h3⟩ := cs_init_mq_sysv_success hok
    simp only [h3, kernel_after, h1, h2]
    exact ⟨rfl, trivial⟩

/-- C20: for each of the methods 1..9 and every state from which `cs_init`
succeeds, the token is available right after `cs_init` (flag clear, mutex
unlocked, semaphore value 1, one message queued); when no call fails, `cs_enter`
returns with the token taken (0), `cs_leave` then returns with the token
available again and the system exactly as it was after `cs_init`; hence after
`k` rounds of `cs_enter; cs_leave`, for every `k`, the system equals the one
right after `cs_init`, and the token is 0 or 1 at every point. -/
theorem enter_leave_symmetric (fails : Call → Bool) (m : Int) (s0 : System) (id : Int)
    (k : Nat) (hm : 1 ≤ m ∧ m ≤ 9) (hok : (cs_init_system fails m s0).exit_status = none) :
    token (cs_init_system fails m s0).sys = some 1 ∧
    (∃ e, cs_enter no_lock_failure id (cs_init_system fails m s0).sys = some e ∧
      token e.sys = some 0 ∧
      ∃ l, cs_leave no_lock_failure id e.sys = some l ∧
        l.sys = (cs_init_system fails m s0).sys ∧ token l.sys = some 1) ∧
    enter_leave_rounds id k (cs_init_system fails m s0).sys =
      some (cs_init_system fails m s0).sys := by
  obtain ⟨ht, hused⟩ := cs_init_system_token fails m s0 hm hok
  have hm' : 1 ≤ (cs_init_system fails m s0).sys.ctl.cs_method_used ∧
      (cs_init_system fails m s0).sys.ctl.cs_method_used ≤ 9 := by
    rw [hused]
    exact hm
  obtain ⟨e, he, -, hte, l, hl, -, hs⟩ := enter_leave_round id _ hm' ht
  exact ⟨ht, ⟨e, he, hte, l, hl, hs, by rw [hs]; exact ht⟩,
    enter_leave_rounds_fixed id _ hm' ht k⟩

/-- Witness for C20: the mutex at program start, worker 0, three rounds. -/
theorem enter_leave_symmetric_witness :
    token (cs_init_system (fun _ => false) 4 initial_system).sys = some 1 ∧
    enter_leave_rounds 0 3 (cs_init_system (fun _ => false) 4 initial_system).sys =
      some (cs_init_system (fun _ => false) 4 initial_system).sys := by
  have h := enter_leave_symmetric (fun _ => false) 4 initial_system 0 3 (by decide) rfl
  exact ⟨h.1, h.2.2⟩

/-! ## Failing calls in `cs_enter` and `cs_leave` -/

theorem unchecked_call_failed {fails : LockCall → Bool} {c : LockCall} (s : System)
    (hf : fails c = true) :
    unchecked_call fails c s = some { sys := s, calls := [c], exit_status := none } := by
  unfold unchecked_call lock_call
  simp [hf]

theorem lock_call_sem_name {fails : LockCall → Bool} {c : LockCall} {k k' : Kernel}
    (h : lock_call fails c k = CallOutcome.done k') : k'.sem_name = k.sem_name := by
  obtain ⟨mutex, sem_posix, sem_named, sem_name, sem_sysv, mq_posix, mq_posix_name, mq_sysv⟩ := k
  unfold lock_call at h
  split_ifs at h
  cases c
  · rcases mutex with _ | b
    · cases h
    · cases b
      · cases h; rfl
      · cases h
  · rcases mutex with _ | b
    · cases h
    · cases h; rfl
  · rcases sem_posix with _ | n
    · cases h
    · rcases n with _ | n
      · cases h
      · cases h; rfl
  · rcases sem_posix with _ | n
    · cases h
    · cases h; rfl
  · rcases sem_named with _ | n
    · cases h
    · rcases n with _ | n
      · cases h
      · cases h; rfl
  · rcases sem_named with _ | n
    · cases h
    · cases h; rfl
  · rcases sem_sysv with _ | n
    · cases h
    · rcases n with _ | n
      · cases h
      · cases h; rfl
  · rcases sem_sysv with _ | n
    · cases h
    · cases h; rfl
  · rcases mq_posix with _ | n
    · cases h
    · rcases n with _ | n
      · cases h
      · cases h; rfl
  · rcases mq_posix with _ | n
    · cases h
    · rcases n with _ | n
      · cases h; rfl
      · cases h
  · rcases mq_sysv with _ | n
    · cases h
    · rcases n with _ | n
      · cases h
      · cases h; rfl
  · rcases mq_sysv with _ | n
    · cases h
    · cases h; rfl

theorem unchecked_call_facts {fails : LockCall → Bool} {c : LockCall} {s : System}
    {r : HotResult} (h : unchecked_call fails c s = some r) :
    r.exit_status = none ∧ r.calls = [c] ∧ r.sys.ctl = s.ctl ∧
    r.sys.kernel.sem_name = s.kernel.sem_name := by
  unfold unchecked_call at h
  cases hl : lock_call fails c s.kernel with
  | done k =>
    rw [hl] at h
    cases h
    exact ⟨rfl, rfl, rfl, lock_call_sem_name hl⟩
  | failed =>
    rw [hl] at h
    cases h
    exact ⟨rfl, rfl, rfl, rfl⟩
  | blocked =>
    rw [hl] at h
    cases h

theorem spin_on_facts {flag : Bool} {taken : System} {r : HotResult}
    (h : spin_on flag taken = some r) : r.exit_status = none ∧ r.sys = taken := by
  unfold spin_on at h
  split_ifs at h
  cases h
  exact ⟨rfl, rfl⟩

theorem cs_enter_facts {fails : LockCall → Bool} {id : Int} {s : System} {r : HotResult}
    (h : cs_enter fails id s = some r) :
    r.exit_status = none ∧ r.sys.kernel.sem_name = s.kernel.sem_name := by
  unfold cs_enter at h
  dsimp only at h
  by_cases c0 : s.ctl.cs_method_used = CS_METHOD_ATOMIC
  · rw [if_pos c0] at h
    rw [← Option.some.inj h]; exact ⟨rfl, rfl⟩
  rw [if_neg c0] at h
  by_cases c1 : s.ctl.cs_method_used = CS_METHOD_LOCKED
  · rw [if_pos c1] at h
    obtain ⟨h1, h2⟩ := spin_on_facts h
    exact ⟨h1, by rw [h2]⟩
  rw [if_neg c1] at h
  by_cases c2 : s.ctl.cs_method_used = CS_METHOD_TEST_XCHG
  · rw [if_pos c2] at h
    obtain ⟨h1, h2⟩ := spin_on_facts h
    exact ⟨h1, by rw [h2]⟩
  rw [if_neg c2] at h
  by_cases c3 : s.ctl.cs_method_used = CS_METHOD_XCHG
  · rw [if_pos c3] at h
    obtain ⟨h1, h2⟩ := spin_on_facts h
    exact ⟨h1, by rw [h2]⟩
  rw [if_neg c3] at h
  by_cases c4 : s.ctl.cs_method_used = CS_METHOD_MUTEX
  · rw [if_pos c4] at h
    exact ⟨(unchecked_call_facts h).1, (unchecked_call_facts h).2.2.2⟩
  rw [if_neg c4] at h
  by_cases c5 : s.ctl.cs_method_used = CS_METHOD_SEM_POSIX
  · rw [if_pos c5] at h
    exact ⟨(unchecked_call_facts h).1, (unchecked_call_facts h).2.2.2⟩
  rw [if_neg c5] at h
  by_cases c6 : s.ctl.cs_method_used = CS_METHOD_SEM_POSIX_NAMED
  · rw [if_pos c6] at h
    exact ⟨(unchecked_call_facts h).1, (unchecked_call_facts h).2.2.2⟩
  rw [if_neg c6] at h
  by_cases c7 : s.ctl.cs_method_used = CS_METHOD_SEM_SYSV
  · rw [if_pos c7] at h
    exact ⟨(unchecked_call_facts h).1, (unchecked_call_facts h).2.2.2⟩
  rw [if_neg c7] at h
  by_cases c8 : s.ctl.cs_method_used = CS_METHOD_MQ_POSIX
  · rw [if_pos c8] at h
    exact ⟨(unchecked_call_facts h).1, (unchecked_call_facts h).2.2.2⟩
  rw [if_neg c8] at h
  by_cases c9 : s.ctl.cs_method_used = CS_METHOD_MQ_SYSV
  · rw [if_pos c9] at h
    exact ⟨(unchecked_call_facts h).1, (unchecked_call_facts h).2.2.2⟩
  rw [if_neg c9] at h
  rw [← Option.some.inj h]; exact ⟨rfl, rfl⟩

theorem cs_leave_facts {fails : LockCall → Bool} {id : Int} {s : System} {r : HotResult}
    (h : cs_leave fails id s = some r) :
    r.exit_status = none ∧ r.sys.kernel.sem_name = s.kernel.sem_name := by
  unfold cs_leave at h
  dsimp only at h
  by_cases c0 : s.ctl.cs_method_used = CS_METHOD_ATOMIC
  · rw [if_pos c0] at h
    rw [← Option.some.inj h]; exact ⟨rfl, rfl⟩
  rw [if_neg c0] at h
  by_cases c1 : s.ctl.cs_method_used = CS_METHOD_LOCKED ∨ s.ctl.cs_method_used = CS_METHOD_TEST_XCHG
  · rw [if_pos c1] at h
    rw [← Option.some.inj h]; exact ⟨rfl, rfl⟩
  rw [if_neg c1] at h
  by_cases c2 : s.ctl.cs_method_used = CS_METHOD_XCHG
  · rw [if_pos c2] at h
    rw [← Option.some.inj h]; exact ⟨rfl, rfl⟩
  rw [if_neg c2] at h
  by_cases c3 : s.ctl.cs_method_used = CS_METHOD_MUTEX
  · rw [if_pos c3] at h
    exact ⟨(unchecked_call_facts h).1, (unchecked_call_facts h).2.2.2⟩
  rw [if_neg c3] at h
  by_cases c4 : s.ctl.cs_method_used = CS_METHOD_SEM_POSIX
  · rw [if_pos c4] at h
    exact ⟨(unchecked_call_facts h).1, (unchecked_call_facts h).2.2.2⟩
  rw [if_neg c4] at h
  by_cases c5 : s.ctl.cs_method_used = CS_METHOD_SEM_POSIX_NAMED
  · rw [if_pos c5] at h
    exact ⟨(unchecked_call_facts h).1, (unchecked_call_facts h).2.2.2⟩
  rw [if_neg c5] at h
  by_cases c6 : s.ctl.cs_method_used = CS_METHOD_SEM_SYSV
  · rw [if_pos c6] at h
    exact ⟨(unchecked_call_facts h).1, (unchecked_call_facts h).2.2.2⟩
  rw [if_neg c6] at h
  by_cases c7 : s.ctl.cs_method_used = CS_METHOD_MQ_POSIX
  · rw [if_pos c7] at h
    exact ⟨(unchecked_call_facts h).1, (unchecked_call_facts h).2.2.2⟩
  rw [if_neg c7] at h
  by_cases c8 : s.ctl.cs_method_used = CS_METHOD_MQ_SYSV
  · rw [if_pos c8] at h
    exact ⟨(unchecked_call_facts h).1, (unchecked_call_facts h).2.2.2⟩
  rw [if_neg c8] at h
  rw [← Option.some.inj h]; exact ⟨rfl, rfl⟩

theorem cs_enter_blocking (fails : LockCall → Bool) (id : Int) (s : System) {c : LockCall}
    (hm : 4 ≤ s.ctl.cs_method_used ∧ s.ctl.cs_method_used ≤ 9)
    (hc : enter_call s.ctl.cs_method_used = some c) :
    cs_enter fails id s = unchecked_call fails c s := by
  obtain ⟨⟨m, a, locked, x⟩, h, k⟩ := s
  simp only at hm hc
  have hcases : m = 4 ∨ m = 5 ∨ m = 6 ∨ m = 7 ∨ m = 8 ∨ m = 9 := by omega
  rcases hcases with h1 | h1 | h1 | h1 | h1 | h1 <;> subst h1 <;> cases hc <;> rfl

theorem cs_leave_blocking (fails : LockCall → Bool) (id : Int) (s : System) {c : LockCall}
    (hm : 4 ≤ s.ctl.cs_method_used ∧ s.ctl.cs_method_used ≤ 9)
    (hc : leave_call s.ctl.cs_method_used = some c) :
    cs_leave fails id s = unchecked_call fails c s := by
  obtain ⟨⟨m, a, locked, x⟩, h, k⟩ := s
  simp only at hm hc
  have hcases : m = 4 ∨ m = 5 ∨ m = 6 ∨ m = 7 ∨ m = 8 ∨ m = 9 := by omega
  rcases hcases with h1 | h1 | h1 | h1 | h1 | h1 <;> subst h1 <;> cases hc <;> rfl

theorem blocking_calls_exist {m : Int} (hm : 4 ≤ m ∧ m ≤ 9) :
    (∃ c, enter_call m = some c) ∧ (∃ c, leave_call m = some c) := by
  have hcases : m = 4 ∨ m = 5 ∨ m = 6 ∨ m = 7 ∨ m = 8 ∨ m = 9 := by omega
  rcases hcases with h1 | h1 | h1 | h1 | h1 | h1 <;> subst h1 <;> exact ⟨⟨_, rfl⟩, ⟨_, rfl⟩⟩

/-- C13 (amended): in `src/8` the results of the calls of `cs_enter` and
`cs_leave` are not examined. For every blocking method (4..9), every state and
every environment: `cs_enter` and `cs_leave` never set an exit status; when the
call of `cs_enter` (`pthread_mutex_lock`, `sem_wait`, `semop`, `mq_receive`,
`msgrcv`) reports failure, `cs_enter` returns normally with the system
unchanged, and the iteration of `do_withdrawals` goes on to execute `withdraw`
and `cs_leave` without the process ending; when the call of `cs_leave` reports
failure, `cs_leave` returns normally with the system unchanged. -/
theorem hot_loop_failures_ignored (fails : LockCall → Bool) (cs_method : Int) (id : Int)
    (tid : Nat) (s : System) (ledger : Ledger)
    (hm : 4 ≤ s.ctl.cs_method_used ∧ s.ctl.cs_method_used ≤ 9) :
    (∃ c, enter_call s.ctl.cs_method_used = some c) ∧
    (∃ c, leave_call s.ctl.cs_method_used = some c) ∧
    (∀ r, cs_enter fails id s = some r → r.exit_status = none) ∧
    (∀ r, cs_leave fails id s = some r → r.exit_status = none) ∧
    (∀ c, enter_call s.ctl.cs_method_used = some c → fails c = true →
      cs_enter fails id s = some { sys := s, calls := [c], exit_status := none } ∧
      ∀ l, cs_leave fails tid s = some l →
        do_withdrawals_iteration fails cs_method tid s ledger =
          some { sys := l.sys, ledger := withdrawal_round cs_method tid ledger,
                 exit_status := none }) ∧
    (∀ c, leave_call s.ctl.cs_method_used = some c → fails c = true →
      cs_leave fails id s = some { sys := s, calls := [c], exit_status := none }) := by
  refine ⟨(blocking_calls_exist hm).1, (blocking_calls_exist hm).2,
    fun r h => (cs_enter_facts h).1, fun r h => (cs_leave_facts h).1, ?_, ?_⟩
  · intro c hc hf
    have henter : ∀ i : Int, cs_enter fails i s =
        some { sys := s, calls := [c], exit_status := none } := by
      intro i
      rw [cs_enter_blocking fails i s hm hc, unchecked_call_failed s hf]
    refine ⟨henter id, fun l hl => ?_⟩
    unfold do_withdrawals_iteration
    rw [henter tid]
    simp only [hl, (cs_leave_facts hl).1]
  · intro c hc hf
    rw [cs_leave_blocking fails id s hm hc, unchecked_call_failed s hf]

/-- Witness for C13 (amended): the mutex after `cs_init` at program start, with
every call of `cs_enter` and `cs_leave` failing. -/
theorem hot_loop_failures_ignored_witness :
    cs_enter (fun _ => true) 0 (cs_init_system (fun _ => false) 4 initial_system).sys =
      some { sys := (cs_init_system (fun _ => false) 4 initial_system).sys,
             calls := [LockCall.pthread_mutex_lock], exit_status := none } ∧
    cs_leave (fun _ => true) 0 (cs_init_system (fun _ => false) 4 initial_system).sys =
      some { sys := (cs_init_system (fun _ => false) 4 initial_system).sys,
             calls := [LockCall.pthread_mutex_unlock], exit_status := none } := by
  have h := hot_loop_failures_ignored (fun _ => true) 4 0 0
    (cs_init_system (fun _ => false) 4 initial_system).sys (initial_ledger 8) (by decide)
  exact ⟨(h.2.2.2.2.1 LockCall.pthread_mutex_lock rfl rfl).1,
    h.2.2.2.2.2 LockCall.pthread_mutex_unlock rfl rfl⟩

/-- C13 as stated fails in `src/8`: with the mutex initialised and
`pthread_mutex_lock` reporting failure, the iteration of `do_withdrawals` of
thread 0 ends with no exit status, and `withdraw` has been executed: the balance
went from 8 to 7 and `withdrawn[0]` from 0 to 1. -/
theorem hot_loop_failure_does_not_abort :
    (cs_enter (fun c => decide (c = LockCall.pthread_mutex_lock)) 0
      (cs_init_system (fun _ => false) CS_METHOD_MUTEX initial_system).sys).map
        (fun r => (r.calls, r.exit_status)) =
      some ([LockCall.pthread_mutex_lock], none) ∧
    (do_withdrawals_iteration (fun c => decide (c = LockCall.pthread_mutex_lock))
      CS_METHOD_MUTEX 0 (cs_init_system (fun _ => false) CS_METHOD_MUTEX initial_system).sys
      (initial_ledger 8)).map
        (fun r => (r.exit_status, r.ledger.balance, r.ledger.withdrawn 0)) =
      some (none, 7, 1) := by
  exact ⟨by decide, by decide⟩

/-! ## The name of the semaphore -/

theorem cs_destroy_sem_name (fails : ReleaseCall → Bool) (s : System) :
    (cs_destroy fails s).sys.kernel.sem_name = s.kernel.sem_name := by
  have hrel : ∀ c, (release_call fails c s).sys.kernel.sem_name = s.kernel.sem_name := by
    intro c
    unfold release_call
    by_cases h : fails c = true
    · rw [if_pos h]
    · rw [if_neg h]
      cases c <;> rfl
  unfold cs_destroy
  by_cases h : s.ctl.cs_var_allocated = false
  · rw [if_pos h]
  · rw [if_neg h]
    show (cs_destroy_switch fails s).sys.kernel.sem_name = _
    unfold cs_destroy_switch
    dsimp only
    split_ifs
    · exact hrel _
    · exact hrel _
    · exact hrel _
    · exact hrel _
    · exact hrel _
    · exact hrel _
    · rfl

theorem apply_ops_sem_name (lfails : LockCall → Bool) (rfails : ReleaseCall → Bool) :
    ∀ (ops : List ControllerOp) (s t : System), apply_ops lfails rfails ops s = some t →
      t.kernel.sem_name = s.kernel.sem_name
  | [], s, t, h => by
    cases h
    rfl
  | op :: rest, s, t, h => by
    unfold apply_ops at h
    cases hop : apply_op lfails rfails op s with
    | none =>
      rw [hop] at h
      cases h
    | some u =>
      rw [hop] at h
      have hrest := apply_ops_sem_name lfails rfails rest u t h
      rw [hrest]
      cases op with
      | enter id =>
        simp only [apply_op] at hop
        cases he : cs_enter lfails id s with
        | none =>
          rw [he] at hop
          exact absurd hop (by simp)
        | some r =>
          rw [he] at hop
          rw [← Option.some.inj hop]
          exact (cs_enter_facts he).2
      | leave id =>
        simp only [apply_op] at hop
        cases he : cs_leave lfails id s with
        | none =>
          rw [he] at hop
          exact absurd hop (by simp)
        | some r =>
          rw [he] at hop
          rw [← Option.some.inj hop]
          exact (cs_leave_facts he).2
      | destroy =>
        simp only [apply_op] at hop
        rw [← Option.some.inj hop]
        exact cs_destroy_sem_name rfails s

theorem cs_init_named_success (fails : Call → Bool) (s : System)
    (hok : (cs_init_system fails CS_METHOD_SEM_POSIX_NAMED s).exit_status = none) :
    fails Call.sem_open = false ∧ fails Call.sem_unlink = false ∧ s.kernel.sem_name = false ∧
    (cs_init_system fails CS_METHOD_SEM_POSIX_NAMED s).sys.kernel.sem_name = false := by
  have hc : cs_init (call_fails fails s.kernel) CS_METHOD_SEM_POSIX_NAMED s.ctl =
      cs_init_sem_posix_named (call_fails fails s.kernel)
        { s.ctl with cs_method_used := CS_METHOD_SEM_POSIX_NAMED } := rfl
  unfold cs_init_system at hok ⊢
  simp only [hc] at hok ⊢
  obtain ⟨h1, h2, h3⟩ := cs_init_sem_posix_named_success hok
  simp only [h3, kernel_after, h1, h2]
  unfold call_fails name_exists at h1 h2
  simp only [Bool.or_eq_false_iff] at h1 h2
  exact ⟨h1.1, h2.1, h1.2, rfl⟩

theorem cs_init_named_of_absent (fails : Call → Bool) (s : System)
    (habsent : s.kernel.sem_name = false) (h1 : fails Call.sem_open = false)
    (h2 : fails Call.sem_unlink = false) :
    (cs_init_system fails CS_METHOD_SEM_POSIX_NAMED s).exit_status = none := by
  have hc : cs_init (call_fails fails s.kernel) CS_METHOD_SEM_POSIX_NAMED s.ctl =
      cs_init_sem_posix_named (call_fails fails s.kernel)
        { s.ctl with cs_method_used := CS_METHOD_SEM_POSIX_NAMED } := rfl
  unfold cs_init_system
  simp only [hc]
  unfold cs_init_sem_posix_named
  have f1 : call_fails fails s.kernel Call.sem_open = false := by
    unfold call_fails name_exists
    simp [h1, habsent]
  have f2 : call_fails fails s.kernel Call.sem_unlink = false := by
    unfold call_fails name_exists
    simp [h2]
  simp [f1, f2]

/-- C15: for every state in which `SEM_NAME` is absent, `sem_open` with
`O_CREAT|O_EXCL` does not fail because of the name, and a successful
`cs_init(6)` returns with `SEM_NAME` absent again; `cs_enter`, `cs_leave` and
`cs_destroy` never change whether the name exists; hence after any sequence of
these operations (the run may end at any point of it) and the end of the
process the name is absent, and in the next run `sem_open` fails only if the
environment makes it fail: with `sem_open` and `sem_unlink` succeeding,
`cs_init(6)` of the next run succeeds. -/
theorem no_stale_semaphore_name (fails fails2 : Call → Bool) (lfails : LockCall → Bool)
    (rfails : ReleaseCall → Bool) (s : System) (ops : List ControllerOp)
    (habsent : s.kernel.sem_name = false)
    (hok : (cs_init_system fails CS_METHOD_SEM_POSIX_NAMED s).exit_status = none) :
    call_fails fails s.kernel Call.sem_open = fails Call.sem_open ∧
    (cs_init_system fails CS_METHOD_SEM_POSIX_NAMED s).sys.kernel.sem_name = false ∧
    (∀ t id r, cs_enter lfails id t = some r → r.sys.kernel.sem_name = t.kernel.sem_name) ∧
    (∀ t id r, cs_leave lfails id t = some r → r.sys.kernel.sem_name = t.kernel.sem_name) ∧
    (∀ t, (cs_destroy rfails t).sys.kernel.sem_name = t.kernel.sem_name) ∧
    (∀ t, apply_ops lfails rfails ops (cs_init_system fails CS_METHOD_SEM_POSIX_NAMED s).sys =
        some t →
      (process_terminated t.kernel).sem_name = false ∧
      call_fails fails2 (process_terminated t.kernel) Call.sem_open = fails2 Call.sem_open ∧
      (fails2 Call.sem_open = false → fails2 Call.sem_unlink = false →
        (cs_init_system fails2 CS_METHOD_SEM_POSIX_NAMED
          { ctl := initial_controller, psem_named_locked := false,
            kernel := process_terminated t.kernel }).exit_status = none)) := by
  obtain ⟨-, -, -, hname⟩ := cs_init_named_success fails s hok
  refine ⟨?_, hname, fun t id r h => (cs_enter_facts h).2, fun t id r h => (cs_leave_facts h).2,
    cs_destroy_sem_name rfails, fun t ht => ?_⟩
  · unfold call_fails name_exists
    simp [habsent]
  · have hend : (process_terminated t.kernel).sem_name = false := by
      show t.kernel.sem_name = false
      rw [apply_ops_sem_name lfails rfails ops _ t ht]
      exact hname
    refine ⟨hend, ?_, fun h1 h2 => cs_init_named_of_absent fails2 _ hend h1 h2⟩
    unfold call_fails name_exists
    simp [hend]

/-- Witness for C15: the named semaphore at program start, one round of
`cs_enter; cs_leave`, then `cs_destroy`. -/
theorem no_stale_semaphore_name_witness :
    (cs_init_system (fun _ => false) CS_METHOD_SEM_POSIX_NAMED initial_system).sys.kernel.sem_name
      = false ∧
    ∃ t, apply_ops (fun _ => false) (fun _ => false)
        [ControllerOp.enter 0, ControllerOp.leave 0, ControllerOp.destroy]
        (cs_init_system (fun _ => false) CS_METHOD_SEM_POSIX_NAMED initial_system).sys = some t ∧
      (process_terminated t.kernel).sem_name = false ∧
      (cs_init_system (fun _ => false) CS_METHOD_SEM_POSIX_NAMED
        { ctl := initial_controller, psem_named_locked := false,
          kernel := process_terminated t.kernel }).exit_status = none := by
  have h := no_stale_semaphore_name (fun _ => false) (fun _ => false) (fun _ => false)
    (fun _ => false) initial_system
    [ControllerOp.enter 0, ControllerOp.leave 0, ControllerOp.destroy] rfl rfl
  refine ⟨h.2.1, _, rfl, ?_⟩
  obtain ⟨h1, -, h3⟩ := h.2.2.2.2.2 _ rfl
  exact ⟨h1, h3 rfl rfl⟩

/-! ## The Atomic method: check, then act -/

theorem atomic_withdraw_uninterrupted (amount : Int) (t : Nat) (s : AtomicState)
    (ledger : Ledger) (hpc : s.pc t = APc.check)
    (hbal : ledger.balance_atomic = s.balance_atomic) :
    ∃ s', (atomic_withdraw_run amount [t, t] s = some s' ∨
        atomic_withdraw_run amount [t] s = some s') ∧
      s'.pc t = APc.returned (withdraw CS_METHOD_ATOMIC amount ledger).1 ∧
      s'.balance_atomic = (withdraw CS_METHOD_ATOMIC amount ledger).2.balance_atomic := by
  by_cases hlt : s.balance_atomic < amount
  · refine ⟨{ s with pc := Function.update s.pc t (APc.returned false) }, Or.inr ?_, ?_, ?_⟩
    · simp only [atomic_withdraw_run, atomic_withdraw_step, hpc, if_pos hlt]
    · rw [withdraw_atomic_reject rfl (by rw [hbal]; exact hlt)]
      simp
    · rw [withdraw_atomic_reject rfl (by rw [hbal]; exact hlt)]
      exact hbal.symm
  · refine ⟨{ balance_atomic := wrapLong (s.balance_atomic - amount),
              pc := Function.update (Function.update s.pc t APc.subtract) t
                (APc.returned true) }, Or.inl ?_, ?_, ?_⟩
    · simp only [atomic_withdraw_run, atomic_withdraw_step, hpc, if_neg hlt,
        Function.update_same]
    · rw [withdraw_atomic_accept rfl (by rw [hbal]; exact hlt)]
      simp
    · rw [withdraw_atomic_accept rfl (by rw [hbal]; exact hlt)]
      show _ = wrapLong (ledger.balance_atomic - amount)
      rw [hbal]

/-- C17: with the comparison `balance_atomic < amount` and the subtraction
`balance_atomic -= amount` of `withdraw` as two steps, there are a balance, an
amount and an interleaving of two calls after which both calls have returned
`true` and the balance is negative: balance 1, amount 1, threads 0 and 1 both
compare before either subtracts; the balance ends at -1. Run one after the
other, the same two calls return `true` and `false` and the balance ends at 0. -/
theorem atomic_check_then_act_race :
    ∃ (balance amount : Int) (schedule : List Nat) (final : Int),
      0 ≤ balance ∧ 0 < amount ∧ isLong balance ∧ isLong amount ∧
      (atomic_withdraw_run amount schedule (atomic_start balance)).map
          (fun s => (s.pc 0, s.pc 1, s.balance_atomic)) =
        some (APc.returned true, APc.returned true, final) ∧
      final < 0 ∧
      (atomic_withdraw_run amount [0, 0, 1] (atomic_start balance)).map
          (fun s => (s.pc 0, s.pc 1, s.balance_atomic)) =
        some (APc.returned true, APc.returned false, 0) :=
  ⟨1, 1, [0, 1, 0, 1], -1, by decide, by decide, by decide, by decide, by decide, by decide,
    by decide⟩

/-! ## Teardown in `src/4` and `src/5` -/

theorem src4_cs_init_success (fails : Call → Bool) {m : Int} (c : Controller)
    (hm : m = 4 ∨ m = 5 ∨ m = 6) (hok : (Src4.cs_init fails m c).exit_status = none) :
    (Src4.cs_init fails m c).ctl.cs_var_allocated = true ∧
    (Src4.cs_init fails m c).ctl.cs_method_used = m := by
  rcases hm with h | h | h <;> subst h
  · have hc : Src4.cs_init fails 4 c = cs_init_mutex fails { c with cs_method_used := 4 } := rfl
    rw [hc] at hok ⊢
    rw [(cs_init_mutex_success hok).2]
    exact ⟨rfl, rfl⟩
  · have hc : Src4.cs_init fails 5 c =
        cs_init_sem_posix fails { c with cs_method_used := 5 } := rfl
    rw [hc] at hok ⊢
    rw [(cs_init_sem_posix_success hok).2]
    exact ⟨rfl, rfl⟩
  · have hc : Src4.cs_init fails 6 c =
        cs_init_sem_posix_named fails { c with cs_method_used := 6 } := rfl
    rw [hc] at hok ⊢
    rw [(cs_init_sem_posix_named_success hok).2.2]
    exact ⟨rfl, rfl⟩

theorem src5_cs_init_success (fails : Call → Bool) (c : Controller)
    (hok : (Src5.cs_init fails 7 c).exit_status = none) :
    (Src5.cs_init fails 7 c).ctl.cs_var_allocated = true ∧
    (Src5.cs_init fails 7 c).ctl.cs_method_used = 7 := by
  have hc : Src5.cs_init fails 7 c = cs_init_sem_sysv fails { c with cs_method_used := 7 } := rfl
  rw [hc] at hok ⊢
  rw [(cs_init_sem_sysv_success hok).2.2]
  exact ⟨rfl, rfl⟩

theorem release_call_or_exit_facts (fails : ReleaseCall → Bool) (c : ReleaseCall)
    (s : System) :
    (release_call_or_exit fails c s).calls = [c] ∧
    (release_call_or_exit fails c s).sys.ctl = s.ctl := by
  unfold release_call_or_exit
  by_cases h : fails c = true
  · rw [if_pos h]
    exact ⟨rfl, rfl⟩
  · rw [if_neg h]
    exact ⟨rfl, rfl⟩

theorem src4_cs_destroy_allocated (fails : ReleaseCall → Bool) (s : System)
    (ha : s.ctl.cs_var_allocated = true)
    (hm : s.ctl.cs_method_used = 4 ∨ s.ctl.cs_method_used = 5 ∨ s.ctl.cs_method_used = 6) :
    (∃ c, (Src4.cs_destroy fails s).calls = [c] ∧
      (s.ctl.cs_method_used = 4 → c = ReleaseCall.pthread_mutex_destroy) ∧
      (s.ctl.cs_method_used = 5 → c = ReleaseCall.sem_destroy) ∧
      (s.ctl.cs_method_used = 6 → c = ReleaseCall.sem_close)) ∧
    (Src4.cs_destroy fails s).sys.ctl = s.ctl := by
  obtain ⟨⟨m, a, locked, x⟩, h, k⟩ := s
  simp only at ha hm
  subst ha
  rcases hm with h1 | h1 | h1 <;> subst h1
  · have hd : Src4.cs_destroy fails ⟨⟨4, true, locked, x⟩, h, k⟩ =
        release_call_or_exit fails ReleaseCall.pthread_mutex_destroy
          ⟨⟨4, true, locked, x⟩, h, k⟩ := rfl
    rw [hd]
    obtain ⟨h1, h2⟩ := release_call_or_exit_facts fails ReleaseCall.pthread_mutex_destroy
      ⟨⟨4, true, locked, x⟩, h, k⟩
    exact ⟨⟨_, h1, fun _ => rfl, fun h => (by simp at h), fun h => (by simp at h)⟩,
      h2⟩
  · have hd : Src4.cs_destroy fails ⟨⟨5, true, locked, x⟩, h, k⟩ =
        release_call_or_exit fails ReleaseCall.sem_destroy
          ⟨⟨5, true, locked, x⟩, h, k⟩ := rfl
    rw [hd]
    obtain ⟨h1, h2⟩ := release_call_or_exit_facts fails ReleaseCall.sem_destroy
      ⟨⟨5, true, locked, x⟩, h, k⟩
    exact ⟨⟨_, h1, fun h => (by simp at h), fun _ => rfl, fun h => (by simp at h)⟩,
      h2⟩
  · obtain ⟨h1, h2⟩ := release_call_or_exit_facts fails ReleaseCall.sem_close
      ⟨⟨6, true, locked, x⟩, h, k⟩
    cases hf : fails ReleaseCall.sem_close
    · have hd : Src4.cs_destroy fails ⟨⟨6, true, locked, x⟩, h, k⟩ =
          { sys := ⟨⟨6, true, locked, x⟩, false, release_effect ReleaseCall.sem_close k⟩,
            calls := [ReleaseCall.sem_close], reported := [], exit_status := none } := by
        simp [Src4.cs_destroy, release_call_or_exit, hf, CS_METHOD_MUTEX, CS_METHOD_SEM_POSIX,
          CS_METHOD_SEM_POSIX_NAMED]
      rw [hd]
      exact ⟨⟨_, rfl, fun h => (by simp at h), fun h => (by simp at h),
        fun _ => rfl⟩, rfl⟩
    · have hd : Src4.cs_destroy fails ⟨⟨6, true, locked, x⟩, h, k⟩ =
          release_call_or_exit fails ReleaseCall.sem_close ⟨⟨6, true, locked, x⟩, h, k⟩ := by
        simp [Src4.cs_destroy, release_call_or_exit, hf, CS_METHOD_MUTEX, CS_METHOD_SEM_POSIX,
          CS_METHOD_SEM_POSIX_NAMED]
      rw [hd]
      exact ⟨⟨_, h1, fun h => (by simp at h), fun h => (by simp at h),
        fun _ => rfl⟩, h2⟩

theorem src5_cs_destroy_allocated (fails : ReleaseCall → Bool) (s : System)
    (ha : s.ctl.cs_var_allocated = true) (hm : s.ctl.cs_method_used = 7) :
    (Src5.cs_destroy fails s).calls = [ReleaseCall.semctl_IPC_RMID] ∧
    (Src5.cs_destroy fails s).sys.ctl = s.ctl := by
  obtain ⟨⟨m, a, locked, x⟩, h, k⟩ := s
  simp only at ha hm
  subst ha
  subst hm
  have hd : Src5.cs_destroy fails ⟨⟨7, true, locked, x⟩, h, k⟩ =
      release_call_or_exit fails ReleaseCall.semctl_IPC_RMID ⟨⟨7, true, locked, x⟩, h, k⟩ := rfl
  rw [hd]
  exact release_call_or_exit_facts fails ReleaseCall.semctl_IPC_RMID _

/-- C19 fails in `src/4` and `src/5`: `cs_destroy` there never clears
`cs_var_allocated`. After a successful `cs_init` for the mutex, the POSIX
semaphore or the named semaphore (`src/4`) or the System V semaphore (`src/5`),
whatever the first `cs_destroy` meets, the flag is still true after it and a
second `cs_destroy` issues the release call of the method again. For the mutex
of `src/4`: two calls of `cs_destroy` issue `pthread_mutex_destroy` twice, and
when the second one reports failure the process exits with `EXIT_FAILURE`; for
the semaphore of `src/5`, `semctl IPC_RMID` is issued twice. -/
theorem earlier_variants_release_twice :
    (∀ (fails : Call → Bool) (rf rf2 : ReleaseCall → Bool) (m : Int) (s : System),
      (m = 4 ∨ m = 5 ∨ m = 6) → (Src4.cs_init fails m s.ctl).exit_status = none →
      (Src4.cs_destroy rf
        { s with ctl := (Src4.cs_init fails m s.ctl).ctl }).sys.ctl.cs_var_allocated = true ∧
      ∃ c, (Src4.cs_destroy rf { s with ctl := (Src4.cs_init fails m s.ctl).ctl }).calls = [c] ∧
        (Src4.cs_destroy rf2 (Src4.cs_destroy rf
          { s with ctl := (Src4.cs_init fails m s.ctl).ctl }).sys).calls = [c]) ∧
    (∀ (fails : Call → Bool) (rf rf2 : ReleaseCall → Bool) (s : System),
      (Src5.cs_init fails 7 s.ctl).exit_status = none →
      (Src5.cs_destroy rf
        { s with ctl := (Src5.cs_init fails 7 s.ctl).ctl }).sys.ctl.cs_var_allocated = true ∧
      (Src5.cs_destroy rf { s with ctl := (Src5.cs_init fails 7 s.ctl).ctl }).calls =
        [ReleaseCall.semctl_IPC_RMID] ∧
      (Src5.cs_destroy rf2 (Src5.cs_destroy rf
        { s with ctl := (Src5.cs_init fails 7 s.ctl).ctl }).sys).calls =
        [ReleaseCall.semctl_IPC_RMID]) ∧
    (Src4.cs_init (fun _ => false) 4 initial_controller).exit_status = none ∧
    (Src4.cs_destroy (fun _ => false)
      { ctl := (Src4.cs_init (fun _ => false) 4 initial_controller).ctl,
        psem_named_locked := false,
        kernel := { empty_kernel with mutex := some false } }).exit_status = none ∧
    (Src4.cs_destroy (fun _ => false)
      { ctl := (Src4.cs_init (fun _ => false) 4 initial_controller).ctl,
        psem_named_locked := false,
        kernel := { empty_kernel with mutex := some false } }).calls ++
      (Src4.cs_destroy (fun _ => false) (Src4.cs_destroy (fun _ => false)
        { ctl := (Src4.cs_init (fun _ => false) 4 initial_controller).ctl,
          psem_named_locked := false,
          kernel := { empty_kernel with mutex := some false } }).sys).calls =
      [ReleaseCall.pthread_mutex_destroy, ReleaseCall.pthread_mutex_destroy] ∧
    (Src4.cs_destroy (fun _ => true) (Src4.cs_destroy (fun _ => false)
      { ctl := (Src4.cs_init (fun _ => false) 4 initial_controller).ctl,
        psem_named_locked := false,
        kernel := { empty_kernel with mutex := some false } }).sys).exit_status =
      some EXIT_FAILURE ∧
    (Src5.cs_destroy (fun _ => false)
      { ctl := (Src5.cs_init (fun _ => false) 7 initial_controller).ctl,
        psem_named_locked := false,
        kernel := { empty_kernel with sem_sysv := some 1 } }).calls ++
      (Src5.cs_destroy (fun _ => false) (Src5.cs_destroy (fun _ => false)
        { ctl := (Src5.cs_init (fun _ => false) 7 initial_controller).ctl,
          psem_named_locked := false,
          kernel := { empty_kernel with sem_sysv := some 1 } }).sys).calls =
      [ReleaseCall.semctl_IPC_RMID, ReleaseCall.semctl_IPC_RMID] := by
  refine ⟨?_, ?_, by decide, by decide, by decide, by decide, by decide⟩
  · intro fails rf rf2 m s hm hok
    obtain ⟨ha, hused⟩ := src4_cs_init_success fails s.ctl hm hok
    have hm1 : (Src4.cs_init fails m s.ctl).ctl.cs_method_used = 4 ∨
        (Src4.cs_init fails m s.ctl).ctl.cs_method_used = 5 ∨
        (Src4.cs_init fails m s.ctl).ctl.cs_method_used = 6 := by
      rw [hused]
      exact hm
    obtain ⟨⟨c, hc, -⟩, hctl⟩ := src4_cs_destroy_allocated rf
      { s with ctl := (Src4.cs_init fails m s.ctl).ctl } ha hm1
    have ha2 : (Src4.cs_destroy rf
        { s with ctl := (Src4.cs_init fails m s.ctl).ctl }).sys.ctl.cs_var_allocated = true := by
      rw [hctl]
      exact ha
    have hm2 : (Src4.cs_destroy rf
          { s with ctl := (Src4.cs_init fails m s.ctl).ctl }).sys.ctl.cs_method_used = 4 ∨
        (Src4.cs_destroy rf
          { s with ctl := (Src4.cs_init fails m s.ctl).ctl }).sys.ctl.cs_method_used = 5 ∨
        (Src4.cs_destroy rf
          { s with ctl := (Src4.cs_init fails m s.ctl).ctl }).sys.ctl.cs_method_used = 6 := by
      rw [hctl]
      exact hm1
    obtain ⟨⟨c2, hc2, h4, h5, h6⟩, -⟩ := src4_cs_destroy_allocated rf2 _ ha2 hm2
    obtain ⟨⟨c1, hc1, g4, g5, g6⟩, -⟩ := src4_cs_destroy_allocated rf
      { s with ctl := (Src4.cs_init fails m s.ctl).ctl } ha hm1
    refine ⟨ha2, c1, hc1, ?_⟩
    rw [hc2]
    rw [hctl] at h4 h5 h6
    rcases hm1 with h | h | h
    · rw [h4 h, g4 h]
    · rw [h5 h, g5 h]
    · rw [h6 h, g6 h]
  · intro fails rf rf2 s hok
    obtain ⟨ha, hused⟩ := src5_cs_init_success fails s.ctl hok
    obtain ⟨hc, hctl⟩ := src5_cs_destroy_allocated rf
      { s with ctl := (Src5.cs_init fails 7 s.ctl).ctl } ha hused
    have ha2 : (Src5.cs_destroy rf
        { s with ctl := (Src5.cs_init fails 7 s.ctl).ctl }).sys.ctl.cs_var_allocated = true := by
      rw [hctl]
      exact ha
    have hm2 : (Src5.cs_destroy rf
        { s with ctl := (Src5.cs_init fails 7 s.ctl).ctl }).sys.ctl.cs_method_used = 7 := by
      rw [hctl]
      exact hused
    exact ⟨ha2, hc, (src5_cs_destroy_allocated rf2 _ ha2 hm2).1⟩

/-! ## Test-then-exchange against plain exchange -/

/-- C21: for every value of the flag, one uninterrupted evaluation of the loop
condition of `CS_METHOD_TEST_XCHG` (relaxed load, then the exchange only when
the load returned `false`) has the same value as `atomic_flag_test_and_set` of
`CS_METHOD_XCHG` on the same flag (the lock is acquired iff the flag was
`false`) and leaves the same flag, `true`; when the flag is `true` already the
exchange is not executed and nothing is written, where the plain exchange
always writes. -/
theorem test_xchg_refines_xchg (flag : Bool) :
    (test_xchg_condition flag).value = (xchg_condition flag).value ∧
    (test_xchg_condition flag).value = flag ∧
    (test_xchg_condition flag).flag = (xchg_condition flag).flag ∧
    (test_xchg_condition flag).flag = true ∧
    (flag = true → (test_xchg_condition flag).writes = 0) ∧
    (flag = false → (test_xchg_condition flag).writes = 1) ∧
    (xchg_condition flag).writes = 1 := by
  cases flag <;> decide

/-! ## The sizes of the POSIX message queue -/

/-- C22: in `src/8` and in `src/6` the queue is created with `mq_maxmsg = 1` and
`mq_msgsize = MQ_POSIX_MESSAGE_LIMIT`; the messages sent by `cs_init` and
`cs_leave` have length `MQ_POSIX_MESSAGE_LIMIT`, which is at most `mq_msgsize`
and at most the size of the literal `MQ_POSIX_MESSAGE` with its terminator (5
for `"lock"` with limit 4, 1 for `""` with limit 1); the length given to
`mq_receive` by `cs_enter` is at least `mq_msgsize` and at most the size of
`mq_posix_buffer` (5 resp. 1); so every send and receive satisfies the size
rules of `mq_send` and `mq_receive`. -/
theorem mq_posix_sizes_consistent :
    (mq_posix_attr.mq_maxmsg = 1 ∧ mq_posix_attr.mq_msgsize = MQ_POSIX_MESSAGE_LIMIT ∧
      cs_init_mq_send.msg_len = MQ_POSIX_MESSAGE_LIMIT ∧
      cs_leave_mq_send.msg_len = MQ_POSIX_MESSAGE_LIMIT ∧
      (MQ_POSIX_MESSAGE_LIMIT : Int) ≤ mq_posix_attr.mq_msgsize ∧
      MQ_POSIX_MESSAGE_LIMIT ≤ sizeof_literal MQ_POSIX_MESSAGE ∧
      sizeof_literal MQ_POSIX_MESSAGE = 5 ∧
      mq_posix_attr.mq_msgsize ≤ (cs_enter_mq_receive.msg_len : Int) ∧
      cs_enter_mq_receive.msg_len ≤ sizeof_mq_posix_buffer ∧
      sizeof_mq_posix_buffer = 5 ∧
      mq_send_fits mq_posix_attr cs_init_mq_send = true ∧
      mq_send_fits mq_posix_attr cs_leave_mq_send = true ∧
      mq_receive_fits mq_posix_attr cs_enter_mq_receive = true) ∧
    (Src6.mq_posix_attr.mq_maxmsg = 1 ∧
      Src6.mq_posix_attr.mq_msgsize = Src6.MQ_POSIX_MESSAGE_LIMIT ∧
      Src6.cs_init_mq_send.msg_len = Src6.MQ_POSIX_MESSAGE_LIMIT ∧
      Src6.cs_leave_mq_send.msg_len = Src6.MQ_POSIX_MESSAGE_LIMIT ∧
      (Src6.MQ_POSIX_MESSAGE_LIMIT : Int) ≤ Src6.mq_posix_attr.mq_msgsize ∧
      Src6.MQ_POSIX_MESSAGE_LIMIT ≤ sizeof_literal Src6.MQ_POSIX_MESSAGE ∧
      sizeof_literal Src6.MQ_POSIX_MESSAGE = 1 ∧
      Src6.mq_posix_attr.mq_msgsize ≤ (Src6.cs_enter_mq_receive.msg_len : Int) ∧
      Src6.cs_enter_mq_receive.msg_len ≤ Src6.sizeof_mq_posix_buffer ∧
      Src6.sizeof_mq_posix_buffer = 1 ∧
      mq_send_fits Src6.mq_posix_attr Src6.cs_init_mq_send = true ∧
      mq_send_fits Src6.mq_posix_attr Src6.cs_leave_mq_send = true ∧
      mq_receive_fits Src6.mq_posix_attr Src6.cs_enter_mq_receive = true) := by
  refine ⟨⟨by decide, by decide, by decide, by decide, by decide, by decide, by decide,
    by decide, by decide, by decide, by decide, by decide, by decide⟩, ?_⟩
  exact ⟨rfl, rfl, rfl, rfl, by decide, by decide, by decide, by decide, by decide,
    by decide, by decide, by decide, by decide⟩

/-! ## The frame of a worker -/

theorem withdrawal_round_frame (cs_method : Int) (tid : Nat) (s : Ledger) :
    (∀ j, j ≠ tid → (withdrawal_round cs_method tid s).withdrawn j = s.withdrawn j) ∧
    (cs_method = CS_METHOD_ATOMIC → (withdrawal_round cs_method tid s).balance = s.balance) ∧
    (cs_method ≠ CS_METHOD_ATOMIC →
      (withdrawal_round cs_method tid s).balance_atomic = s.balance_atomic) ∧
    (withdrawal_round cs_method tid s).withdrawn tid =
      (if (withdraw cs_method WITHDRAW_AMOUNT s).1 = true then
        wrapLong (s.withdrawn tid + WITHDRAW_AMOUNT)
      else s.withdrawn tid) := by
  by_cases hm : cs_method = CS_METHOD_ATOMIC
  · by_cases hlt : s.balance_atomic < WITHDRAW_AMOUNT
    · have hr : withdrawal_round cs_method tid s = s :=
        withdrawal_round_reject tid (by unfold active_balance; rw [if_pos hm]; exact hlt)
      rw [hr, withdraw_atomic_reject hm hlt]
      exact ⟨fun _ _ => rfl, fun _ => rfl, fun _ => rfl, by simp⟩
    · have hw := withdraw_atomic_accept hm hlt
      unfold withdrawal_round
      simp only [hw, if_true]
      refine ⟨fun j hj => Function.update_noteq hj _ _, fun _ => trivial, fun h => absurd hm h, ?_⟩
      simp
  · by_cases hlt : s.balance < WITHDRAW_AMOUNT
    · have hr : withdrawal_round cs_method tid s = s :=
        withdrawal_round_reject tid (by unfold active_balance; rw [if_neg hm]; exact hlt)
      rw [hr, withdraw_plain_reject hm hlt]
      exact ⟨fun _ _ => rfl, fun _ => rfl, fun _ => rfl, by simp⟩
    · have hw := withdraw_plain_accept hm hlt
      unfold withdrawal_round
      simp only [hw, if_true]
      refine ⟨fun j hj => Function.update_noteq hj _ _, fun h => absurd h hm, fun _ => trivial, ?_⟩
      simp

theorem do_withdrawals_loop_length (cs_method : Int) (tid : Nat)
    (others : Nat → Ledger → Ledger) :
    ∀ (todo i : Nat) (s : Ledger),
      (do_withdrawals_loop cs_method tid others todo i s).1.length = todo
  | 0, _, _ => rfl
  | todo + 1, i, s => by
    simp only [do_withdrawals_loop, List.length_cons,
      do_withdrawals_loop_length cs_method tid others todo]

theorem do_withdrawals_loop_slot (cs_method : Int) (tid : Nat)
    (others : Nat → Ledger → Ledger)
    (hothers : ∀ i l, (others i l).withdrawn tid = l.withdrawn tid) :
    ∀ (todo i : Nat) (s : Ledger), LONG_MIN ≤ s.withdrawn tid →
      s.withdrawn tid + todo ≤ LONG_MAX →
      (do_withdrawals_loop cs_method tid others todo i s).2.withdrawn tid =
        s.withdrawn tid +
          WITHDRAW_AMOUNT * ((do_withdrawals_loop cs_method tid others todo i s).1.count true)
  | 0, _, s, _, _ => by simp [do_withdrawals_loop]
  | todo + 1, i, s, hlo, hhi => by
    have hslot := (withdrawal_round_frame cs_method tid (others i s)).2.2.2
    rw [hothers i s] at hslot
    unfold LONG_MIN at hlo
    unfold LONG_MAX at hhi
    push_cast at hhi
    cases hres : (withdraw cs_method WITHDRAW_AMOUNT (others i s)).1
    · rw [hres] at hslot
      simp only [Bool.false_eq_true, if_false] at hslot
      have ih := do_withdrawals_loop_slot cs_method tid others hothers todo (i + 1)
        (withdrawal_round cs_method tid (others i s))
        (by rw [hslot]; unfold LONG_MIN; exact hlo)
        (by rw [hslot]; unfold LONG_MAX; omega)
      simp only [do_withdrawals_loop, hres]
      rw [ih, hslot]
      simp
    · rw [hres] at hslot
      simp only [if_true] at hslot
      have hwrap : wrapLong (s.withdrawn tid + WITHDRAW_AMOUNT) = s.withdrawn tid + 1 := by
        apply wrapLong_of_isLong
        unfold isLong LONG_MIN LONG_MAX WITHDRAW_AMOUNT
        omega
      rw [hwrap] at hslot
      have ih := do_withdrawals_loop_slot cs_method tid others hothers todo (i + 1)
        (withdrawal_round cs_method tid (others i s))
        (by rw [hslot]; unfold LONG_MIN; omega)
        (by rw [hslot]; unfold LONG_MAX; omega)
      simp only [do_withdrawals_loop, hres]
      rw [ih, hslot]
      simp only [List.count_cons_self, WITHDRAW_AMOUNT]
      push_cast
      ring

theorem do_withdrawals_loop_frame (cs_method : Int) (tid : Nat)
    (others : Nat → Ledger → Ledger) (get : Ledger → Int)
    (hothers : ∀ i l, get (others i l) = get l)
    (hround : ∀ l, get (withdrawal_round cs_method tid l) = get l) :
    ∀ (todo i : Nat) (s : Ledger),
      get (do_withdrawals_loop cs_method tid others todo i s).2 = get s
  | 0, _, _ => rfl
  | todo + 1, i, s => by
    simp only [do_withdrawals_loop]
    rw [do_withdrawals_loop_frame cs_method tid others get hothers hround todo, hround, hothers]

theorem do_withdrawals_complete {do_sync_start : Bool}
    {verbose barrier_wait cs_method per_thread : Int} {tid : Nat}
    {others : Nat → Ledger → Ledger} {s : Ledger}
    (h : (do_withdrawals do_sync_start verbose barrier_wait cs_method per_thread tid others
      s).exit_status = none) :
    (do_withdrawals do_sync_start verbose barrier_wait cs_method per_thread tid others
        s).attempts = (do_withdrawals_loop cs_method tid others per_thread.toNat 0 s).1 ∧
    (do_withdrawals do_sync_start verbose barrier_wait cs_method per_thread tid others
        s).ledger = (do_withdrawals_loop cs_method tid others per_thread.toNat 0 s).2 := by
  unfold do_withdrawals at h ⊢
  dsimp only at h ⊢
  split at h
  · exact absurd h (by simp)
  · rename_i hnone
    simp only [hnone]
    exact ⟨trivial, trivial⟩

/-- C23: for every worker slot `tid`, every `per_thread` and every method, a run
of `do_withdrawals` that comes to an end, started with `withdrawn[tid]` such
that `withdrawn[tid] + max(0, per_thread)` is within `long` (it is 0 in the
program), among other threads that leave `withdrawn[tid]` alone: makes exactly
`max(0, per_thread)` calls of `withdraw`; increases `withdrawn[tid]` by
`WITHDRAW_AMOUNT` times the number of calls that returned `true`; leaves every
slot `withdrawn[j]`, `j ≠ tid`, as the other threads leave it; and leaves the
balance variable not in use (`balance` for the Atomic method, `balance_atomic`
otherwise) as the other threads leave it. Each single iteration, from any
ledger, writes no slot but `withdrawn[tid]` and not the balance not in use. -/
theorem worker_frame (do_sync_start : Bool) (verbose barrier_wait cs_method per_thread : Int)
    (tid : Nat) (others : Nat → Ledger → Ledger) (s : Ledger)
    (hcomplete : (do_withdrawals do_sync_start verbose barrier_wait cs_method per_thread tid
      others s).exit_status = none)
    (hothers : ∀ i l, (others i l).withdrawn tid = l.withdrawn tid)
    (hlo : LONG_MIN ≤ s.withdrawn tid)
    (hhi : s.withdrawn tid + max 0 per_thread ≤ LONG_MAX) :
    ((do_withdrawals do_sync_start verbose barrier_wait cs_method per_thread tid others
      s).attempts.length : Int) = max 0 per_thread ∧
    (do_withdrawals do_sync_start verbose barrier_wait cs_method per_thread tid others
      s).ledger.withdrawn tid =
      s.withdrawn tid + WITHDRAW_AMOUNT *
        ((do_withdrawals do_sync_start verbose barrier_wait cs_method per_thread tid others
          s).attempts.count true) ∧
    (∀ j, j ≠ tid → (∀ i l, (others i l).withdrawn j = l.withdrawn j) →
      (do_withdrawals do_sync_start verbose barrier_wait cs_method per_thread tid others
        s).ledger.withdrawn j = s.withdrawn j) ∧
    (cs_method = CS_METHOD_ATOMIC → (∀ i l, (others i l).balance = l.balance) →
      (do_withdrawals do_sync_start verbose barrier_wait cs_method per_thread tid others
        s).ledger.balance = s.balance) ∧
    (cs_method ≠ CS_METHOD_ATOMIC →
      (∀ i l, (others i l).balance_atomic = l.balance_atomic) →
      (do_withdrawals do_sync_start verbose barrier_wait cs_method per_thread tid others
        s).ledger.balance_atomic = s.balance_atomic) ∧
    (∀ l : Ledger,
      (∀ j, j ≠ tid → (withdrawal_round cs_method tid l).withdrawn j = l.withdrawn j) ∧
      (cs_method = CS_METHOD_ATOMIC → (withdrawal_round cs_method tid l).balance = l.balance) ∧
      (cs_method ≠ CS_METHOD_ATOMIC →
        (withdrawal_round cs_method tid l).balance_atomic = l.balance_atomic)) := by
  obtain ⟨hatt, hled⟩ := do_withdrawals_complete hcomplete
  rw [hatt, hled]
  have hmax : ((per_thread.toNat : Nat) : Int) = max 0 per_thread := by
    rw [Int.toNat_eq_max, max_comm]
  refine ⟨?_, ?_, fun j hj hoj => ?_, fun hm hob => ?_, fun hm hob => ?_, fun l => ?_⟩
  · rw [do_withdrawals_loop_length, hmax]
  · exact do_withdrawals_loop_slot cs_method tid others hothers per_thread.toNat 0 s hlo
      (by rw [hmax]; exact hhi)
  · exact do_withdrawals_loop_frame cs_method tid others (fun l => l.withdrawn j) hoj
      (fun l => (withdrawal_round_frame cs_method tid l).1 j hj) _ _ s
  · exact do_withdrawals_loop_frame cs_method tid others (fun l => l.balance) hob
      (fun l => (withdrawal_round_frame cs_method tid l).2.1 hm) _ _ s
  · exact do_withdrawals_loop_frame cs_method tid others (fun l => l.balance_atomic) hob
      (fun l => (withdrawal_round_frame cs_method tid l).2.2.1 hm) _ _ s
  · exact ⟨(withdrawal_round_frame cs_method tid l).1, (withdrawal_round_frame cs_method tid l).2.1,
      (withdrawal_round_frame cs_method tid l).2.2.1⟩

/-- Witness for C23: worker 0 with the mutex, three iterations from the balance
2, no other thread: three calls of `withdraw`, the last one rejected,
`withdrawn[0] = 2`, and `withdrawn[1]` and `balance_atomic` as before. -/
theorem worker_frame_witness :
    (do_withdrawals true 1 0 CS_METHOD_MUTEX 3 0 no_others (initial_ledger 2)).attempts =
      [true, true, false] ∧
    (do_withdrawals true 1 0 CS_METHOD_MUTEX 3 0 no_others
      (initial_ledger 2)).ledger.withdrawn 0 = 2 ∧
    (do_withdrawals true 1 0 CS_METHOD_MUTEX 3 0 no_others
      (initial_ledger 2)).ledger.withdrawn 1 = 0 ∧
    (do_withdrawals true 1 0 CS_METHOD_MUTEX 3 0 no_others
      (initial_ledger 2)).ledger.balance_atomic = 2 := by
  have h := worker_frame true 1 0 CS_METHOD_MUTEX 3 0 no_others (initial_ledger 2) rfl
    (fun _ _ => rfl) (by decide) (by decide)
  have hatt : (do_withdrawals true 1 0 CS_METHOD_MUTEX 3 0 no_others
      (initial_ledger 2)).attempts = [true, true, false] := by decide
  refine ⟨hatt, ?_, h.2.2.1 1 (by decide) (fun _ _ => rfl),
    h.2.2.2.2.1 (by decide) (fun _ _ => rfl)⟩
  have h2 := h.2.1
  rw [hatt] at h2
  exact h2

/-! ## The start barrier -/

theorem reach_final {σ : Type} (Step : σ → σ → Prop) (Inv Final : σ → Prop) (μ : σ → Int)
    (hμ : ∀ s, Inv s → 0 ≤ μ s)
    (hprog : ∀ s, Inv s → ¬ Final s → ∃ s', Step s s' ∧ Inv s' ∧ μ s' < μ s) :
    ∀ (m : Nat) (s : σ), Inv s → μ s ≤ m → ∃ s', Relation.ReflTransGen Step s s' ∧ Final s' := by
  intro m
  induction m with
  | zero =>
    intro s hinv hm
    by_cases hf : Final s
    · exact ⟨s, Relation.ReflTransGen.refl, hf⟩
    · obtain ⟨s', -, hinv', hlt⟩ := hprog s hinv hf
      have := hμ s' hinv'
      omega
  | succ m ih =>
    intro s hinv hm
    by_cases hf : Final s
    · exact ⟨s, Relation.ReflTransGen.refl, hf⟩
    · obtain ⟨s', hstep, hinv', hlt⟩ := hprog s hinv hf
      obtain ⟨s'', hreach, hfin⟩ := ih s' hinv' (by omega)
      exact ⟨s'', Relation.ReflTransGen.head hstep hreach, hfin⟩

theorem sync_threads_facts (verbose r : Int) :
    (SyncEvent.time_init ∈ (sync_threads verbose r).events ↔
      r = PTHREAD_BARRIER_SERIAL_THREAD) ∧
    (sync_threads verbose r).events.count SyncEvent.time_init =
      (if r = PTHREAD_BARRIER_SERIAL_THREAD then 1 else 0) ∧
    (r = PTHREAD_BARRIER_SERIAL_THREAD → (sync_threads verbose r).exit_status = none) ∧
    (r = 0 → sync_threads verbose r = { events := [], exit_status := none }) ∧
    (r ≠ PTHREAD_BARRIER_SERIAL_THREAD → r ≠ 0 →
      sync_threads verbose r =
        { events := [SyncEvent.perror_barrier_wait], exit_status := some 3 }) := by
  unfold sync_threads
  by_cases h1 : r = PTHREAD_BARRIER_SERIAL_THREAD
  · rw [if_pos h1]
    refine ⟨by simp [h1], ?_, fun _ => rfl, fun h0 => ?_, fun h => absurd h1 h⟩
    · by_cases hv : verbose ≠ 0
      · rw [if_pos hv, if_pos h1]
        decide
      · rw [if_neg hv, if_pos h1]
        decide
    · rw [h0] at h1
      exact absurd h1 (by decide)
  · rw [if_neg h1]
    by_cases h0 : r = 0
    · rw [if_pos h0]
      exact ⟨by simp [h1], by simp [h1], fun h => absurd h h1, fun _ => rfl,
        fun _ h => absurd h0 h⟩
    · rw [if_neg h0]
      exact ⟨by simp [h1], by simp [h1], fun h => absurd h h1, fun h => absurd h h0,
        fun _ _ => rfl⟩

theorem all_arrived_iff (count : Nat) (s : BarrierState) :
    all_arrived count s = true ↔ ∀ t, t < count → s.pc t ≠ BPc.arriving := by
  unfold all_arrived
  simp [List.all_eq_true]

theorem sum_withdrawn_change {w v : Nat → Int} {t n : Nat} (ht : t < n)
    (hsame : ∀ j, j ≠ t → v j = w j) :
    sum_withdrawn v n = sum_withdrawn w n - w t + v t := by
  have e : sum_withdrawn v n = sum_withdrawn (Function.update w t (v t)) n := by
    apply sum_withdrawn_congr
    intro j _
    by_cases hj : j = t
    · subst hj
      rw [Function.update_same]
    · rw [Function.update_noteq hj, hsame j hj]
  rw [e, sum_withdrawn_update_of_lt w (v t) n ht]

theorem all_arrived_update {count : Nat} {s : BarrierState} {t : Nat} {p : BPc}
    {n : Nat} {e : Option Int} (hp : p ≠ BPc.arriving)
    (h : ∀ u, u < count → u ≠ t → s.pc u ≠ BPc.arriving) :
    all_arrived count { pc := Function.update s.pc t p, time_inits := n, exit_status := e } =
      true := by
  rw [all_arrived_iff]
  intro u hu
  show Function.update s.pc t p u ≠ BPc.arriving
  by_cases hut : u = t
  · subst hut
    rw [Function.update_same]
    exact hp
  · rw [Function.update_noteq hut]
    exact h u hu hut

theorem barrierInv_start (count serial : Nat) : BarrierInv count serial barrier_start :=
  { no_exit := rfl
    not_exited := fun _ h => BPc.noConfusion h
    counted := rfl
    arrived := fun _ h => BPc.noConfusion h }

theorem barrierInv_step {count serial : Nat} {verbose : Int} {ret : Nat → Int}
    (hret : ret serial = PTHREAD_BARRIER_SERIAL_THREAD)
    (hothers : ∀ t, t < count → t ≠ serial → ret t = 0)
    {s s' : BarrierState} (hinv : BarrierInv count serial s)
    (hstep : BarrierStep count verbose ret s s') :
    BarrierInv count serial s' ∧
    sum_withdrawn (barrier_steps_left s') count < sum_withdrawn (barrier_steps_left s) count := by
  cases hstep with
  | step t ht h =>
    unfold barrier_thread_step at h
    rw [if_neg (by rw [hinv.no_exit]; exact fun hne => hne rfl)] at h
    cases hpc : s.pc t with
    | arriving =>
      rw [hpc] at h
      have hs := Option.some.inj h
      subst hs
      have hpast : ∀ u, Function.update s.pc t BPc.waiting u = BPc.past → s.pc u = BPc.past := by
        intro u hu
        by_cases hut : u = t
        · subst hut
          rw [Function.update_same] at hu
          exact BPc.noConfusion hu
        · rw [Function.update_noteq hut] at hu
          exact hu
      refine ⟨{ no_exit := hinv.no_exit, not_exited := ?_, counted := ?_, arrived := ?_ }, ?_⟩
      · intro u
        show Function.update s.pc t BPc.waiting u ≠ BPc.exited
        by_cases hut : u = t
        · subst hut
          rw [Function.update_same]
          exact fun hh => BPc.noConfusion hh
        · rw [Function.update_noteq hut]
          exact hinv.not_exited u
      · show s.time_inits = if Function.update s.pc t BPc.waiting serial = BPc.past then 1 else 0
        rw [hinv.counted]
        by_cases hst : serial = t
        · subst hst
          rw [Function.update_same, hpc]
          rfl
        · rw [Function.update_noteq hst]
      · intro u hu
        have harr := (all_arrived_iff count s).1 (hinv.arrived u (hpast u hu))
        exact all_arrived_update (by decide) (fun v hv _ => harr v hv)
      · have hch := sum_withdrawn_change (w := barrier_steps_left s)
          (v := barrier_steps_left
            { s with pc := Function.update s.pc t BPc.waiting }) ht (by
            intro j hj
            unfold barrier_steps_left
            show (match Function.update s.pc t BPc.waiting j with
              | BPc.arriving => (2 : Int) | BPc.waiting => 1 | BPc.past => 0 | BPc.exited => 0) = _
            rw [Function.update_noteq hj])
        have h1 : barrier_steps_left s t = 2 := by
          unfold barrier_steps_left
          rw [hpc]
        have h2 : barrier_steps_left { s with pc := Function.update s.pc t BPc.waiting } t = 1 := by
          unfold barrier_steps_left
          show (match Function.update s.pc t BPc.waiting t with
            | BPc.arriving => (2 : Int) | BPc.waiting => 1 | BPc.past => 0 | BPc.exited => 0) = _
          rw [Function.update_same]
        rw [hch, h1, h2]
        omega
    | waiting =>
      rw [hpc] at h
      by_cases hall : all_arrived count s = true
      · simp only [if_pos hall] at h
        have hs := Option.some.inj h
        have harr := (all_arrived_iff count s).1 hall
        have hfacts := sync_threads_facts verbose (ret t)
        have hexit : (sync_threads verbose (ret t)).exit_status = none := by
          by_cases hts : t = serial
          · rw [hts, hret]
            exact (sync_threads_facts verbose PTHREAD_BARRIER_SERIAL_THREAD).2.2.1 rfl
          · rw [hothers t ht hts]
            rfl
        rw [hexit] at hs
        simp only [if_true] at hs
        subst hs
        refine ⟨{ no_exit := rfl, not_exited := ?_, counted := ?_, arrived := ?_ }, ?_⟩
        · intro u
          show Function.update s.pc t BPc.past u ≠ BPc.exited
          by_cases hut : u = t
          · subst hut
            rw [Function.update_same]
            exact fun hh => BPc.noConfusion hh
          · rw [Function.update_noteq hut]
            exact hinv.not_exited u
        · show s.time_inits + (sync_threads verbose (ret t)).events.count SyncEvent.time_init =
            if Function.update s.pc t BPc.past serial = BPc.past then 1 else 0
          rw [hfacts.2.1, hinv.counted]
          by_cases hts : t = serial
          · subst hts
            rw [Function.update_same, hpc, if_pos hret]
            rfl
          · have hst : serial ≠ t := fun e => hts e.symm
            rw [Function.update_noteq hst, hothers t ht hts]
            have hne : ¬ (0 : Int) = PTHREAD_BARRIER_SERIAL_THREAD := by decide
            rw [if_neg hne]
            rfl
        · intro u _
          exact all_arrived_update (by decide) (fun v hv _ => harr v hv)
        · have hch := sum_withdrawn_change (w := barrier_steps_left s)
            (v := barrier_steps_left
              { pc := Function.update s.pc t BPc.past,
                time_inits := s.time_inits +
                  (sync_threads verbose (ret t)).events.count SyncEvent.time_init,
                exit_status := none }) ht (by
              intro j hj
              unfold barrier_steps_left
              show (match Function.update s.pc t BPc.past j with
                | BPc.arriving => (2 : Int) | BPc.waiting => 1 | BPc.past => 0
                | BPc.exited => 0) = _
              rw [Function.update_noteq hj])
          have h1 : barrier_steps_left s t = 1 := by
            unfold barrier_steps_left
            rw [hpc]
          have h2 : barrier_steps_left
              { pc := Function.update s.pc t BPc.past,
                time_inits := s.time_inits +
                  (sync_threads verbose (ret t)).events.count SyncEvent.time_init,
                exit_status := none } t = 0 := by
            unfold barrier_steps_left
            show (match Function.update s.pc t BPc.past t with
              | BPc.arriving => (2 : Int) | BPc.waiting => 1 | BPc.past => 0
              | BPc.exited => 0) = _
            rw [Function.update_same]
          rw [hch, h1, h2]
          omega
      · simp only [if_neg hall] at h
        exact absurd h (by simp)
    | past =>
      rw [hpc] at h
      exact absurd h (by simp)
    | exited =>
      rw [hpc] at h
      exact absurd h (by simp)

theorem barrierInv_reachable {count serial : Nat} {verbose : Int} {ret : Nat → Int}
    (hret : ret serial = PTHREAD_BARRIER_SERIAL_THREAD)
    (hothers : ∀ t, t < count → t ≠ serial → ret t = 0)
    {s s' : BarrierState} (hinv : BarrierInv count serial s)
    (h : Relation.ReflTransGen (BarrierStep count verbose ret) s s') :
    BarrierInv count serial s' := by
  induction h with
  | refl => exact hinv
  | tail _ hstep ih => exact (barrierInv_step hret hothers ih hstep).1

theorem barrier_steps_left_nonneg (s : BarrierState) (t : Nat) : 0 ≤ barrier_steps_left s t := by
  unfold barrier_steps_left
  cases s.pc t <;> decide

theorem barrier_progress {count serial : Nat} {verbose : Int} {ret : Nat → Int}
    (hret : ret serial = PTHREAD_BARRIER_SERIAL_THREAD)
    (hothers : ∀ t, t < count → t ≠ serial → ret t = 0)
    (s : BarrierState) (hinv : BarrierInv count serial s)
    (hnot : ¬ ∀ t, t < count → s.pc t = BPc.past) :
    ∃ s', BarrierStep count verbose ret s s' ∧ BarrierInv count serial s' ∧
      sum_withdrawn (barrier_steps_left s') count < sum_withdrawn (barrier_steps_left s) count := by
  have hgo : ∀ s', BarrierStep count verbose ret s s' →
      ∃ s', BarrierStep count verbose ret s s' ∧ BarrierInv count serial s' ∧
        sum_withdrawn (barrier_steps_left s') count <
          sum_withdrawn (barrier_steps_left s) count :=
    fun s' hstep => ⟨s', hstep, (barrierInv_step hret hothers hinv hstep).1,
      (barrierInv_step hret hothers hinv hstep).2⟩
  have hexit : ¬ s.exit_status ≠ none := fun hne => hne hinv.no_exit
  by_cases harr : ∃ t, t < count ∧ s.pc t = BPc.arriving
  · obtain ⟨t, ht, hpc⟩ := harr
    have hex : ∃ s', barrier_thread_step count verbose ret t s = some s' := by
      unfold barrier_thread_step
      rw [if_neg hexit, hpc]
      exact ⟨_, rfl⟩
    obtain ⟨s', hs'⟩ := hex
    exact hgo s' (BarrierStep.step s s' t ht hs')
  · push_neg at harr hnot
    obtain ⟨t, ht, hpc⟩ := hnot
    have hw : s.pc t = BPc.waiting := by
      have h1 := harr t ht
      have h2 := hinv.not_exited t
      cases hp : s.pc t with
      | arriving => exact absurd hp h1
      | waiting => rfl
      | past => exact absurd hp hpc
      | exited => exact absurd hp h2
    have hall : all_arrived count s = true := (all_arrived_iff count s).2 harr
    have hex : ∃ s', barrier_thread_step count verbose ret t s = some s' := by
      unfold barrier_thread_step
      rw [if_neg hexit, hw]
      simp only [if_pos hall]
      exact ⟨_, rfl⟩
    obtain ⟨s', hs'⟩ := hex
    exact hgo s' (BarrierStep.step s s' t ht hs')

theorem barrier_run_reachable (count : Nat) (verbose : Int) (ret : Nat → Int) :
    ∀ (schedule : List Nat) (s : BarrierState),
      Relation.ReflTransGen (BarrierStep count verbose ret) s
        (barrier_run count verbose ret schedule s)
  | [], _ => Relation.ReflTransGen.refl
  | t :: rest, s => by
    unfold barrier_run
    by_cases ht : t < count
    · rw [if_pos ht]
      cases hstep : barrier_thread_step count verbose ret t s with
      | none => exact barrier_run_reachable count verbose ret rest s
      | some s' =>
        exact Relation.ReflTransGen.head (BarrierStep.step s s' t ht hstep)
          (barrier_run_reachable count verbose ret rest s')
    · rw [if_neg ht]
      exact barrier_run_reachable count verbose ret rest s

theorem do_withdrawals_barrier_error (verbose r cs_method per_thread : Int) (tid : Nat)
    (others : Nat → Ledger → Ledger) (l : Ledger)
    (h1 : r ≠ PTHREAD_BARRIER_SERIAL_THREAD) (h0 : r ≠ 0) :
    (do_withdrawals true verbose r cs_method per_thread tid others l).exit_status = some 3 ∧
    (do_withdrawals true verbose r cs_method per_thread tid others l).attempts = [] ∧
    SyncEvent.time_init ∉
      (do_withdrawals true verbose r cs_method per_thread tid others l).events := by
  unfold do_withdrawals
  simp only [if_true, (sync_threads_facts verbose r).2.2.2.2 h1 h0]
  exact ⟨trivial, trivial, by decide⟩

theorem main_without_time_init (cfg : Config) (os : OS) (ctl : Controller)
    (workers : Ledger → Option Ledger) (h : cfg.do_sync_start = true) :
    Event.time_init ∉ (main cfg os ctl workers).events := by
  unfold main
  dsimp only
  split_ifs <;> repeat' split
  all_goals simp [h]

/-- C24: `sync_threads` calls `time_init` iff `pthread_barrier_wait` returned
`PTHREAD_BARRIER_SERIAL_THREAD`; on 0 it does nothing and returns; on any other
value it calls `exit(3)` without `time_init`, and `do_withdrawals` makes no call
of `withdraw`. With the start synchronised `main` itself never calls
`time_init`. For a barrier of `count` participants that returns
`PTHREAD_BARRIER_SERIAL_THREAD` to exactly one of them (`serial`) and 0 to the
others, in every reachable state: no worker has called `exit`; `time_init` has
been called at most once, and once iff the worker `serial` is past the barrier;
it is called only after all workers have arrived; when all workers are past the
barrier it has been called exactly once; and every run can be continued until
all workers are past the barrier. -/
theorem timing_window_start (count serial : Nat) (verbose : Int) (ret : Nat → Int)
    (s : BarrierState) (hserial : serial < count)
    (hret : ret serial = PTHREAD_BARRIER_SERIAL_THREAD)
    (hothers : ∀ t, t < count → t ≠ serial → ret t = 0)
    (hs : BarrierReachable count verbose ret s) :
    (∀ v r : Int,
      (SyncEvent.time_init ∈ (sync_threads v r).events ↔ r = PTHREAD_BARRIER_SERIAL_THREAD) ∧
      (r = PTHREAD_BARRIER_SERIAL_THREAD → (sync_threads v r).exit_status = none) ∧
      (r = 0 → sync_threads v r = { events := [], exit_status := none }) ∧
      (r ≠ PTHREAD_BARRIER_SERIAL_THREAD → r ≠ 0 →
        (sync_threads v r).exit_status = some 3 ∧
        ∀ m p tid others l,
          (do_withdrawals true v r m p tid others l).exit_status = some 3 ∧
          (do_withdrawals true v r m p tid others l).attempts = [] ∧
          SyncEvent.time_init ∉ (do_withdrawals true v r m p tid others l).events)) ∧
    (∀ cfg os ctl workers, cfg.do_sync_start = true →
      Event.time_init ∉ (main cfg os ctl workers).events) ∧
    s.exit_status = none ∧
    s.time_inits ≤ 1 ∧
    (s.time_inits = 1 ↔ s.pc serial = BPc.past) ∧
    (s.time_inits = 1 → ∀ t, t < count → s.pc t ≠ BPc.arriving) ∧
    ((∀ t, t < count → s.pc t = BPc.past) → s.time_inits = 1) ∧
    (∃ s', Relation.ReflTransGen (BarrierStep count verbose ret) s s' ∧
      (∀ t, t < count → s'.pc t = BPc.past) ∧ s'.time_inits = 1) := by
  have hinv : BarrierInv count serial s :=
    barrierInv_reachable hret hothers (barrierInv_start count serial) hs
  have hcount := hinv.counted
  have hiff : s.time_inits = 1 ↔ s.pc serial = BPc.past := by
    rw [hcount]
    by_cases hp : s.pc serial = BPc.past
    · rw [if_pos hp]
      exact ⟨fun _ => hp, fun _ => rfl⟩
    · rw [if_neg hp]
      exact ⟨fun h => absurd h (by decide), fun h => absurd h hp⟩
  refine ⟨fun v r => ?_, main_without_time_init, hinv.no_exit, ?_, hiff, ?_, ?_, ?_⟩
  · obtain ⟨f1, -, f3, f4, f5⟩ := sync_threads_facts v r
    refine ⟨f1, f3, f4, fun h1 h0 => ⟨?_, fun m p tid others l =>
      do_withdrawals_barrier_error v r m p tid others l h1 h0⟩⟩
    rw [f5 h1 h0]
  · rw [hcount]
    split_ifs <;> omega
  · intro h1 t ht
    exact (all_arrived_iff count s).1 (hinv.arrived serial (hiff.1 h1)) t ht
  · intro hall
    exact hiff.2 (hall serial hserial)
  · obtain ⟨s', hreach, hfin⟩ := reach_final (BarrierStep count verbose ret)
      (BarrierInv count serial) (fun u => ∀ t, t < count → u.pc t = BPc.past)
      (fun u => sum_withdrawn (barrier_steps_left u) count)
      (fun u _ => sum_withdrawn_nonneg (barrier_steps_left_nonneg u) count)
      (fun u hu hnot => barrier_progress hret hothers u hu hnot)
      (sum_withdrawn (barrier_steps_left s) count).toNat s hinv (by
        show sum_withdrawn (barrier_steps_left s) count ≤ _
        have := sum_withdrawn_nonneg (barrier_steps_left_nonneg s) count
        omega)
    have hinv' := @barrierInv_reachable count serial verbose ret hret hothers s s' hinv hreach
    refine ⟨s', hreach, hfin, ?_⟩
    rw [hinv'.counted, if_pos (hfin serial hserial)]

/-- Witness for C24: two workers, the barrier elects worker 1; both arrive,
worker 1 passes, then worker 0. -/
theorem timing_window_start_witness :
    (barrier_run 2 1 (fun t => if t = 1 then PTHREAD_BARRIER_SERIAL_THREAD else 0)
      [0, 1, 1, 0] barrier_start).time_inits = 1 ∧
    (barrier_run 2 1 (fun t => if t = 1 then PTHREAD_BARRIER_SERIAL_THREAD else 0)
      [0, 1] barrier_start).time_inits = 0 := by
  have h := timing_window_start 2 1 1
    (fun t => if t = 1 then PTHREAD_BARRIER_SERIAL_THREAD else 0)
    (barrier_run 2 1 (fun t => if t = 1 then PTHREAD_BARRIER_SERIAL_THREAD else 0)
      [0, 1, 1, 0] barrier_start) (by decide) rfl (by decide)
    (barrier_run_reachable 2 1 _ _ barrier_start)
  exact ⟨h.2.2.2.2.2.2.1 (by decide), by decide⟩

/-! ## The Atomic method in the configuration of `main` -/

theorem atomicInv_local {n : Nat} {k : Int} {s s' : AtomicWorkers} {t : Nat} (ht : t < n)
    (hinv : AtomicInv n k s)
    (hpc : ∀ j, j ≠ t → s'.pc j = s.pc j) (hi : ∀ j, j ≠ t → s'.i j = s.i j)
    (hw : ∀ j, j ≠ t → s'.withdrawn j = s.withdrawn j)
    (hrej : s'.rejected = 0) (hlo : 0 ≤ s'.i t) (hhi : s'.i t ≤ k)
    (hmid : s'.pc t = WPc.check ∨ s'.pc t = WPc.subtract ∨ s'.pc t = WPc.credit → s'.i t < k)
    (hfin : s'.pc t = WPc.done → s'.i t = k)
    (hwd : s'.withdrawn t = s'.i t)
    (hbal : s'.balance_atomic = s.balance_atomic - (subtractions s' t - subtractions s t))
    (hsteps : steps_left k s' t < steps_left k s t) :
    AtomicInv n k s' ∧
    sum_withdrawn (steps_left k s') n < sum_withdrawn (steps_left k s) n := by
  have hsub : ∀ j, j ≠ t → subtractions s' j = subtractions s j := by
    intro j hj
    unfold subtractions
    rw [hpc j hj, hi j hj]
  have hst : ∀ j, j ≠ t → steps_left k s' j = steps_left k s j := by
    intro j hj
    unfold steps_left
    rw [hpc j hj, hi j hj]
  have e1 := sum_withdrawn_change ht hsub
  have e2 := sum_withdrawn_change ht hst
  refine ⟨{ bal := ?_, lo := ?_, hi := ?_, mid := ?_, fin := ?_, wd := ?_, rej := hrej }, ?_⟩
  · rw [hbal, hinv.bal, e1]
    ring
  · intro j
    by_cases hj : j = t
    · rw [hj]; exact hlo
    · rw [hi j hj]; exact hinv.lo j
  · intro j
    by_cases hj : j = t
    · rw [hj]; exact hhi
    · rw [hi j hj]; exact hinv.hi j
  · intro j
    by_cases hj : j = t
    · rw [hj]; exact hmid
    · rw [hpc j hj, hi j hj]; exact hinv.mid j
  · intro j
    by_cases hj : j = t
    · rw [hj]; exact hfin
    · rw [hpc j hj, hi j hj]; exact hinv.fin j
  · intro j
    by_cases hj : j = t
    · rw [hj]; exact hwd
    · rw [hw j hj, hi j hj]; exact hinv.wd j
  · rw [e2]
    omega

theorem subtractions_le {n : Nat} {k : Int} {s : AtomicWorkers} (hinv : AtomicInv n k s)
    (j : Nat) : 0 ≤ subtractions s j ∧ subtractions s j ≤ k := by
  unfold subtractions
  have h0 := hinv.lo j
  have h1 := hinv.hi j
  by_cases hc : s.pc j = WPc.credit
  · rw [if_pos hc]
    have := hinv.mid j (Or.inr (Or.inr hc))
    omega
  · rw [if_neg hc]
    omega

theorem atomic_balance_bounds {n : Nat} {k : Int} {s : AtomicWorkers}
    (hinv : AtomicInv n k s) :
    0 ≤ s.balance_atomic ∧ s.balance_atomic ≤ n * k ∧
    (∀ t, t < n → s.pc t = WPc.check ∨ s.pc t = WPc.subtract → 1 ≤ s.balance_atomic) := by
  have hle := sum_withdrawn_le_mul (w := subtractions s) (k := k) n
    (fun j _ => (subtractions_le hinv j).2)
  have hge := sum_withdrawn_nonneg (w := subtractions s) (fun j => (subtractions_le hinv j).1) n
  have hb := hinv.bal
  refine ⟨by omega, by omega, fun t ht hpc => ?_⟩
  have hslack := @sum_withdrawn_slack (subtractions s) k t n
    (fun j _ => (subtractions_le hinv j).2) ht
  have hlt : s.i t < k := by
    rcases hpc with h | h
    · exact hinv.mid t (Or.inl h)
    · exact hinv.mid t (Or.inr (Or.inl h))
  have hsub : subtractions s t = s.i t := by
    unfold subtractions
    rcases hpc with h | h
    · rw [h]; rfl
    · rw [h]; rfl
  omega

theorem atomicInv_step {n : Nat} {k : Int} (hn : 1 ≤ n) (hk0 : 0 ≤ k)
    (hfit : (n : Int) * k ≤ LONG_MAX) {s s' : AtomicWorkers} (hinv : AtomicInv n k s)
    (hstep : AtomicWorkersStep n k s s') :
    AtomicInv n k s' ∧
    sum_withdrawn (steps_left k s') n < sum_withdrawn (steps_left k s) n := by
  have hkn : k ≤ n * k := by
    have h1 : (1 : Int) ≤ n := by exact_mod_cast hn
    nlinarith
  obtain ⟨hb0, hbn, hb1⟩ := atomic_balance_bounds hinv
  unfold LONG_MAX at hfit
  cases hstep with
  | step t ht h =>
    have hlo := hinv.lo t
    have hhi := hinv.hi t
    have hwd := hinv.wd t
    unfold atomic_worker_step at h
    cases hpc : s.pc t with
    | loop_test =>
      rw [hpc] at h
      by_cases hlt : s.i t < k
      · simp only [if_pos hlt] at h
        have hs := Option.some.inj h
        subst hs
        have p' : ({ s with pc := Function.update s.pc t WPc.check } : AtomicWorkers).pc t =
            WPc.check := Function.update_same _ _ _
        apply atomicInv_local ht hinv
        · intro j hj; exact Function.update_noteq hj _ _
        · intro j _; rfl
        · intro j _; rfl
        · exact hinv.rej
        · exact hlo
        · exact hhi
        · intro _; exact hlt
        · intro hd
          rw [p'] at hd
          exact WPc.noConfusion hd
        · exact hwd
        · unfold subtractions
          rw [p', hpc]
          simp
        · unfold steps_left
          rw [p', hpc]
          show 4 * (k - s.i t) < 4 * (k - s.i t) + 1
          omega
      · simp only [if_neg hlt] at h
        have hs := Option.some.inj h
        subst hs
        have p' : ({ s with pc := Function.update s.pc t WPc.done } : AtomicWorkers).pc t =
            WPc.done := Function.update_same _ _ _
        apply atomicInv_local ht hinv
        · intro j hj; exact Function.update_noteq hj _ _
        · intro j _; rfl
        · intro j _; rfl
        · exact hinv.rej
        · exact hlo
        · exact hhi
        · intro hm
          rw [p'] at hm
          rcases hm with hm | hm | hm <;> exact WPc.noConfusion hm
        · intro _
          show s.i t = k
          omega
        · exact hwd
        · unfold subtractions
          rw [p', hpc]
          simp
        · unfold steps_left
          rw [p', hpc]
          show (0 : Int) < 4 * (k - s.i t) + 1
          omega
    | check =>
      rw [hpc] at h
      have hone := hb1 t ht (Or.inl hpc)
      have hlt : ¬ s.balance_atomic < WITHDRAW_AMOUNT := by
        unfold WITHDRAW_AMOUNT
        omega
      simp only [if_neg hlt] at h
      have hs := Option.some.inj h
      subst hs
      have p' : ({ s with pc := Function.update s.pc t WPc.subtract } : AtomicWorkers).pc t =
          WPc.subtract := Function.update_same _ _ _
      apply atomicInv_local ht hinv
      · intro j hj; exact Function.update_noteq hj _ _
      · intro j _; rfl
      · intro j _; rfl
      · exact hinv.rej
      · exact hlo
      · exact hhi
      · intro _; exact hinv.mid t (Or.inl hpc)
      · intro hd
        rw [p'] at hd
        exact WPc.noConfusion hd
      · exact hwd
      · unfold subtractions
        rw [p', hpc]
        simp
      · unfold steps_left
        rw [p', hpc]
        show 4 * (k - s.i t) - 1 < 4 * (k - s.i t)
        omega
    | subtract =>
      rw [hpc] at h
      have hone := hb1 t ht (Or.inr hpc)
      have hs := Option.some.inj h
      subst hs
      have hwrap : wrapLong (s.balance_atomic - WITHDRAW_AMOUNT) = s.balance_atomic - 1 := by
        apply wrapLong_of_isLong
        unfold isLong LONG_MIN LONG_MAX WITHDRAW_AMOUNT
        omega
      have p' : ({ s with balance_atomic := wrapLong (s.balance_atomic - WITHDRAW_AMOUNT),
                          pc := Function.update s.pc t WPc.credit } : AtomicWorkers).pc t =
          WPc.credit := Function.update_same _ _ _
      apply atomicInv_local ht hinv
      · intro j hj; exact Function.update_noteq hj _ _
      · intro j _; rfl
      · intro j _; rfl
      · exact hinv.rej
      · exact hlo
      · exact hhi
      · intro _; exact hinv.mid t (Or.inr (Or.inl hpc))
      · intro hd
        rw [p'] at hd
        exact WPc.noConfusion hd
      · exact hwd
      · unfold subtractions
        rw [p', hpc, if_pos rfl, if_neg (by decide)]
        show wrapLong (s.balance_atomic - WITHDRAW_AMOUNT) =
          s.balance_atomic - (s.i t + 1 - s.i t)
        rw [hwrap]
        omega
      · unfold steps_left
        rw [p', hpc]
        show 4 * (k - s.i t) - 2 < 4 * (k - s.i t) - 1
        omega
    | credit =>
      rw [hpc] at h
      have hlt := hinv.mid t (Or.inr (Or.inr hpc))
      have hs := Option.some.inj h
      subst hs
      have hi1 : wrapLong (s.i t + 1) = s.i t + 1 := by
        apply wrapLong_of_isLong
        unfold isLong LONG_MIN LONG_MAX
        omega
      have hw1 : wrapLong (s.withdrawn t + WITHDRAW_AMOUNT) = s.i t + 1 := by
        rw [hwd]
        exact hi1
      have p' : ({ s with withdrawn := Function.update s.withdrawn t
                            (wrapLong (s.withdrawn t + WITHDRAW_AMOUNT)),
                          i := Function.update s.i t (wrapLong (s.i t + 1)),
                          pc := Function.update s.pc t WPc.loop_test } : AtomicWorkers).pc t =
          WPc.loop_test := Function.update_same _ _ _
      have i' : ({ s with withdrawn := Function.update s.withdrawn t
                            (wrapLong (s.withdrawn t + WITHDRAW_AMOUNT)),
                          i := Function.update s.i t (wrapLong (s.i t + 1)),
                          pc := Function.update s.pc t WPc.loop_test } : AtomicWorkers).i t =
          s.i t + 1 := by
        show Function.update s.i t (wrapLong (s.i t + 1)) t = s.i t + 1
        rw [Function.update_same, hi1]
      apply atomicInv_local ht hinv
      · intro j hj; exact Function.update_noteq hj _ _
      · intro j hj; exact Function.update_noteq hj _ _
      · intro j hj; exact Function.update_noteq hj _ _
      · exact hinv.rej
      · rw [i']; omega
      · rw [i']; omega
      · intro hm
        rw [p'] at hm
        rcases hm with hm | hm | hm <;> exact WPc.noConfusion hm
      · intro hd
        rw [p'] at hd
        exact WPc.noConfusion hd
      · rw [i']
        show Function.update s.withdrawn t (wrapLong (s.withdrawn t + WITHDRAW_AMOUNT)) t = _
        rw [Function.update_same, hw1]
      · unfold subtractions
        rw [p', hpc, if_neg (by decide), if_pos rfl, i']
        show s.balance_atomic = _
        omega
      · unfold steps_left
        rw [p', hpc]
        show 4 * (k - Function.update s.i t (wrapLong (s.i t + 1)) t) + 1 < 4 * (k - s.i t) - 2
        rw [Function.update_same, hi1]
        omega
    | done =>
      rw [hpc] at h
      exact absurd h (by simp)

theorem atomicInv_start (n : Nat) {k : Int} (hk0 : 0 ≤ k) :
    AtomicInv n k (atomic_workers_start (n * k)) := by
  have hsum : sum_withdrawn (subtractions (atomic_workers_start (n * k))) n = 0 := by
    have e := sum_withdrawn_congr (w := subtractions (atomic_workers_start (n * k)))
      (v := fun _ => (0 : Int)) n (fun j _ => rfl)
    rw [e]
    exact sum_withdrawn_zero n
  refine { bal := ?_, lo := fun _ => Int.le_refl 0, hi := fun _ => hk0, mid := ?_, fin := ?_,
           wd := fun _ => rfl, rej := rfl }
  · rw [hsum]
    show (n : Int) * k = n * k - 0
    omega
  · intro t h
    rcases h with h | h | h <;> exact WPc.noConfusion h
  · intro t h
    exact WPc.noConfusion h

theorem atomicInv_reachable {n : Nat} {k : Int} (hn : 1 ≤ n) (hk0 : 0 ≤ k)
    (hfit : (n : Int) * k ≤ LONG_MAX) {s s' : AtomicWorkers} (hinv : AtomicInv n k s)
    (h : AtomicWorkersReachable n k s s') : AtomicInv n k s' := by
  induction h with
  | refl => exact hinv
  | tail _ hstep ih => exact (atomicInv_step hn hk0 hfit ih hstep).1

theorem steps_left_nonneg {n : Nat} {k : Int} {s : AtomicWorkers} (hinv : AtomicInv n k s)
    (t : Nat) : 0 ≤ steps_left k s t := by
  have h1 := hinv.hi t
  have h2 := hinv.mid t
  unfold steps_left
  cases hpc : s.pc t with
  | loop_test => show 0 ≤ 4 * (k - s.i t) + 1; omega
  | check =>
    have := h2 (Or.inl hpc)
    show 0 ≤ 4 * (k - s.i t)
    omega
  | subtract =>
    have := h2 (Or.inr (Or.inl hpc))
    show 0 ≤ 4 * (k - s.i t) - 1
    omega
  | credit =>
    have := h2 (Or.inr (Or.inr hpc))
    show 0 ≤ 4 * (k - s.i t) - 2
    omega
  | done => exact Int.le_refl 0

theorem atomic_worker_step_some (k : Int) (t : Nat) (s : AtomicWorkers)
    (h : s.pc t ≠ WPc.done) : ∃ s', atomic_worker_step k t s = some s' := by
  unfold atomic_worker_step
  cases hpc : s.pc t with
  | loop_test =>
    by_cases hlt : s.i t < k
    · simp only [if_pos hlt]
      exact ⟨_, rfl⟩
    · simp only [if_neg hlt]
      exact ⟨_, rfl⟩
  | check =>
    by_cases hlt : s.balance_atomic < WITHDRAW_AMOUNT
    · simp only [if_pos hlt]
      exact ⟨_, rfl⟩
    · simp only [if_neg hlt]
      exact ⟨_, rfl⟩
  | subtract => exact ⟨_, rfl⟩
  | credit => exact ⟨_, rfl⟩
  | done => exact absurd hpc h

theorem atomic_progress {n : Nat} {k : Int} (hn : 1 ≤ n) (hk0 : 0 ≤ k)
    (hfit : (n : Int) * k ≤ LONG_MAX) (s : AtomicWorkers) (hinv : AtomicInv n k s)
    (hnot : ¬ atomic_workers_done n s) :
    ∃ s', AtomicWorkersStep n k s s' ∧ AtomicInv n k s' ∧
      sum_withdrawn (steps_left k s') n < sum_withdrawn (steps_left k s) n := by
  unfold atomic_workers_done at hnot
  push_neg at hnot
  obtain ⟨t, ht, hpc⟩ := hnot
  obtain ⟨s', hs'⟩ := atomic_worker_step_some k t s hpc
  have hstep := AtomicWorkersStep.step s s' t ht hs'
  exact ⟨s', hstep, (atomicInv_step hn hk0 hfit hinv hstep).1,
    (atomicInv_step hn hk0 hfit hinv hstep).2⟩

theorem atomic_workers_run_reachable (n : Nat) (k : Int) :
    ∀ (schedule : List Nat) (s : AtomicWorkers),
      AtomicWorkersReachable n k s (atomic_workers_run n k schedule s)
  | [], _ => Relation.ReflTransGen.refl
  | t :: rest, s => by
    unfold atomic_workers_run
    by_cases ht : t < n
    · rw [if_pos ht]
      cases hstep : atomic_worker_step k t s with
      | none => exact atomic_workers_run_reachable n k rest s
      | some s' =>
        exact Relation.ReflTransGen.head (AtomicWorkersStep.step s s' t ht hstep)
          (atomic_workers_run_reachable n k rest s')
    · rw [if_neg ht]
      exact atomic_workers_run_reachable n k rest s

/-- C25 (amended): with the balance `thread_count * per_thread` set by `main`,
the Atomic method, amount 1, and the comparison and the subtraction of
`withdraw` as separate steps, for every `n` in `1..1024`, every `k ≥ 0` such
that `n * k` fits in a `long`, and every interleaving: in every reachable state
`balance_atomic ≥ 0`, no call of `withdraw` has returned `false`, and a worker
about to compare finds the balance sufficient; when all workers are done
`balance_atomic = 0`, every `withdrawn[tid]` is `k`, the sum is `n * k` and the
final check of `main` yields `EXIT_SUCCESS`; and every interleaving can be
completed. -/
theorem atomic_race_harmless (n : Nat) (k : Int) (hn : 1 ≤ n ∧ (n : Int) ≤ MAX_THREADS)
    (hk0 : 0 ≤ k) (hfit : (n : Int) * k ≤ LONG_MAX) (s : AtomicWorkers)
    (hs : AtomicWorkersReachable n k (atomic_workers_start (initial_amount n k)) s) :
    0 ≤ s.balance_atomic ∧
    s.rejected = 0 ∧
    (∀ t, t < n → s.pc t = WPc.check → ¬ s.balance_atomic < WITHDRAW_AMOUNT) ∧
    (atomic_workers_done n s →
      s.balance_atomic = 0 ∧ (∀ t, t < n → s.withdrawn t = k) ∧
      sum_withdrawn s.withdrawn n = n * k ∧
      main_check CS_METHOD_ATOMIC n (initial_amount n k) (atomic_ledger s) = EXIT_SUCCESS) ∧
    (∃ s', AtomicWorkersReachable n k s s' ∧ atomic_workers_done n s') := by
  have hnk0 : (0 : Int) ≤ n * k := Int.mul_nonneg (Int.ofNat_nonneg n) hk0
  have hB : isLong ((n : Int) * k) := by
    unfold isLong LONG_MIN
    omega
  have hinit : initial_amount n k = n * k := by
    unfold initial_amount
    exact wrapLong_of_isLong hB
  rw [hinit] at hs ⊢
  have hinv : AtomicInv n k s := atomicInv_reachable hn.1 hk0 hfit (atomicInv_start n hk0) hs
  obtain ⟨hb0, -, hb1⟩ := atomic_balance_bounds hinv
  refine ⟨hb0, hinv.rej, fun t ht hpc => ?_, fun hdone => ?_, ?_⟩
  · have := hb1 t ht (Or.inl hpc)
    unfold WITHDRAW_AMOUNT
    omega
  · have hall : ∀ t, t < n → s.withdrawn t = k := by
      intro t ht
      rw [hinv.wd t]
      exact hinv.fin t (hdone t ht)
    have hsum : sum_withdrawn s.withdrawn n = n * k := by
      rw [sum_withdrawn_congr n hall, sum_withdrawn_const]
    have hsub : sum_withdrawn (subtractions s) n = n * k := by
      rw [sum_withdrawn_congr (v := fun _ => k) n (fun t ht => by
        unfold subtractions
        rw [hdone t ht, if_neg (by decide)]
        exact hinv.fin t (hdone t ht)), sum_withdrawn_const]
    have hzero : s.balance_atomic = 0 := by
      have := hinv.bal
      omega
    refine ⟨hzero, hall, hsum, ?_⟩
    apply main_check_of_ledgerInv hB
    refine ⟨?_, fun j => ?_, Or.inl ?_⟩
    · show active_balance CS_METHOD_ATOMIC (atomic_ledger s) = _
      unfold active_balance
      rw [if_pos rfl]
      show s.balance_atomic = n * k - sum_withdrawn s.withdrawn n
      omega
    · show 0 ≤ s.withdrawn j
      rw [hinv.wd j]
      exact hinv.lo j
    · unfold active_balance
      rw [if_pos rfl]
      show 0 ≤ s.balance_atomic
      omega
  · exact reach_final (AtomicWorkersStep n k) (AtomicInv n k) (atomic_workers_done n)
      (fun u => sum_withdrawn (steps_left k u) n)
      (fun u hu => sum_withdrawn_nonneg (steps_left_nonneg hu) n)
      (fun u hu hnot => atomic_progress hn.1 hk0 hfit u hu hnot)
      (sum_withdrawn (steps_left k s) n).toNat s hinv (by
        show sum_withdrawn (steps_left k s) n ≤ _
        have := sum_withdrawn_nonneg (steps_left_nonneg hinv) n
        omega)

/-- Witness for C25: two workers with one iteration each, both past the
comparison before either subtracts: the balance goes from 2 to 0, both calls
succeed and the final check passes. -/
theorem atomic_race_harmless_witness :
    (atomic_workers_run 2 1 [0, 1, 0, 1, 0, 1, 0, 1, 0, 1]
      (atomic_workers_start (initial_amount 2 1))).balance_atomic = 0 ∧
    (atomic_workers_run 2 1 [0, 1, 0, 1, 0, 1, 0, 1, 0, 1]
      (atomic_workers_start (initial_amount 2 1))).rejected = 0 ∧
    sum_withdrawn (atomic_workers_run 2 1 [0, 1, 0, 1, 0, 1, 0, 1, 0, 1]
      (atomic_workers_start (initial_amount 2 1))).withdrawn 2 = 2 ∧
    (atomic_workers_run 2 1 [0, 1, 0, 1]
      (atomic_workers_start (initial_amount 2 1))).pc 0 = WPc.subtract ∧
    (atomic_workers_run 2 1 [0, 1, 0, 1]
      (atomic_workers_start (initial_amount 2 1))).pc 1 = WPc.subtract := by
  have h := atomic_race_harmless 2 1 (by decide) (by decide) (by decide)
    (atomic_workers_run 2 1 [0, 1, 0, 1, 0, 1, 0, 1, 0, 1]
      (atomic_workers_start (initial_amount 2 1)))
    (atomic_workers_run_reachable 2 1 _ _)
  have hd := h.2.2.2.1 (by unfold atomic_workers_done; decide)
  exact ⟨hd.1, h.2.1, by simpa using hd.2.2.1, by decide, by decide⟩

/-- C25 as stated fails when `n * k` leaves the range of `long`: for 2 workers
and `k = 2^62` the balance set by `main` is `LONG_MIN`, which is negative, and
the first call of `withdraw` of worker 0 returns `false`. -/
theorem atomic_race_overflow :
    ((1 : Nat) ≤ 2 ∧ ((2 : Nat) : Int) ≤ MAX_THREADS) ∧ (0 : Int) ≤ 2 ^ 62 ∧
    isLong (2 ^ 62) ∧
    (atomic_workers_start (initial_amount 2 (2 ^ 62))).balance_atomic = LONG_MIN ∧
    (atomic_workers_start (initial_amount 2 (2 ^ 62))).balance_atomic < 0 ∧
    (atomic_workers_run 2 (2 ^ 62) [0, 0]
      (atomic_workers_start (initial_amount 2 (2 ^ 62)))).rejected = 1 ∧
    (atomic_workers_run 2 (2 ^ 62) [0, 0]
      (atomic_workers_start (initial_amount 2 (2 ^ 62)))).pc 0 = WPc.loop_test := by
  refine ⟨by decide, by decide, by decide, by decide, by decide, by decide, by decide⟩

end NNOS1
